import Mathlib

/-!
# fedramp-tui: the schema-normalization layer and the application model

A shallow embedding of `internal/api/client.go`, `internal/api/types.go`,
`internal/model/*.go`, `internal/tui/keys.go` and, of `internal/tui/app.go`,
the function `fetchData` and the model with its method `Update`.

Modelling boundary.  The Go code calls `encoding/json`.  Its lexical layer is
abstracted: a byte slice handed to `json.Unmarshal` is a `RawMessage`, which is
empty, not well-formed JSON, or a well-formed JSON value given as a syntax tree
(object members in source order, repeated keys kept).  The typed layer of
`json.Unmarshal` is modelled on that tree: decoding goes *into* an existing
value, `null` leaves strings, booleans and structs untouched and resets slices
and maps, a JSON value of the wrong kind is an `UnmarshalTypeError`, object keys
select struct fields up to case folding, unknown keys are skipped, later
members overwrite earlier ones.  Only when a key is repeated does a slice get
decoded a second time; the elements are then decoded into the elements already
there, and what Go may still hold between the length and the capacity of the
slice is taken to be zero values.  The first type error makes `json.Unmarshal`
return an error; every caller discards the partly filled target in that case,
so a failed decode carries no value here.

A Go map is an association list with unique keys; the order in which `range`
visits it is not fixed by the language, so it is a parameter (`RangeOrder`) of
the functions that iterate over a map.  Go's nil and empty slices are both the
empty list, except in `fetchDataSlices`, which gives the message of `fetchData`
with its four slices as Go has them, nil or not.

The parsers are total functions, so that each returns on every input.  What
could keep the Go code from returning is made explicit beside them: the
indexed writes into the slices from `make` (`ParseDefinitions.checked`,
`ParseIndicators.checked`, where a write out of range is a panic) and the
depth of the recursion of `extractRequirements` (`extractRequirements.bounded`).

Fetching.  Bytes that are only moved around are lists of bytes (`Bytes`); where
they reach a parser, in `fetchData`, the view `json.Unmarshal` has of them is
the parameter `lex`.  The collaborators of `fetchDocument` are parameters: the
cache (package `internal/cache`, described by the specification only) as a
state with `Get` and `Set`, the network as the answer of `httpClient.Get`, a
response body as the results of its successive `Read` calls.  The calls a
fetch makes are recorded in a trace, so that "no network request" and "writes
to the cache" can be stated.  `FetchAllDocuments` starts one goroutine per
catalog entry and waits for all of them; the goroutines share only the result
map (under a mutex) and the error channel, so a run is determined by what each
call of `fetchDocument` returns and by the order in which the goroutines
finish, both parameters.  `fetchData` takes what `FetchAllDocuments` returned.

The application.  `Update` is a function from a model and a message to a model
and a command.  The libraries bubbletea and bubbles are outside the program:
a key message and its string are written out after bubbletea; the list, the
viewport and the spinner the model holds are parameters (`Components`), with
the operations `app.go` calls on them, and may answer a message with any
command.  The text `views.go` renders is not modelled; the one place where
`Update` uses it, the content of the viewport, takes it as a parameter.
`Update` gives what the call returns when no operation of the list panics;
`Update.faults` tells when it does panic because `SetItems` or `SetSize` is
called on a list that has no delegate yet, the zero `list.Model` the model
holds until `initList` has run.
-/

namespace FedrampTui

/-! ## JSON values and `encoding/json` -/

/-- A well-formed JSON value. -/
inductive Json where
  | null
  | bool (b : Bool)
  | num (literal : String)
  | str (s : String)
  | arr (items : List Json)
  | obj (members : List (String × Json))

/-- Go `[]byte` holding (what should be) JSON text, as `json.RawMessage` and
the `data []byte` arguments: nil or of length zero, bytes that are not
well-formed JSON, or the text of a well-formed value. -/
inductive RawMessage where
  | empty
  | malformed
  | value (j : Json)

/-- The two kinds of error `json.Unmarshal` reports for these targets. -/
inductive JsonError where
  | syntaxError
  | unmarshalTypeError
  deriving DecidableEq, Repr

/-- A typed decoder: the value currently stored in the target, the JSON value,
and the value stored afterwards (or the error). -/
abbrev Decoder (α : Type) := α → Json → Except JsonError α

/-- The function `json.Unmarshal(data, &v)`, for a target `v` holding `cur`. -/
def jsonUnmarshal {α : Type} (dec : Decoder α) (data : RawMessage) (cur : α) :
    Except JsonError α :=
  match data with
  | .empty => .error .syntaxError
  | .malformed => .error .syntaxError
  | .value j => dec cur j

/-- Case folding of one character of an object key, as far as it can reach an
ASCII field name: ASCII letters to upper case, U+017F and U+212A to `S` and
`K` (the only non-ASCII characters whose fold set contains an ASCII letter). -/
def foldRune (c : Char) : Char :=
  if 'a'.toNat ≤ c.toNat ∧ c.toNat ≤ 'z'.toNat then Char.ofNat (c.toNat - 32)
  else if c.toNat = 0x17F then 'S'
  else if c.toNat = 0x212A then 'K'
  else c

/-- The function `foldName` of `encoding/json`: a key selects the struct field
whose (ASCII) name has the same folded form. -/
def foldName (key : String) : String :=
  String.mk (key.data.map foldRune)

/-- Decoding into a Go `string`. -/
def decodeString : Decoder String
  | _, .str s => .ok s
  | cur, .null => .ok cur
  | _, _ => .error .unmarshalTypeError

/-- Decoding into a Go `bool`. -/
def decodeBool : Decoder Bool
  | _, .bool b => .ok b
  | cur, .null => .ok cur
  | _, _ => .error .unmarshalTypeError

/-- Decoding into a `json.RawMessage`: the text of any value, `null` included,
is stored as it is. -/
def decodeRawMessage : Decoder RawMessage
  | _, j => .ok (.value j)

/-- The elements of a JSON array decoded into a slice: the element at index `i`
is decoded into the element the slice already has there, or into a zero
value. -/
def decodeSliceElems {α : Type} (dec : Decoder α) (zero : α) :
    List α → List Json → Except JsonError (List α)
  | _, [] => .ok []
  | cur, j :: js =>
    match dec (cur.headD zero) j with
    | .error e => .error e
    | .ok x =>
      match decodeSliceElems dec zero cur.tail js with
      | .error e => .error e
      | .ok xs => .ok (x :: xs)

/-- Decoding into a Go slice. -/
def decodeSlice {α : Type} (dec : Decoder α) (zero : α) : Decoder (List α)
  | cur, .arr items => decodeSliceElems dec zero cur items
  | _, .null => .ok []
  | _, _ => .error .unmarshalTypeError

/-- The members of a JSON object stored one after the other. -/
def decodeMembers {α : Type} (setField : α → String → Json → Except JsonError α) :
    α → List (String × Json) → Except JsonError α
  | cur, [] => .ok cur
  | cur, (k, v) :: ms =>
    match setField cur k v with
    | .error e => .error e
    | .ok next => decodeMembers setField next ms

/-- Decoding into a Go struct whose fields are stored by `setField`. -/
def decodeStruct {α : Type} (setField : α → String → Json → Except JsonError α) :
    Decoder α
  | cur, .obj members => decodeMembers setField cur members
  | cur, .null => .ok cur
  | _, _ => .error .unmarshalTypeError

/-- A Go `map[string]V`: at most one entry per key. -/
abbrev GoMap (V : Type) := List (String × V)

/-- The statement `m[k] = v`. -/
def GoMap.set {V : Type} : GoMap V → String → V → GoMap V
  | [], k, v => [(k, v)]
  | (k0, v0) :: rest, k, v =>
    if k0 = k then (k, v) :: rest else (k0, v0) :: GoMap.set rest k v

/-- The expression `v, ok := m[k]`. -/
def GoMap.get {V : Type} : GoMap V → String → Option V
  | [], _ => none
  | (k0, v0) :: rest, k => if k0 = k then some v0 else GoMap.get rest k

/-- Decoding into a Go `map[string]V`: every member is decoded into a fresh
zero element, which is then stored under the member's key. -/
def decodeMap {V : Type} (dec : Decoder V) (zero : V) : Decoder (GoMap V)
  | cur, .obj members =>
    decodeMembers (fun m k v =>
      match dec zero v with
      | .error e => .error e
      | .ok x => .ok (GoMap.set m k x)) cur members
  | _, .null => .ok []
  | _, _ => .error .unmarshalTypeError

/-- The size of a JSON value: the number of values it is built from. -/
def Json.size : Json → Nat
  | .arr items => 1 + sizeItems items
  | .obj members => 1 + sizeMembers members
  | _ => 1
where
  /-- The total size of the elements of an array. -/
  sizeItems : List Json → Nat
    | [] => 0
    | j :: js => j.size + sizeItems js
  /-- The total size of the member values of an object. -/
  sizeMembers : List (String × Json) → Nat
    | [] => 0
    | (_, j) :: ms => j.size + sizeMembers ms

/-- The size of the JSON value held by a byte slice, if it holds one. -/
def RawMessage.size : RawMessage → Nat
  | .value j => j.size
  | _ => 0

/-! ## `internal/api/types.go` -/

/-- The Go struct `ImpactJSON`. -/
structure ImpactJSON where
  Low : Bool
  Moderate : Bool
  High : Bool
  deriving DecidableEq, Repr

/-- The Go struct `RequirementJSON`. `FollowingInformation` carries the tag
`json:"-"`: the decoder never stores into it. -/
structure RequirementJSON where
  ID : String
  Statement : String
  Name : String
  Impact : ImpactJSON
  Affects : List String
  PrimaryKeyWord : String
  Note : String
  FollowingInformation : List RequirementJSON
  RawFollowingInfo : RawMessage

/-- The Go struct `RequirementCategory`. -/
structure RequirementCategory where
  ID : String
  Application : String
  Name : String
  Requirements : List RequirementJSON

/-- The zero value of `ImpactJSON`. -/
def ImpactJSON.zero : ImpactJSON := ⟨false, false, false⟩

/-- The zero value of `RequirementJSON`. -/
def RequirementJSON.zero : RequirementJSON :=
  { ID := "", Statement := "", Name := "", Impact := ImpactJSON.zero, Affects := [],
    PrimaryKeyWord := "", Note := "", FollowingInformation := [], RawFollowingInfo := .empty }

/-- The zero value of `RequirementCategory`. -/
def RequirementCategory.zero : RequirementCategory :=
  { ID := "", Application := "", Name := "", Requirements := [] }

/-- Storing the member `key: v` of a JSON object into an `ImpactJSON`. -/
def ImpactJSON.setField (i : ImpactJSON) (key : String) (v : Json) :
    Except JsonError ImpactJSON :=
  match foldName key with
  | "LOW" => (decodeBool i.Low v).map fun x => { i with Low := x }
  | "MODERATE" => (decodeBool i.Moderate v).map fun x => { i with Moderate := x }
  | "HIGH" => (decodeBool i.High v).map fun x => { i with High := x }
  | _ => .ok i

/-- Decoding into an `ImpactJSON`. -/
def decodeImpactJSON : Decoder ImpactJSON := decodeStruct ImpactJSON.setField

/-- Storing the member `key: v` of a JSON object into a `RequirementJSON`. -/
def RequirementJSON.setField (r : RequirementJSON) (key : String) (v : Json) :
    Except JsonError RequirementJSON :=
  match foldName key with
  | "ID" => (decodeString r.ID v).map fun x => { r with ID := x }
  | "STATEMENT" => (decodeString r.Statement v).map fun x => { r with Statement := x }
  | "NAME" => (decodeString r.Name v).map fun x => { r with Name := x }
  | "IMPACT" => (decodeImpactJSON r.Impact v).map fun x => { r with Impact := x }
  | "AFFECTS" => (decodeSlice decodeString "" r.Affects v).map fun x => { r with Affects := x }
  | "PRIMARY_KEY_WORD" =>
    (decodeString r.PrimaryKeyWord v).map fun x => { r with PrimaryKeyWord := x }
  | "NOTE" => (decodeString r.Note v).map fun x => { r with Note := x }
  | "FOLLOWING_INFORMATION" =>
    (decodeRawMessage r.RawFollowingInfo v).map fun x => { r with RawFollowingInfo := x }
  | _ => .ok r

/-- Decoding into a `RequirementJSON`. -/
def decodeRequirementJSON : Decoder RequirementJSON :=
  decodeStruct RequirementJSON.setField

/-- Decoding into a `[]RequirementJSON`. -/
def decodeRequirementJSONs : Decoder (List RequirementJSON) :=
  decodeSlice decodeRequirementJSON RequirementJSON.zero

/-- Storing the member `key: v` of a JSON object into a `RequirementCategory`. -/
def RequirementCategory.setField (c : RequirementCategory) (key : String) (v : Json) :
    Except JsonError RequirementCategory :=
  match foldName key with
  | "ID" => (decodeString c.ID v).map fun x => { c with ID := x }
  | "APPLICATION" => (decodeString c.Application v).map fun x => { c with Application := x }
  | "NAME" => (decodeString c.Name v).map fun x => { c with Name := x }
  | "REQUIREMENTS" =>
    (decodeRequirementJSONs c.Requirements v).map fun x => { c with Requirements := x }
  | _ => .ok c

/-- Decoding into a `RequirementCategory`. -/
def decodeRequirementCategory : Decoder RequirementCategory :=
  decodeStruct RequirementCategory.setField

/-- The method `(*RequirementJSON).UnmarshalFollowingInfo`: the record after
the call. -/
def RequirementJSON.UnmarshalFollowingInfo (r : RequirementJSON) : RequirementJSON :=
  match r.RawFollowingInfo with
  | .empty => r
  | raw =>
    match jsonUnmarshal decodeRequirementJSONs raw [] with
    | .ok reqs => { r with FollowingInformation := reqs }
    | .error _ => r

/-- The weight of a requirement record: one for the record, the weight of the
records already in `FollowingInformation`, and the size of the raw field. -/
def RequirementJSON.weight : RequirementJSON → Nat
  | ⟨_, _, _, _, _, _, _, kids, raw⟩ => 1 + weightList kids + raw.size
where
  /-- The total weight of a list of requirement records. -/
  weightList : List RequirementJSON → Nat
    | [] => 0
    | r :: rs => r.weight + weightList rs

/-- The Go struct `EffectiveInfo`. -/
structure EffectiveInfo where
  Is : String
  SignupURL : String
  CurrentStatus : String
  StartDate : String
  EndDate : String
  Comments : List String
  Warnings : List String
  deriving DecidableEq, Repr

/-- The Go struct `RelatedRFC`. -/
structure RelatedRFC where
  ID : String
  URL : String
  DiscussionURL : String
  ShortName : String
  FullName : String
  StartDate : String
  EndDate : String
  deriving DecidableEq, Repr

/-- The Go struct `Release`. -/
structure Release where
  ID : String
  PublishedDate : String
  Description : String
  PublicComment : Bool
  RelatedRFCs : List RelatedRFC
  deriving DecidableEq, Repr

/-- The Go struct `Authority`. -/
structure Authority where
  Reference : String
  ReferenceURL : String
  Description : String
  Delegation : String
  DelegationURL : String
  deriving DecidableEq, Repr

/-- The Go struct `FrontMatter`. -/
structure FrontMatter where
  Authority : List Authority
  Purpose : String
  ExpectedOutcomes : List String
  deriving DecidableEq, Repr

/-- The Go struct `DocumentInfo`. -/
structure DocumentInfo where
  Name : String
  ShortName : String
  Effective : GoMap EffectiveInfo
  Releases : List Release
  FrontMatter : FrontMatter
  deriving DecidableEq, Repr

/-- The Go struct `DefinitionJSON`. -/
structure DefinitionJSON where
  ID : String
  Term : String
  Alts : List String
  Definition : String
  Note : String
  Notes : List String
  Reference : String
  ReferenceURL : String
  deriving DecidableEq, Repr

/-- The Go struct `ControlJSON`. -/
structure ControlJSON where
  ControlID : String
  Title : String
  deriving DecidableEq, Repr

/-- The Go struct `IndicatorJSON`. -/
structure IndicatorJSON where
  ID : String
  Name : String
  Statement : String
  Impact : ImpactJSON
  Controls : List ControlJSON
  Reference : String
  ReferenceURL : String
  Note : String
  Retired : Bool
  deriving DecidableEq, Repr

/-- The Go struct `ThemeJSON`. -/
structure ThemeJSON where
  ID : String
  Name : String
  Theme : String
  Indicators : List IndicatorJSON
  deriving DecidableEq, Repr

/-- The anonymous struct of the field `FRD` of `DefinitionsDocument`. -/
structure DefinitionsFRD where
  ALL : List DefinitionJSON
  deriving DecidableEq, Repr

/-- The Go struct `DefinitionsDocument`. -/
structure DefinitionsDocument where
  Schema : String
  ID : String
  Info : DocumentInfo
  FRD : DefinitionsFRD
  deriving DecidableEq, Repr

/-- The zero value of `EffectiveInfo`. -/
def EffectiveInfo.zero : EffectiveInfo := ⟨"", "", "", "", "", [], []⟩

/-- The zero value of `RelatedRFC`. -/
def RelatedRFC.zero : RelatedRFC := ⟨"", "", "", "", "", "", ""⟩

/-- The zero value of `Release`. -/
def Release.zero : Release := ⟨"", "", "", false, []⟩

/-- The zero value of `Authority`. -/
def Authority.zero : Authority := ⟨"", "", "", "", ""⟩

/-- The zero value of `FrontMatter`. -/
def FrontMatter.zero : FrontMatter := ⟨[], "", []⟩

/-- The zero value of `DocumentInfo`. -/
def DocumentInfo.zero : DocumentInfo := ⟨"", "", [], [], FrontMatter.zero⟩

/-- The zero value of `DefinitionJSON`. -/
def DefinitionJSON.zero : DefinitionJSON := ⟨"", "", [], "", "", [], "", ""⟩

/-- The zero value of `ControlJSON`. -/
def ControlJSON.zero : ControlJSON := ⟨"", ""⟩

/-- The zero value of `IndicatorJSON`. -/
def IndicatorJSON.zero : IndicatorJSON := ⟨"", "", "", ImpactJSON.zero, [], "", "", "", false⟩

/-- The zero value of `ThemeJSON`. -/
def ThemeJSON.zero : ThemeJSON := ⟨"", "", "", []⟩

/-- The zero value of `DefinitionsDocument`. -/
def DefinitionsDocument.zero : DefinitionsDocument := ⟨"", "", DocumentInfo.zero, ⟨[]⟩⟩

/-- Storing the member `key: v` of a JSON object into an `EffectiveInfo`. -/
def EffectiveInfo.setField (x : EffectiveInfo) (key : String) (v : Json) :
    Except JsonError EffectiveInfo :=
  match foldName key with
  | "IS" => (decodeString x.Is v).map fun y => { x with Is := y }
  | "SIGNUP_URL" => (decodeString x.SignupURL v).map fun y => { x with SignupURL := y }
  | "CURRENT_STATUS" =>
    (decodeString x.CurrentStatus v).map fun y => { x with CurrentStatus := y }
  | "START_DATE" => (decodeString x.StartDate v).map fun y => { x with StartDate := y }
  | "END_DATE" => (decodeString x.EndDate v).map fun y => { x with EndDate := y }
  | "COMMENTS" => (decodeSlice decodeString "" x.Comments v).map fun y => { x with Comments := y }
  | "WARNINGS" => (decodeSlice decodeString "" x.Warnings v).map fun y => { x with Warnings := y }
  | _ => .ok x

/-- Storing the member `key: v` of a JSON object into a `RelatedRFC`. -/
def RelatedRFC.setField (x : RelatedRFC) (key : String) (v : Json) :
    Except JsonError RelatedRFC :=
  match foldName key with
  | "ID" => (decodeString x.ID v).map fun y => { x with ID := y }
  | "URL" => (decodeString x.URL v).map fun y => { x with URL := y }
  | "DISCUSSION_URL" =>
    (decodeString x.DiscussionURL v).map fun y => { x with DiscussionURL := y }
  | "SHORT_NAME" => (decodeString x.ShortName v).map fun y => { x with ShortName := y }
  | "FULL_NAME" => (decodeString x.FullName v).map fun y => { x with FullName := y }
  | "START_DATE" => (decodeString x.StartDate v).map fun y => { x with StartDate := y }
  | "END_DATE" => (decodeString x.EndDate v).map fun y => { x with EndDate := y }
  | _ => .ok x

/-- Storing the member `key: v` of a JSON object into a `Release`. -/
def Release.setField (x : Release) (key : String) (v : Json) : Except JsonError Release :=
  match foldName key with
  | "ID" => (decodeString x.ID v).map fun y => { x with ID := y }
  | "PUBLISHED_DATE" =>
    (decodeString x.PublishedDate v).map fun y => { x with PublishedDate := y }
  | "DESCRIPTION" => (decodeString x.Description v).map fun y => { x with Description := y }
  | "PUBLIC_COMMENT" =>
    (decodeBool x.PublicComment v).map fun y => { x with PublicComment := y }
  | "RELATED_RFCS" =>
    (decodeSlice (decodeStruct RelatedRFC.setField) RelatedRFC.zero x.RelatedRFCs v).map
      fun y => { x with RelatedRFCs := y }
  | _ => .ok x

/-- Storing the member `key: v` of a JSON object into an `Authority`. -/
def Authority.setField (x : Authority) (key : String) (v : Json) :
    Except JsonError Authority :=
  match foldName key with
  | "REFERENCE" => (decodeString x.Reference v).map fun y => { x with Reference := y }
  | "REFERENCE_URL" =>
    (decodeString x.ReferenceURL v).map fun y => { x with ReferenceURL := y }
  | "DESCRIPTION" => (decodeString x.Description v).map fun y => { x with Description := y }
  | "DELEGATION" => (decodeString x.Delegation v).map fun y => { x with Delegation := y }
  | "DELEGATION_URL" =>
    (decodeString x.DelegationURL v).map fun y => { x with DelegationURL := y }
  | _ => .ok x

/-- Storing the member `key: v` of a JSON object into a `FrontMatter`. -/
def FrontMatter.setField (x : FrontMatter) (key : String) (v : Json) :
    Except JsonError FrontMatter :=
  match foldName key with
  | "AUTHORITY" =>
    (decodeSlice (decodeStruct Authority.setField) Authority.zero x.Authority v).map
      fun y => { x with Authority := y }
  | "PURPOSE" => (decodeString x.Purpose v).map fun y => { x with Purpose := y }
  | "EXPECTED_OUTCOMES" =>
    (decodeSlice decodeString "" x.ExpectedOutcomes v).map
      fun y => { x with ExpectedOutcomes := y }
  | _ => .ok x

/-- Storing the member `key: v` of a JSON object into a `DocumentInfo`. -/
def DocumentInfo.setField (x : DocumentInfo) (key : String) (v : Json) :
    Except JsonError DocumentInfo :=
  match foldName key with
  | "NAME" => (decodeString x.Name v).map fun y => { x with Name := y }
  | "SHORT_NAME" => (decodeString x.ShortName v).map fun y => { x with ShortName := y }
  | "EFFECTIVE" =>
    (decodeMap (decodeStruct EffectiveInfo.setField) EffectiveInfo.zero x.Effective v).map
      fun y => { x with Effective := y }
  | "RELEASES" =>
    (decodeSlice (decodeStruct Release.setField) Release.zero x.Releases v).map
      fun y => { x with Releases := y }
  | "FRONT_MATTER" =>
    (decodeStruct FrontMatter.setField x.FrontMatter v).map
      fun y => { x with FrontMatter := y }
  | _ => .ok x

/-- Decoding into a `DocumentInfo`. -/
def decodeDocumentInfo : Decoder DocumentInfo := decodeStruct DocumentInfo.setField

/-- Storing the member `key: v` of a JSON object into a `DefinitionJSON`. -/
def DefinitionJSON.setField (x : DefinitionJSON) (key : String) (v : Json) :
    Except JsonError DefinitionJSON :=
  match foldName key with
  | "ID" => (decodeString x.ID v).map fun y => { x with ID := y }
  | "TERM" => (decodeString x.Term v).map fun y => { x with Term := y }
  | "ALTS" => (decodeSlice decodeString "" x.Alts v).map fun y => { x with Alts := y }
  | "DEFINITION" => (decodeString x.Definition v).map fun y => { x with Definition := y }
  | "NOTE" => (decodeString x.Note v).map fun y => { x with Note := y }
  | "NOTES" => (decodeSlice decodeString "" x.Notes v).map fun y => { x with Notes := y }
  | "REFERENCE" => (decodeString x.Reference v).map fun y => { x with Reference := y }
  | "REFERENCE_URL" =>
    (decodeString x.ReferenceURL v).map fun y => { x with ReferenceURL := y }
  | _ => .ok x

/-- Storing the member `key: v` of a JSON object into a `ControlJSON`. -/
def ControlJSON.setField (x : ControlJSON) (key : String) (v : Json) :
    Except JsonError ControlJSON :=
  match foldName key with
  | "CONTROL_ID" => (decodeString x.ControlID v).map fun y => { x with ControlID := y }
  | "TITLE" => (decodeString x.Title v).map fun y => { x with Title := y }
  | _ => .ok x

/-- Storing the member `key: v` of a JSON object into an `IndicatorJSON`. -/
def IndicatorJSON.setField (x : IndicatorJSON) (key : String) (v : Json) :
    Except JsonError IndicatorJSON :=
  match foldName key with
  | "ID" => (decodeString x.ID v).map fun y => { x with ID := y }
  | "NAME" => (decodeString x.Name v).map fun y => { x with Name := y }
  | "STATEMENT" => (decodeString x.Statement v).map fun y => { x with Statement := y }
  | "IMPACT" => (decodeImpactJSON x.Impact v).map fun y => { x with Impact := y }
  | "CONTROLS" =>
    (decodeSlice (decodeStruct ControlJSON.setField) ControlJSON.zero x.Controls v).map
      fun y => { x with Controls := y }
  | "REFERENCE" => (decodeString x.Reference v).map fun y => { x with Reference := y }
  | "REFERENCE_URL" =>
    (decodeString x.ReferenceURL v).map fun y => { x with ReferenceURL := y }
  | "NOTE" => (decodeString x.Note v).map fun y => { x with Note := y }
  | "RETIRED" => (decodeBool x.Retired v).map fun y => { x with Retired := y }
  | _ => .ok x

/-- Storing the member `key: v` of a JSON object into a `ThemeJSON`. -/
def ThemeJSON.setField (x : ThemeJSON) (key : String) (v : Json) :
    Except JsonError ThemeJSON :=
  match foldName key with
  | "ID" => (decodeString x.ID v).map fun y => { x with ID := y }
  | "NAME" => (decodeString x.Name v).map fun y => { x with Name := y }
  | "THEME" => (decodeString x.Theme v).map fun y => { x with Theme := y }
  | "INDICATORS" =>
    (decodeSlice (decodeStruct IndicatorJSON.setField) IndicatorJSON.zero x.Indicators v).map
      fun y => { x with Indicators := y }
  | _ => .ok x

/-- Decoding into a `ThemeJSON`. -/
def decodeThemeJSON : Decoder ThemeJSON := decodeStruct ThemeJSON.setField

/-- Storing the member `key: v` of a JSON object into the `FRD` struct. -/
def DefinitionsFRD.setField (x : DefinitionsFRD) (key : String) (v : Json) :
    Except JsonError DefinitionsFRD :=
  match foldName key with
  | "ALL" =>
    (decodeSlice (decodeStruct DefinitionJSON.setField) DefinitionJSON.zero x.ALL v).map
      fun y => { x with ALL := y }
  | _ => .ok x

/-- Storing the member `key: v` of a JSON object into a `DefinitionsDocument`. -/
def DefinitionsDocument.setField (x : DefinitionsDocument) (key : String) (v : Json) :
    Except JsonError DefinitionsDocument :=
  match foldName key with
  | "$SCHEMA" => (decodeString x.Schema v).map fun y => { x with Schema := y }
  | "$ID" => (decodeString x.ID v).map fun y => { x with ID := y }
  | "INFO" => (decodeDocumentInfo x.Info v).map fun y => { x with Info := y }
  | "FRD" => (decodeStruct DefinitionsFRD.setField x.FRD v).map fun y => { x with FRD := y }
  | _ => .ok x

/-- Decoding into a `DefinitionsDocument`. -/
def decodeDefinitionsDocument : Decoder DefinitionsDocument :=
  decodeStruct DefinitionsDocument.setField

/-- Decoding into a `map[string]json.RawMessage`. -/
def decodeRawMap : Decoder (GoMap RawMessage) := decodeMap decodeRawMessage .empty

/-- An order in which a `range` loop may visit the entries of a Go map: some
enumeration of the entries, each once. -/
structure RangeOrder (V : Type) where
  visit : GoMap V → List (String × V)
  perm : ∀ m, (visit m).Perm m

/-! ## `internal/model` -/

/-- The Go struct `model.Impact`. -/
structure Impact where
  Low : Bool
  Moderate : Bool
  High : Bool
  deriving DecidableEq, Repr

/-- The Go struct `model.Requirement`. -/
structure Requirement where
  ID : String
  DocumentCode : String
  Statement : String
  Name : String
  Impact : Impact
  Affects : List String
  PrimaryKeyWord : String
  Note : String
  deriving DecidableEq, Repr

/-- The Go struct `model.Control`. -/
structure Control where
  ControlID : String
  Title : String
  deriving DecidableEq, Repr

/-- The Go struct `model.Indicator`. -/
structure Indicator where
  ID : String
  ThemeCode : String
  ThemeName : String
  ThemeDesc : String
  Name : String
  Statement : String
  Impact : Impact
  Controls : List Control
  Reference : String
  ReferenceURL : String
  Note : String
  Retired : Bool
  deriving DecidableEq, Repr

/-- The Go struct `model.Definition`. -/
structure Definition where
  ID : String
  Term : String
  Alts : List String
  Text : String
  Note : String
  Reference : String
  ReferenceURL : String
  deriving DecidableEq, Repr

/-- The errors the three parsers return: an error of `json.Unmarshal` as it
is, or one of the errors `ParseIndicators` builds with `fmt.Errorf`. -/
inductive ParseError where
  | json (e : JsonError)
  | parsingRawDocument (e : JsonError)
  | ksiSectionNotFound
  | parsingKSIThemes (e : JsonError)
  deriving DecidableEq, Repr

/-! ## Termination of the flattening -/

theorem RequirementJSON.weight_eq (r : RequirementJSON) :
    r.weight = 1 + RequirementJSON.weight.weightList r.FollowingInformation
      + r.RawFollowingInfo.size := by
  cases r; rfl

theorem RequirementJSON.setField_raw (r r1 : RequirementJSON) (k : String) (v : Json)
    (h : r.setField k v = .ok r1) :
    r1.FollowingInformation = r.FollowingInformation ∧
      r1.RawFollowingInfo.size ≤ r.RawFollowingInfo.size + v.size := by
  unfold RequirementJSON.setField at h
  split at h <;>
    first
    | (cases h; exact ⟨rfl, Nat.le_add_right _ _⟩)
    | (simp only [Except.map] at h
       split at h
       · cases h
       · cases h
         first
         | exact ⟨rfl, Nat.le_add_right _ _⟩
         | (rename_i x hx
            simp only [decodeRawMessage] at hx
            cases hx
            exact ⟨rfl, Nat.le_add_left _ _⟩))

theorem RequirementJSON.decodeMembers_raw (ms : List (String × Json)) :
    ∀ r r1 : RequirementJSON, decodeMembers RequirementJSON.setField r ms = .ok r1 →
      r1.FollowingInformation = r.FollowingInformation ∧
        r1.RawFollowingInfo.size ≤ r.RawFollowingInfo.size + Json.size.sizeMembers ms := by
  induction ms with
  | nil =>
    intro r r1 h
    simp only [decodeMembers] at h
    cases h
    exact ⟨rfl, Nat.le_add_right _ _⟩
  | cons m ms ih =>
    intro r r1 h
    obtain ⟨k, v⟩ := m
    simp only [decodeMembers] at h
    split at h
    · cases h
    · rename_i next hnext
      obtain ⟨h1, h2⟩ := RequirementJSON.setField_raw r next k v hnext
      obtain ⟨h3, h4⟩ := ih next r1 h
      refine ⟨h3.trans h1, ?_⟩
      simp only [Json.size.sizeMembers]
      omega

theorem decodeRequirementJSON_weight (j : Json) (r : RequirementJSON)
    (h : decodeRequirementJSON RequirementJSON.zero j = .ok r) :
    r.FollowingInformation = [] ∧ r.weight ≤ j.size := by
  unfold decodeRequirementJSON decodeStruct at h
  split at h
  · rename_i members
    obtain ⟨h1, h2⟩ := RequirementJSON.decodeMembers_raw members _ _ h
    have hk : r.FollowingInformation = [] := h1
    refine ⟨hk, ?_⟩
    rw [RequirementJSON.weight_eq, hk]
    have hz : RequirementJSON.zero.RawFollowingInfo.size = 0 := rfl
    rw [hz] at h2
    simp only [RequirementJSON.weight.weightList, Json.size]
    omega
  · cases h
    exact ⟨rfl, by simp [RequirementJSON.weight_eq, RequirementJSON.zero, RawMessage.size,
      RequirementJSON.weight.weightList, Json.size]⟩
  · cases h

theorem decodeSliceElems_weight (items : List Json) :
    ∀ reqs : List RequirementJSON,
      decodeSliceElems decodeRequirementJSON RequirementJSON.zero [] items = .ok reqs →
      (∀ r ∈ reqs, r.FollowingInformation = []) ∧
        RequirementJSON.weight.weightList reqs ≤ Json.size.sizeItems items := by
  induction items with
  | nil =>
    intro reqs h
    simp only [decodeSliceElems] at h
    cases h
    exact ⟨by simp, Nat.le_refl _⟩
  | cons j js ih =>
    intro reqs h
    simp only [decodeSliceElems, List.headD_nil, List.tail_nil] at h
    split at h
    · cases h
    · rename_i x hx
      split at h
      · cases h
      · rename_i xs hxs
        cases h
        obtain ⟨h1, h2⟩ := decodeRequirementJSON_weight j x hx
        obtain ⟨h3, h4⟩ := ih xs hxs
        refine ⟨?_, ?_⟩
        · intro r hr
          rcases List.mem_cons.mp hr with rfl | hr
          · exact h1
          · exact h3 r hr
        · simp only [RequirementJSON.weight.weightList, Json.size.sizeItems]
          omega

theorem decodeRequirementJSONs_weight (j : Json) (reqs : List RequirementJSON)
    (h : decodeRequirementJSONs [] j = .ok reqs) :
    (∀ r ∈ reqs, r.FollowingInformation = []) ∧
      RequirementJSON.weight.weightList reqs < j.size := by
  unfold decodeRequirementJSONs decodeSlice at h
  split at h
  · rename_i items
    obtain ⟨h1, h2⟩ := decodeSliceElems_weight items reqs h
    refine ⟨h1, ?_⟩
    simp only [Json.size]
    omega
  · cases h
    exact ⟨by simp, by simp [RequirementJSON.weight.weightList, Json.size]⟩
  · cases h

theorem RequirementJSON.UnmarshalFollowingInfo_weight (r : RequirementJSON) :
    RequirementJSON.weight.weightList r.UnmarshalFollowingInfo.FollowingInformation
      < r.weight := by
  rw [RequirementJSON.weight_eq r]
  unfold RequirementJSON.UnmarshalFollowingInfo
  split
  · omega
  · split
    · rename_i raw _ reqs h
      cases hraw : r.RawFollowingInfo with
      | empty => simp [hraw, jsonUnmarshal] at h
      | malformed => simp [hraw, jsonUnmarshal] at h
      | value j =>
        simp only [hraw, jsonUnmarshal] at h
        have := (decodeRequirementJSONs_weight j reqs h).2
        simp only [RawMessage.size]
        omega
    · omega

/-! ## `internal/api/client.go`: the recursive requirement normalizer -/

/-- The method `(*Client).extractRequirements`. The loop over `reqs` is the
recursion on the list; the Go code also leaves the decoded children in
`reqs[i].FollowingInformation`, which no caller reads afterwards. -/
def extractRequirements : List RequirementJSON → String → List Requirement
  | [], _ => []
  | r0 :: rest, docCode =>
    let r := r0.UnmarshalFollowingInfo
    let req : Requirement :=
      { ID := r.ID
        DocumentCode := docCode
        Statement := r.Statement
        Name := r.Name
        Impact := { Low := r.Impact.Low, Moderate := r.Impact.Moderate, High := r.Impact.High }
        Affects := r.Affects
        PrimaryKeyWord := r.PrimaryKeyWord
        Note := r.Note }
    let nested :=
      if r.FollowingInformation.length > 0 then
        extractRequirements r.FollowingInformation docCode
      else []
    req :: (nested ++ extractRequirements rest docCode)
termination_by reqs => RequirementJSON.weight.weightList reqs
decreasing_by
  · have := RequirementJSON.UnmarshalFollowingInfo_weight r0
    simp only [RequirementJSON.weight.weightList]
    omega
  · have := RequirementJSON.weight_eq r0
    simp only [RequirementJSON.weight.weightList]
    omega

/-- The method `(*Client).ParseRequirements`. -/
def ParseRequirements (range : RangeOrder RequirementCategory) (data : RawMessage)
    (docCode : String) : Except ParseError (List Requirement) :=
  match jsonUnmarshal decodeRawMap data [] with
  | .error e => .error (.json e)
  | .ok rawDoc =>
    match rawDoc.get "FRR" with
    | none => .ok []
    | some frrData =>
      match jsonUnmarshal decodeRawMap frrData [] with
      | .error e => .error (.json e)
      | .ok frr =>
        match frr.get docCode with
        | none => .ok []
        | some docData =>
          match jsonUnmarshal (decodeMap decodeRequirementCategory RequirementCategory.zero)
              docData [] with
          | .error _ =>
            match jsonUnmarshal decodeRequirementCategory docData RequirementCategory.zero with
            | .ok singleCat => .ok (extractRequirements singleCat.Requirements docCode)
            | .error _ => .ok []
          | .ok categories =>
            .ok ((range.visit categories).foldl
              (fun requirements entry =>
                requirements ++ extractRequirements entry.2.Requirements docCode) [])

/-- The `model.Indicator` literal appended in the inner loop of
`ParseIndicators`, with the `controls` slice filled by the innermost loop. -/
def Indicator.ofJSON (themeCode : String) (theme : ThemeJSON) (ind : IndicatorJSON) :
    Indicator :=
  { ID := ind.ID
    ThemeCode := themeCode
    ThemeName := theme.Name
    ThemeDesc := theme.Theme
    Name := ind.Name
    Statement := ind.Statement
    Impact := { Low := ind.Impact.Low, Moderate := ind.Impact.Moderate, High := ind.Impact.High }
    Controls := ind.Controls.map fun ctrl => { ControlID := ctrl.ControlID, Title := ctrl.Title }
    Reference := ind.Reference
    ReferenceURL := ind.ReferenceURL
    Note := ind.Note
    Retired := ind.Retired }

/-- The method `(*Client).ParseIndicators`. -/
def ParseIndicators (range : RangeOrder ThemeJSON) (data : RawMessage) :
    Except ParseError (List Indicator) :=
  match jsonUnmarshal decodeRawMap data [] with
  | .error e => .error (.parsingRawDocument e)
  | .ok rawDoc =>
    match rawDoc.get "KSI" with
    | none => .error .ksiSectionNotFound
    | some ksiRaw =>
      match jsonUnmarshal (decodeMap decodeThemeJSON ThemeJSON.zero) ksiRaw [] with
      | .error e => .error (.parsingKSIThemes e)
      | .ok ksiThemes =>
        .ok ((range.visit ksiThemes).foldl
          (fun indicators entry =>
            entry.2.Indicators.foldl
              (fun indicators ind => indicators ++ [Indicator.ofJSON entry.1 entry.2 ind])
              indicators) [])

/-- The note computed in the loop body of `ParseDefinitions`: the inner loop
over `d.Notes` with its index `j`. -/
def resolveNote (d : DefinitionJSON) : String :=
  let note := d.Note
  if d.Notes.length > 0 ∧ note = "" then
    d.Notes.enum.foldl
      (fun note jn => (if jn.1 > 0 then note ++ " " else note) ++ jn.2) note
  else note

/-- The method `(*Client).ParseDefinitions`. -/
def ParseDefinitions (data : RawMessage) : Except ParseError (List Definition) :=
  match jsonUnmarshal decodeDefinitionsDocument data DefinitionsDocument.zero with
  | .error e => .error (.json e)
  | .ok doc =>
    .ok (doc.FRD.ALL.map fun d =>
      { ID := d.ID
        Term := d.Term
        Alts := d.Alts
        Text := d.Definition
        Note := resolveNote d
        Reference := d.Reference
        ReferenceURL := d.ReferenceURL })

/-- The `model.Requirement` literal built in the loop body of
`extractRequirements` from the record `r` and the document code. -/
def Requirement.ofJSON (r : RequirementJSON) (docCode : String) : Requirement :=
  { ID := r.ID
    DocumentCode := docCode
    Statement := r.Statement
    Name := r.Name
    Impact := { Low := r.Impact.Low, Moderate := r.Impact.Moderate, High := r.Impact.High }
    Affects := r.Affects
    PrimaryKeyWord := r.PrimaryKeyWord
    Note := r.Note }

/-! ## The requirement forest of the specification -/

/-- The children of a requirement record in the words of the specification: the
records its `following_information` decodes to as a list, none if that decode
fails or the field is absent. -/
def RequirementJSON.children (r : RequirementJSON) : List RequirementJSON :=
  match jsonUnmarshal decodeRequirementJSONs r.RawFollowingInfo [] with
  | .ok kids => kids
  | .error _ => []

/-- A requirement tree: a record and the trees of its children. -/
inductive ReqTree where
  | node (record : RequirementJSON) (kids : List ReqTree)

theorem RequirementJSON.children_weight (r : RequirementJSON) :
    RequirementJSON.weight.weightList r.children < r.weight := by
  rw [RequirementJSON.weight_eq r]
  unfold RequirementJSON.children
  split
  · rename_i kids h
    cases hraw : r.RawFollowingInfo with
    | empty => simp [hraw, jsonUnmarshal] at h
    | malformed => simp [hraw, jsonUnmarshal] at h
    | value j =>
      simp only [hraw, jsonUnmarshal] at h
      have := (decodeRequirementJSONs_weight j kids h).2
      simp only [RawMessage.size]
      omega
  · simp only [RequirementJSON.weight.weightList]
    omega

/-- The forest a list of requirement records stands for: one tree per record,
in source order, whose subtrees are the forest of the record's children. -/
def requirementForest : List RequirementJSON → List ReqTree
  | [] => []
  | r :: rest => .node r (requirementForest r.children) :: requirementForest rest
termination_by reqs => RequirementJSON.weight.weightList reqs
decreasing_by
  · have := RequirementJSON.children_weight r
    simp only [RequirementJSON.weight.weightList]
    omega
  · have := RequirementJSON.weight_eq r
    simp only [RequirementJSON.weight.weightList]
    omega

/-- Pre-order traversal of a tree: the record of the root, then the traversals
of the subtrees from left to right. -/
def ReqTree.preorder : ReqTree → List RequirementJSON
  | .node r kids => r :: preorderList kids
where
  /-- Pre-order traversal of a forest. -/
  preorderList : List ReqTree → List RequirementJSON
    | [] => []
    | t :: ts => t.preorder ++ preorderList ts

/-- The number of nodes of a tree, at all levels. -/
def ReqTree.nodeCount : ReqTree → Nat
  | .node _ kids => 1 + nodeCountList kids
where
  /-- The number of nodes of a forest, at all levels. -/
  nodeCountList : List ReqTree → Nat
    | [] => 0
    | t :: ts => t.nodeCount + nodeCountList ts

/-- A record as the decoder produces it: nothing stored in
`FollowingInformation` (the field is tagged `json:"-"`) before
`UnmarshalFollowingInfo` runs. -/
def RequirementJSON.Fresh (r : RequirementJSON) : Prop :=
  r.FollowingInformation = []

/-- The value a JSON object has under a key once decoded into a Go map: that
of the last member with this key, if there is one. -/
def Json.lookup : List (String × Json) → String → Option Json
  | [], _ => none
  | (k0, v) :: ms, k =>
    match Json.lookup ms k with
    | some x => some x
    | none => if k0 = k then some v else none

/-- The names of the flags set in an `Impact`, in the order Low, Moderate,
High. -/
def Impact.flagNames (i : Impact) : List String :=
  ([("Low", i.Low), ("Moderate", i.Moderate), ("High", i.High)].filter
    fun flag => flag.2).map fun flag => flag.1

/-- The method `Impact.String` of `internal/model/requirement.go`. -/
def Impact.String (i : Impact) :=
  let levels := ([] : List _)
  let levels := if i.Low then levels ++ ["Low"] else levels
  let levels := if i.Moderate then levels ++ ["Moderate"] else levels
  let levels := if i.High then levels ++ ["High"] else levels
  match levels with
  | [] => "N/A"
  | first :: rest => rest.foldl (fun result level => result ++ (", " ++ level)) first

/-! ## `internal/api/client.go`: fetching -/

/-- Go `[]byte` as data: the bytes in order. -/
abbrev Bytes := List (Fin 256)

/-- The Go struct `DocumentMetadata`. -/
structure DocumentMetadata where
  Code : String
  Name : String
  Description : String
  Filename : String
  deriving DecidableEq, Repr

/-- The constant `BaseURL`. -/
def BaseURL : String := "https://raw.githubusercontent.com/FedRAMP/docs/main/data"

/-- The map `DocumentFiles`, its entries in the order of the source text. -/
def DocumentFiles : GoMap DocumentMetadata :=
  [("FRD", ⟨"FRD", "FedRAMP Definitions", "Terms and definitions",
      "FRMR.FRD.fedramp-definitions.json"⟩),
   ("KSI", ⟨"KSI", "Key Security Indicators", "Security indicators with control mappings",
      "FRMR.KSI.key-security-indicators.json"⟩),
   ("VDR", ⟨"VDR", "Vulnerability Detection & Response", "Vulnerability management requirements",
      "FRMR.VDR.vulnerability-detection-and-response.json"⟩),
   ("UCM", ⟨"UCM", "Using Cryptographic Modules", "Cryptographic module requirements",
      "FRMR.UCM.using-cryptographic-modules.json"⟩),
   ("RSC", ⟨"RSC", "Recommended Secure Configuration", "Secure configuration requirements",
      "FRMR.RSC.recommended-secure-configuration.json"⟩),
   ("ADS", ⟨"ADS", "Authorization Data Sharing", "Data sharing requirements",
      "FRMR.ADS.authorization-data-sharing.json"⟩),
   ("CCM", ⟨"CCM", "Collaborative Continuous Monitoring", "Continuous monitoring requirements",
      "FRMR.CCM.collaborative-continuous-monitoring.json"⟩),
   ("FSI", ⟨"FSI", "FedRAMP Security Inbox", "Security inbox procedures",
      "FRMR.FSI.fedramp-security-inbox.json"⟩),
   ("ICP", ⟨"ICP", "Incident Communications Procedures", "Incident communication requirements",
      "FRMR.ICP.incident-communications-procedures.json"⟩),
   ("MAS", ⟨"MAS", "Minimum Assessment Scope", "Assessment scope requirements",
      "FRMR.MAS.minimum-assessment-scope.json"⟩),
   ("PVA", ⟨"PVA", "Persistent Validation & Assessment", "Validation and assessment requirements",
      "FRMR.PVA.persistent-validation-and-assessment.json"⟩),
   ("SCN", ⟨"SCN", "Significant Change Notifications", "Change notification requirements",
      "FRMR.SCN.significant-change-notifications.json"⟩)]

/-- The slice `DocumentOrder`. -/
def DocumentOrder : List String :=
  ["FRD", "KSI", "VDR", "UCM", "RSC", "ADS", "CCM", "FSI", "ICP", "MAS", "PVA", "SCN"]

/-- The `err` of the call of `resp.Body.Read` that ends the read loop of
`fetchDocument`: `io.EOF` at the end of the body, or any other error of the
transport. -/
inductive ReadError where
  | EOF
  | failure (cause : String)
  deriving DecidableEq, Repr

/-- What `resp.Body` delivers to the read loop: the bytes of the calls of
`Read` that return a nil error, then the bytes and the error of the call that
returns a non-nil error. The client's timeout covers reading the body, so such
a call comes. -/
structure ResponseBody where
  reads : List Bytes
  last : Bytes
  err : ReadError
  deriving DecidableEq, Repr

/-- The fields of `http.Response` the code reads. -/
structure Response where
  StatusCode : Int
  Status : String
  Body : ResponseBody
  deriving DecidableEq, Repr

/-- The errors `fetchDocument` returns: the error of `c.httpClient.Get`, or
`fmt.Errorf("HTTP %d: %s", resp.StatusCode, resp.Status)`. -/
inductive FetchError where
  | transport (cause : String)
  | httpStatus (code : Int) (status : String)
  deriving DecidableEq, Repr

/-- Modelled from the spec: the cache collaborator (package `internal/cache`,
which `client.go` imports and whose source is not at hand), a key-value byte
store keyed by the source URL with `get(key) -> (bytes, found)` and
`put(key, bytes) -> error|nil`. `σ` is the state of the store; `Set` gives the
state after the call and whether the call returned an error. -/
structure Cache (σ : Type) where
  Get : σ → String → Option Bytes
  Set : σ → String → Bytes → σ × Bool

/-- The Go struct `Client`: `cache` is nil or a cache in some state; the
behaviour of `httpClient` is an argument of `fetchDocument`. -/
structure Client (σ : Type) where
  baseURL : String
  cache : Option σ
  refresh : Bool

/-- The function `WithRefresh` of package `api`. -/
def WithRefresh {σ : Type} (refresh : Bool) : Client σ → Client σ :=
  fun c => { c with refresh := refresh }

/-- The function `NewClient`; `newCache` is what `cache.New()` gives, none when
it returns an error. -/
def NewClient {σ : Type} (newCache : Option σ) (opts : List (Client σ → Client σ)) :
    Client σ :=
  opts.foldl (fun c opt => opt c) { baseURL := BaseURL, cache := newCache, refresh := false }

/-- What a call of `fetchDocument` does to its collaborators. -/
inductive Effect where
  | cacheGet (key : String)
  | httpGet (url : String)
  | cacheSet (key : String) (data : Bytes)
  deriving DecidableEq, Repr

/-- The outcome of a call of `fetchDocument`: what it returns, the cache
afterwards, and the calls it made, in order. -/
structure FetchOutcome (σ : Type) where
  result : Except FetchError Bytes
  cache : Option σ
  trace : List Effect

/-- The read loop of `fetchDocument`. -/
def readBody (body : ResponseBody) : Bytes :=
  let data : Bytes :=
    body.reads.foldl (fun data chunk => if chunk.length > 0 then data ++ chunk else data) []
  if body.last.length > 0 then data ++ body.last else data

/-- The method `(*Client).fetchDocument`; `httpGet` is what `c.httpClient.Get`
returns for a URL during this call. -/
def fetchDocument {σ : Type} (ops : Cache σ) (httpGet : String → Except String Response)
    (c : Client σ) (filename : String) : FetchOutcome σ :=
  let url := c.baseURL ++ "/" ++ filename
  let cached : Option Bytes :=
    match c.cache with
    | some store => if !c.refresh then ops.Get store url else none
    | none => none
  let consulted : List Effect :=
    match c.cache with
    | some _ => if !c.refresh then [.cacheGet url] else []
    | none => []
  match cached with
  | some data => ⟨.ok data, c.cache, consulted⟩
  | none =>
    match httpGet url with
    | .error cause => ⟨.error (.transport cause), c.cache, consulted ++ [.httpGet url]⟩
    | .ok resp =>
      if resp.StatusCode ≠ 200 then
        ⟨.error (.httpStatus resp.StatusCode resp.Status), c.cache,
          consulted ++ [.httpGet url]⟩
      else
        let data := readBody resp.Body
        match c.cache with
        | some store =>
          ⟨.ok data, some (ops.Set store url data).1,
            consulted ++ [.httpGet url, .cacheSet url data]⟩
        | none => ⟨.ok data, none, consulted ++ [.httpGet url]⟩

/-- The error a goroutine of `FetchAllDocuments` sends:
`fmt.Errorf("fetching %s: %w", code, err)`. -/
structure FetchingError where
  code : String
  cause : FetchError
  deriving DecidableEq, Repr

/-- The error `FetchAllDocuments` returns:
`fmt.Errorf("errors fetching documents: %v", errs)`. -/
structure FetchAllError where
  errs : List FetchingError
  deriving DecidableEq, Repr

/-- The method `(*Client).FetchAllDocuments`. `fetch` is what the call
`c.fetchDocument(meta.Filename)` of a goroutine returns; `schedule` is the
order in which the goroutines, one per entry of `DocumentFiles`, come to
their send on `errChan` or their write to `results` under the mutex.
`wg.Wait()` lets all of them finish before the errors are collected. -/
def FetchAllDocuments (fetch : String → Except FetchError Bytes)
    (schedule : RangeOrder DocumentMetadata) : GoMap Bytes × Option FetchAllError :=
  let done : GoMap Bytes × List FetchingError :=
    (schedule.visit DocumentFiles).foldl
      (fun state entry =>
        match fetch entry.2.Filename with
        | .error err => (state.1, state.2 ++ [⟨entry.1, err⟩])
        | .ok data => (GoMap.set state.1 entry.1 data, state.2))
      ([], [])
  if done.2.length > 0 then (done.1, some ⟨done.2⟩) else (done.1, none)

/-- The documents whose fetch succeeded, with their bytes, among `l`. -/
def fetchedOf (fetch : String → Except FetchError Bytes)
    (l : List (String × DocumentMetadata)) : List (String × Bytes) :=
  l.filterMap fun entry =>
    match fetch entry.2.Filename with
    | .ok data => some (entry.1, data)
    | .error _ => none

/-- The errors for the documents whose fetch failed, among `l`. -/
def failedOf (fetch : String → Except FetchError Bytes)
    (l : List (String × DocumentMetadata)) : List FetchingError :=
  l.filterMap fun entry =>
    match fetch entry.2.Filename with
    | .ok _ => none
    | .error err => some ⟨entry.1, err⟩

/-! ## `internal/model/document.go`, metadata and `fetchData` -/

/-- The Go struct `model.Authority`. -/
structure model.Authority where
  Reference : String
  ReferenceURL : String
  Description : String
  deriving DecidableEq, Repr

/-- The Go struct `model.Release`. -/
structure model.Release where
  ID : String
  PublishedDate : String
  Description : String
  deriving DecidableEq, Repr

/-- The Go struct `model.EffectiveStatus`. -/
structure EffectiveStatus where
  Is : String
  CurrentStatus : String
  StartDate : String
  EndDate : String
  SignupURL : String
  Comments : List String
  deriving DecidableEq, Repr

/-- The Go struct `model.Document`. `RequirementCount` is a Go `int`; it only
ever holds the length of a slice or a count of its elements. -/
structure Document where
  Code : String
  Name : String
  Description : String
  RequirementCount : Int
  Purpose : String
  ExpectedOutcomes : List String
  Authority : List model.Authority
  Releases : List model.Release
  EffectiveInfo : GoMap EffectiveStatus
  deriving DecidableEq, Repr

/-- The zero value of `DocumentMetadata`, what `DocumentFiles[code]` gives for
a code that is not a key. -/
def DocumentMetadata.zero : DocumentMetadata := ⟨"", "", "", ""⟩

/-- The function `GetDocumentMetadata`. -/
def GetDocumentMetadata : List Document :=
  DocumentOrder.foldl
    (fun docs code =>
      let meta := (DocumentFiles.get code).getD DocumentMetadata.zero
      docs ++ [{ Code := meta.Code, Name := meta.Name, Description := meta.Description,
                 RequirementCount := 0, Purpose := "", ExpectedOutcomes := [],
                 Authority := [], Releases := [], EffectiveInfo := [] }])
    []

/-- Storing the member `key: v` of a JSON object into the local struct
`struct { Info DocumentInfo }` of `ParseDocumentInfo`, given by its only
field. -/
def infoEnvelopeSetField (info : DocumentInfo) (key : String) (v : Json) :
    Except JsonError DocumentInfo :=
  match foldName key with
  | "INFO" => decodeDocumentInfo info v
  | _ => .ok info

/-- The method `(*Client).ParseDocumentInfo`. -/
def ParseDocumentInfo (data : RawMessage) : Except ParseError DocumentInfo :=
  match jsonUnmarshal (decodeStruct infoEnvelopeSetField) data DocumentInfo.zero with
  | .error e => .error (.json e)
  | .ok info => .ok info

/-- The function `EnrichDocument`: the document after the call; `info` is none
for a nil pointer, `range` the order in which `info.Effective` is visited. -/
def EnrichDocument (range : RangeOrder EffectiveInfo) (doc : Document)
    (info : Option DocumentInfo) : Document :=
  match info with
  | none => doc
  | some info =>
    let doc := { doc with
      Purpose := info.FrontMatter.Purpose
      ExpectedOutcomes := info.FrontMatter.ExpectedOutcomes }
    let doc := { doc with
      Authority := info.FrontMatter.Authority.foldl
        (fun (authority : List model.Authority) (auth : Authority) =>
          authority ++ [({ Reference := auth.Reference, ReferenceURL := auth.ReferenceURL,
                           Description := auth.Description } : model.Authority)])
        doc.Authority }
    let doc := { doc with
      Releases := info.Releases.foldl
        (fun (releases : List model.Release) (rel : Release) =>
          releases ++ [({ ID := rel.ID, PublishedDate := rel.PublishedDate,
                          Description := rel.Description } : model.Release)])
        doc.Releases }
    if info.Effective.length > 0 then
      { doc with
        EffectiveInfo := (range.visit info.Effective).foldl
          (fun effective entry =>
            GoMap.set effective entry.1
              { Is := entry.2.Is, CurrentStatus := entry.2.CurrentStatus,
                StartDate := entry.2.StartDate, EndDate := entry.2.EndDate,
                SignupURL := entry.2.SignupURL, Comments := entry.2.Comments })
          [] }
    else doc

/-- The Go struct `DataLoadedMsg` of package `tui`. -/
structure DataLoadedMsg where
  Documents : List Document
  Requirements : List Requirement
  Definitions : List Definition
  Indicators : List Indicator
  deriving DecidableEq, Repr

/-- The Go struct `ErrorMsg` of package `tui`; the only error `fetchData` puts
in it is that of `FetchAllDocuments`. -/
structure ErrorMsg where
  Err : FetchAllError
  deriving DecidableEq, Repr

/-- The message the command returned by `fetchData` yields. -/
inductive FetchDataMsg where
  | dataLoaded (msg : DataLoadedMsg)
  | error (msg : ErrorMsg)
  deriving DecidableEq, Repr

/-- The orders in which the `range` loops run by one call of `fetchData` visit
their maps: the fetched documents, the categories of the requirement document
with a given code, the themes, and the effective-status map of the document
with a given code. -/
structure RangeOrders where
  documents : RangeOrder Bytes
  categories : String → RangeOrder RequirementCategory
  themes : RangeOrder ThemeJSON
  effective : String → RangeOrder EffectiveInfo

/-- The three variables the parse loop of `fetchData` fills. -/
structure Parsed where
  allRequirements : List Requirement
  definitions : List Definition
  indicators : List Indicator

/-- The body of the loop `for code, data := range docs` of `fetchData`. -/
def parseStep (orders : RangeOrders) (lex : Bytes → RawMessage) (state : Parsed)
    (entry : String × Bytes) : Parsed :=
  if entry.1 = "FRD" then
    match ParseDefinitions (lex entry.2) with
    | .ok defs => { state with definitions := defs }
    | .error _ => state
  else if entry.1 = "KSI" then
    match ParseIndicators orders.themes (lex entry.2) with
    | .ok inds => { state with indicators := inds }
    | .error _ => state
  else
    match ParseRequirements (orders.categories entry.1) (lex entry.2) entry.1 with
    | .ok reqs => { state with allRequirements := state.allRequirements ++ reqs }
    | .error _ => state

/-- The requirements one fetched document contributes to the result of
`fetchData`: those `ParseRequirements` returns for it, none if it fails or if
the document is FRD or KSI. -/
def contributedRequirements (orders : RangeOrders) (lex : Bytes → RawMessage)
    (entry : String × Bytes) : List Requirement :=
  if entry.1 = "FRD" ∨ entry.1 = "KSI" then []
  else
    match ParseRequirements (orders.categories entry.1) (lex entry.2) entry.1 with
    | .ok reqs => reqs
    | .error _ => []

/-- The map `reqCounts` of `fetchData` after its loop over `allRequirements`. -/
def reqCounts (allRequirements : List Requirement) : GoMap Int :=
  allRequirements.foldl
    (fun counts r => GoMap.set counts r.DocumentCode ((counts.get r.DocumentCode).getD 0 + 1))
    []

/-- The body of the first loop of `fetchData` over `documents`: the document
`documents[i]` after it, `counts` being the map `reqCounts`. -/
def countAndEnrich (orders : RangeOrders) (lex : Bytes → RawMessage) (docs : GoMap Bytes)
    (counts : GoMap Int) (d : Document) : Document :=
  let d := { d with RequirementCount := (counts.get d.Code).getD 0 }
  match docs.get d.Code with
  | some data =>
    match ParseDocumentInfo (lex data) with
    | .ok info => EnrichDocument (orders.effective d.Code) d (some info)
    | .error _ => d
  | none => d

/-- The function the command returned by `(Model).fetchData` runs. `fetched` is
what `m.apiClient.FetchAllDocuments()` returns; `lex` is the view
`json.Unmarshal` has of a byte slice (empty, malformed, or the text of a JSON
value). -/
def fetchData (orders : RangeOrders) (lex : Bytes → RawMessage)
    (fetched : GoMap Bytes × Option FetchAllError) : FetchDataMsg :=
  match fetched.2 with
  | some err => .error ⟨err⟩
  | none =>
    let docs := fetched.1
    let parsed := (orders.documents.visit docs).foldl (parseStep orders lex) ⟨[], [], []⟩
    let documents := GetDocumentMetadata
    let counts := reqCounts parsed.allRequirements
    let documents := documents.map (countAndEnrich orders lex docs counts)
    let documents := documents.map fun d =>
      if d.Code = "FRD" then { d with RequirementCount := parsed.definitions.length }
      else if d.Code = "KSI" then { d with RequirementCount := parsed.indicators.length }
      else d
    .dataLoaded
      { Documents := documents
        Requirements := parsed.allRequirements
        Definitions := parsed.definitions
        Indicators := parsed.indicators }

/-- A section is absent from a JSON value: no chain of object members whose
keys select, in turn, the fields named by `path` (given by their case-folded
names) leads to a value. A value that is no object has no section. -/
def Json.lacks : List String → Json → Bool
  | [], _ => false
  | field :: rest, .obj members =>
    members.all fun m => !(foldName m.1 == field) || Json.lacks rest m.2
  | _ :: _, _ => true

/-! ## `internal/model/listitem.go`, `internal/tui/keys.go` and `internal/tui/app.go`

The program is a bubbletea application. The libraries bubbletea and bubbles
are not part of it: the key message and its method `String` are written out
after bubbletea, and the three components the model holds (the list, the
viewport and the spinner of bubbles) are given by `Components`, their state
types and the operations `app.go` calls on them. -/

/-- The Go type `ViewState` with its five constants, in the order of their
values `0` to `4`. -/
inductive ViewState where
  | ViewHome
  | ViewRequirements
  | ViewDefinitions
  | ViewIndicators
  | ViewDetail
  deriving DecidableEq, Repr

/-- The variable `AffectsOptions`. -/
def AffectsOptions : List String := ["", "Providers", "Agencies", "Assessors", "FedRAMP"]

/-- A `list.Item` of the program: one of the four wrapper structs of
`listitem.go`. -/
inductive Item where
  | DocumentItem (d : Document)
  | RequirementItem (r : Requirement)
  | DefinitionItem (d : Definition)
  | IndicatorItem (i : Indicator)
  deriving DecidableEq, Repr

/-- The key types of bubbletea that `Update` or its tests name; `other` is any
other key type that has an entry in the table `keyNames`, given by that entry,
and `unnamed` a key type that has none. `tea.KeyEscape` is the same constant
as `tea.KeyEsc`. -/
inductive KeyType where
  | KeyRunes
  | KeyEnter
  | KeyEsc
  | KeyBackspace
  | KeyCtrlC
  | other (name : String)
  | unnamed
  deriving DecidableEq, Repr

/-- The lookup `keyNames[t]` in the table of bubbletea. -/
def keyNames : KeyType → Option String
  | .KeyRunes => some "runes"
  | .KeyEnter => some "enter"
  | .KeyEsc => some "esc"
  | .KeyBackspace => some "backspace"
  | .KeyCtrlC => some "ctrl+c"
  | .other name => some name
  | .unnamed => none

/-- The struct `tea.KeyMsg`; `type` is its field `Type`. -/
structure KeyMsg where
  type : KeyType
  Runes : List Char
  Alt : Bool
  Paste : Bool
  deriving DecidableEq, Repr

/-- The method `String` of `tea.KeyMsg`: after `alt+` when the key was pressed
with alt, the typed characters for a key of type `KeyRunes`, in brackets when
pasted, and the name of the key for a type that has one; the empty string for
a type without a name. -/
def KeyMsg.String (k : KeyMsg) :=
  let buf := if k.Alt then "alt+" else ""
  if k.type = .KeyRunes then
    let buf := if k.Paste then buf ++ "[" else buf
    let buf := buf ++ String.mk k.Runes
    if k.Paste then buf ++ "]" else buf
  else
    match keyNames k.type with
    | some s => buf ++ s
    | none => ""

/-- The type `list.FilterState` of bubbles. -/
inductive FilterState where
  | Unfiltered
  | Filtering
  | FilterApplied
  deriving DecidableEq, Repr

/-- A `tea.Cmd` as far as `Update` tells commands apart: nil, `tea.Quit`, or a
command `c` a component returned. -/
inductive Cmd (C : Type) where
  | nil
  | Quit
  | component (c : C)
  deriving DecidableEq, Repr

/-- A `tea.Msg` by the cases of the type switch of `Update`; `other` is a
message of any other type. -/
inductive Msg (Tick Other : Type) where
  | key (msg : KeyMsg)
  | windowSize (Width Height : Int)
  | spinnerTick (msg : Tick)
  | dataLoaded (msg : DataLoadedMsg)
  | error (Err : Option FetchAllError)
  | other (msg : Other)

/-- The components of bubbles the model holds, and what `app.go` does with
them. A component may answer a message with any command, `tea.Quit` included.
`listNew` is `list.New` with the delegate of `NewItemDelegate`; `listConfigure`
stands for the settings `initList` makes after the title (status bar,
filtering, styles, prompt and the substring `Filter` function);
`viewportSetSize` for the two assignments to `Width` and `Height`;
`renderDetailContent` for the method of `views.go`, which reads the selected
item and the width and returns styled text. `listHasDelegate` tells whether
the list has its item delegate: the zero value of `list.Model` has none,
`list.New` sets it, and `SetItems` and `SetSize` call the delegate, so that
they panic on a list without one. -/
structure Components where
  ListModel : Type
  ViewportModel : Type
  SpinnerModel : Type
  Command : Type
  Tick : Type
  Other : Type
  CacheStore : Type
  newCache : Option CacheStore
  zeroList : ListModel
  zeroViewport : ViewportModel
  newSpinner : SpinnerModel
  listNew : List Item → Int → Int → ListModel
  listConfigure : ListModel → ListModel
  listFilterState : ListModel → FilterState
  listSelectedItem : ListModel → Option Item
  listSetItems : ListModel → List Item → ListModel
  listSetTitle : ListModel → String → ListModel
  listResetSelected : ListModel → ListModel
  listResetFilter : ListModel → ListModel
  listSetSize : ListModel → Int → Int → ListModel
  listUpdate : ListModel → Msg Tick Other → ListModel × Cmd Command
  viewportNew : Int → Int → ViewportModel
  viewportSetContent : ViewportModel → String → ViewportModel
  viewportSetSize : ViewportModel → Int → Int → ViewportModel
  viewportUpdate : ViewportModel → Msg Tick Other → ViewportModel × Cmd Command
  spinnerUpdate : SpinnerModel → Msg Tick Other → SpinnerModel × Cmd Command
  renderDetailContent : Option Item → Int → String
  listHasDelegate : ListModel → Bool
  zeroList_noDelegate : listHasDelegate zeroList = false
  listNew_hasDelegate : ∀ items width height, listHasDelegate (listNew items width height) = true

/-- A `key.Binding` of bubbles: its keys and its help entry. -/
structure Binding where
  keys : List String
  helpKey : String
  helpDesc : String
  deriving DecidableEq, Repr

/-- The struct `KeyMap` of `keys.go`. -/
structure KeyMap where
  Up : Binding
  Down : Binding
  Enter : Binding
  Back : Binding
  Quit : Binding
  Help : Binding
  Home : Binding
  Reqs : Binding
  Defs : Binding
  Indicators : Binding
  Filter : Binding
  deriving DecidableEq, Repr

/-- The function `DefaultKeyMap`. -/
def DefaultKeyMap : KeyMap :=
  { Up := ⟨["up", "k"], "k/up", "move up"⟩
    Down := ⟨["down", "j"], "j/down", "move down"⟩
    Enter := ⟨["enter"], "enter", "select/view details"⟩
    Back := ⟨["esc", "backspace"], "esc", "go back"⟩
    Quit := ⟨["q", "ctrl+c"], "q", "quit"⟩
    Help := ⟨["?"], "?", "toggle help"⟩
    Home := ⟨["1"], "1", "documents"⟩
    Reqs := ⟨["2"], "2", "requirements"⟩
    Defs := ⟨["3"], "3", "definitions"⟩
    Indicators := ⟨["4"], "4", "indicators"⟩
    Filter := ⟨["/"], "/", "filter"⟩ }

/-- The struct `Model` of `app.go`. -/
structure Model (B : Components) where
  view : ViewState
  previousView : ViewState
  loading : Bool
  err : Option FetchAllError
  width : Int
  height : Int
  documents : List Document
  requirements : List Requirement
  definitions : List Definition
  indicators : List Indicator
  documentFilter : String
  keywordFilter : String
  affectsFilter : String
  selectedItem : Option Item
  list : B.ListModel
  spinner : B.SpinnerModel
  viewport : B.ViewportModel
  viewportReady : Bool
  apiClient : Client B.CacheStore
  keys : KeyMap

/-- The function `WithRefresh` of package `tui`. -/
def tui.WithRefresh (B : Components) (refresh : Bool) : Model B → Model B :=
  fun m => { m with apiClient := NewClient B.newCache [FedrampTui.WithRefresh refresh] }

/-- The function `NewModel`: every field the literal does not name has its zero
value. -/
def NewModel (B : Components) (opts : List (Model B → Model B)) : Model B :=
  opts.foldl (fun m opt => opt m)
    { view := .ViewHome
      previousView := .ViewHome
      loading := true
      err := none
      width := 0
      height := 0
      documents := []
      requirements := []
      definitions := []
      indicators := []
      documentFilter := ""
      keywordFilter := ""
      affectsFilter := ""
      selectedItem := none
      list := B.zeroList
      spinner := B.newSpinner
      viewport := B.zeroViewport
      viewportReady := false
      apiClient := NewClient B.newCache []
      keys := DefaultKeyMap }

/-- The method `getDocumentItems`. -/
def Model.getDocumentItems {B : Components} (m : Model B) : List Item :=
  m.documents.map .DocumentItem

/-- The method `getRequirementItems`: the loop over `m.requirements`, each
`continue` leaving `items` as it is; the inner loop that sets `found` asks
whether some element of `r.Affects` equals the filter. -/
def Model.getRequirementItems {B : Components} (m : Model B) : List Item :=
  m.requirements.foldl
    (fun items r =>
      if m.documentFilter ≠ "" ∧ r.DocumentCode ≠ m.documentFilter then items
      else if m.keywordFilter ≠ "" ∧ r.PrimaryKeyWord ≠ m.keywordFilter then items
      else if m.affectsFilter ≠ "" ∧ (r.Affects.any fun a => a == m.affectsFilter) = false then
        items
      else items ++ [.RequirementItem r])
    []

/-- The method `getDefinitionItems`. -/
def Model.getDefinitionItems {B : Components} (m : Model B) : List Item :=
  m.definitions.map .DefinitionItem

/-- The method `getIndicatorItems`. -/
def Model.getIndicatorItems {B : Components} (m : Model B) : List Item :=
  m.indicators.map .IndicatorItem

/-- The method `initList`. -/
def Model.initList {B : Components} (m : Model B) : Model B :=
  { m with
    list := B.listConfigure
      (B.listSetTitle (B.listNew m.getDocumentItems (m.width - 4) (m.height - 10))
        "FedRAMP Documentation") }

/-- The hints `updateListForView` shows in the title of the requirements
list. -/
def Model.filterHints {B : Components} (m : Model B) : List String :=
  let filterHints := []
  let filterHints :=
    if m.documentFilter ≠ "" then filterHints ++ [m.documentFilter] else filterHints
  let filterHints :=
    if m.keywordFilter ≠ "" then filterHints ++ [m.keywordFilter ++ " only"] else filterHints
  if m.affectsFilter ≠ "" then filterHints ++ [m.affectsFilter] else filterHints

/-- The items and the title `updateListForView` computes in its switch on
`m.view`; in the detail view both keep their zero values. -/
def Model.itemsAndTitle {B : Components} (m : Model B) : List Item × String :=
  match m.view with
  | .ViewHome => (m.getDocumentItems, "FedRAMP Documents")
  | .ViewRequirements =>
    let items := m.getRequirementItems
    if m.filterHints.length > 0 then
      (items, "Requirements (" ++ toString items.length ++ ") [" ++
        ", ".intercalate m.filterHints ++ "] - x: affects, m/s: keyword, f: clear")
    else
      (items, "FedRAMP Requirements (" ++ toString items.length ++
        ") - x: affects, m: MUST, s: SHOULD")
  | .ViewDefinitions =>
    (m.getDefinitionItems, "FedRAMP Definitions (" ++ toString m.definitions.length ++ ")")
  | .ViewIndicators =>
    (m.getIndicatorItems, "Key Security Indicators (" ++ toString m.indicators.length ++ ")")
  | .ViewDetail => ([], "")

/-- The method `updateListForView`, as far as its calls on the list return:
`SetItems` panics on a list without delegate
(`Model.updateListForView.faults`). -/
def Model.updateListForView {B : Components} (m : Model B) : Model B :=
  { m with
    list := B.listResetFilter (B.listResetSelected
      (B.listSetTitle (B.listSetItems m.list m.itemsAndTitle.1) m.itemsAndTitle.2)) }

/-- The branch of `Update` for Enter in the detail view: the model it returns
when the selected item is a `model.DocumentItem`, none when the type assertion
fails. -/
def Update.detailEnter {B : Components} (m : Model B) : Option (Model B) :=
  match m.selectedItem with
  | some (.DocumentItem doc) =>
    let m :=
      if doc.Code = "FRD" then { m with view := .ViewDefinitions, documentFilter := "" }
      else if doc.Code = "KSI" then { m with view := .ViewIndicators, documentFilter := "" }
      else { m with view := .ViewRequirements, documentFilter := doc.Code }
    some ({ m with viewportReady := false }).updateListForView
  | _ => none

/-- The block of `Update` under `if m.view == ViewDetail`: what it returns, or
none when it falls through to the code after it. -/
def Update.detailKeys {B : Components} (m : Model B) (msg : KeyMsg) :
    Option (Model B × Cmd B.Command) :=
  if msg.type = .KeyEsc ∨ msg.type = .KeyBackspace ∨ msg.type = .KeyEsc ∨ msg.String = "q" then
    some (({ m with view := m.previousView, viewportReady := false }).updateListForView, .nil)
  else
    match (if msg.type = .KeyEnter then Update.detailEnter m else none) with
    | some next => some (next, .nil)
    | none =>
      if m.viewportReady then
        let r := B.viewportUpdate m.viewport (.key msg)
        some ({ m with viewport := r.1 }, r.2)
      else none

/-- The affects filter after the key `x`: the option after the first one equal
to the current filter, the option after the first when none is. -/
def nextAffects (affectsFilter : String) : String :=
  let currentIdx := (AffectsOptions.findIdx? fun opt => opt == affectsFilter).getD 0
  let nextIdx := (currentIdx + 1) % AffectsOptions.length
  AffectsOptions.getD nextIdx ""

/-- The statement `switch msg.String()` of `Update`: the model after it, and
the command of the `return` it ran into, none when control leaves the switch
without returning. -/
def Update.keySwitch {B : Components} (m : Model B) (msg : KeyMsg) :
    Model B × Option (Cmd B.Command) :=
  if msg.String = "ctrl+c" then (m, some .Quit)
  else if msg.String = "q" then (m, some .Quit)
  else if msg.String = "enter" then
    if m.loading = false ∧ B.listFilterState m.list ≠ .Filtering then
      match B.listSelectedItem m.list with
      | some item =>
        let m := { m with selectedItem := some item, previousView := m.view, view := .ViewDetail }
        let m := { m with viewport := B.viewportNew (m.width - 4) (m.height - 8) }
        let m := { m with
          viewport := B.viewportSetContent m.viewport
            (B.renderDetailContent m.selectedItem m.width) }
        ({ m with viewportReady := true }, some .nil)
      | none => (m, none)
    else (m, none)
  else if msg.String = "f" then
    if m.view = .ViewRequirements ∧
        (m.documentFilter ≠ "" ∨ m.keywordFilter ≠ "" ∨ m.affectsFilter ≠ "") then
      (({ m with documentFilter := "", keywordFilter := "", affectsFilter := "" }).updateListForView,
        some .nil)
    else (m, none)
  else if msg.String = "x" then
    if m.view = .ViewRequirements then
      (({ m with affectsFilter := nextAffects m.affectsFilter }).updateListForView, some .nil)
    else (m, none)
  else if msg.String = "m" then
    if m.view = .ViewRequirements then
      (({ m with
          keywordFilter := if m.keywordFilter = "MUST" then "" else "MUST" }).updateListForView,
        some .nil)
    else (m, none)
  else if msg.String = "s" then
    if m.view = .ViewRequirements ∧ B.listFilterState m.list ≠ .Filtering then
      (({ m with
          keywordFilter :=
            if m.keywordFilter = "SHOULD" then "" else "SHOULD" }).updateListForView,
        some .nil)
    else (m, none)
  else if msg.String = "1" then
    if m.view ≠ .ViewDetail then
      (({ m with view := .ViewHome, documentFilter := "", keywordFilter := "" }).updateListForView,
        none)
    else (m, none)
  else if msg.String = "2" then
    if m.view ≠ .ViewDetail then
      (({ m with view := .ViewRequirements }).updateListForView, none)
    else (m, none)
  else if msg.String = "3" then
    if m.view ≠ .ViewDetail then
      (({ m with view := .ViewDefinitions }).updateListForView, none)
    else (m, none)
  else if msg.String = "4" then
    if m.view ≠ .ViewDetail then
      (({ m with view := .ViewIndicators }).updateListForView, none)
    else (m, none)
  else (m, none)

/-- The end of `Update`, after the type switch: the message goes to the list
unless the data is loading, an error is shown or the detail view is open. -/
def Update.passToList {B : Components} (m : Model B) (msg : Msg B.Tick B.Other) :
    Model B × Cmd B.Command :=
  if m.loading = false ∧ m.err = none ∧ m.view ≠ .ViewDetail then
    let r := B.listUpdate m.list msg
    ({ m with list := r.1 }, r.2)
  else (m, .nil)

/-- The method `Update`: the model and the command it returns, as far as its
calls on the list return (`Update.faults` tells when `SetItems` or `SetSize`
panics). -/
def Update {B : Components} (m : Model B) (msg : Msg B.Tick B.Other) :
    Model B × Cmd B.Command :=
  match msg with
  | .key key =>
    match (if m.view = .ViewDetail then Update.detailKeys m key else none) with
    | some r => r
    | none =>
      if B.listFilterState m.list = .Filtering then
        let r := B.listUpdate m.list (.key key)
        ({ m with list := r.1 }, r.2)
      else
        match Update.keySwitch m key with
        | (m, some cmd) => (m, cmd)
        | (m, none) => Update.passToList m (.key key)
  | .windowSize Width Height =>
    let m := { m with width := Width, height := Height }
    let m :=
      if m.loading = false then
        { m with list := B.listSetSize m.list (Width - 4) (Height - 10) }
      else m
    let m :=
      if m.viewportReady then
        { m with viewport := B.viewportSetSize m.viewport (Width - 4) (Height - 8) }
      else m
    (m, .nil)
  | .spinnerTick tick =>
    if m.loading then
      let r := B.spinnerUpdate m.spinner (.spinnerTick tick)
      ({ m with spinner := r.1 }, r.2)
    else Update.passToList m (.spinnerTick tick)
  | .dataLoaded msg =>
    (({ m with
        loading := false
        documents := msg.Documents
        requirements := msg.Requirements
        definitions := msg.Definitions
        indicators := msg.Indicators }).initList, .nil)
  | .error Err => ({ m with loading := false, err := Err }, .nil)
  | .other msg => Update.passToList m (.other msg)

/-- The model after a sequence of messages, each handled by `Update`. -/
def run {B : Components} (m : Model B) (msgs : List (Msg B.Tick B.Other)) : Model B :=
  msgs.foldl (fun m msg => (Update m msg).1) m

/-- The requirement passes the three filters of `getRequirementItems`, as the
specification states them. -/
def passesFilters (documentFilter keywordFilter affectsFilter : String) (r : Requirement) :
    Prop :=
  (documentFilter = "" ∨ r.DocumentCode = documentFilter) ∧
    (keywordFilter = "" ∨ r.PrimaryKeyWord = keywordFilter) ∧
    (affectsFilter = "" ∨ affectsFilter ∈ r.Affects)

instance (documentFilter keywordFilter affectsFilter : String) (r : Requirement) :
    Decidable (passesFilters documentFilter keywordFilter affectsFilter r) := by
  unfold passesFilters
  exact inferInstance

/-- The invariant of the detail view: the viewport is ready whenever the
detail view is open, and the view to go back to is never the detail view. -/
def Model.DetailInvariant {B : Components} (m : Model B) : Prop :=
  (m.view = .ViewDetail → m.viewportReady = true) ∧ m.previousView ≠ .ViewDetail

/-- The JSON values a Go type accepts from `json.Unmarshal`, as far as the
types of `DocumentInfo` go: a string, a bool, a slice, a map with string keys,
a struct given by the type of the field each case-folded key selects, and
`any` for a key that selects no field, whose value is skipped. -/
inductive Shape where
  | any
  | string
  | bool
  | slice (elem : Shape)
  | map (elem : Shape)
  | struct (field : String → Shape)

/-- The JSON value has the JSON type the Go type asks for, at every level:
`null` fits every type, a string fits `string`, `true` and `false` fit `bool`,
an array fits a slice when its elements fit, an object fits a map when its
values fit and a struct when the value of every member fits the field its key
selects. -/
def Json.fits : Shape → Json → Bool
  | .any, _ => true
  | .string, j => match j with
    | .null => true
    | .str _ => true
    | _ => false
  | .bool, j => match j with
    | .null => true
    | .bool _ => true
    | _ => false
  | .slice elem, j => match j with
    | .null => true
    | .arr items => items.all (Json.fits elem)
    | _ => false
  | .map elem, j => match j with
    | .null => true
    | .obj members => members.all fun m => Json.fits elem m.2
    | _ => false
  | .struct field, j => match j with
    | .null => true
    | .obj members => members.all fun m => Json.fits (field (foldName m.1)) m.2
    | _ => false

/-- The fields of the Go struct `Authority`, by the case-folded names of their
JSON tags. -/
def Authority.fields : String → Shape
  | "REFERENCE" => .string
  | "REFERENCE_URL" => .string
  | "DESCRIPTION" => .string
  | "DELEGATION" => .string
  | "DELEGATION_URL" => .string
  | _ => .any

/-- The fields of the Go struct `RelatedRFC`. -/
def RelatedRFC.fields : String → Shape
  | "ID" => .string
  | "URL" => .string
  | "DISCUSSION_URL" => .string
  | "SHORT_NAME" => .string
  | "FULL_NAME" => .string
  | "START_DATE" => .string
  | "END_DATE" => .string
  | _ => .any

/-- The fields of the Go struct `Release`. -/
def Release.fields : String → Shape
  | "ID" => .string
  | "PUBLISHED_DATE" => .string
  | "DESCRIPTION" => .string
  | "PUBLIC_COMMENT" => .bool
  | "RELATED_RFCS" => .slice (.struct RelatedRFC.fields)
  | _ => .any

/-- The fields of the Go struct `EffectiveInfo`. -/
def EffectiveInfo.fields : String → Shape
  | "IS" => .string
  | "SIGNUP_URL" => .string
  | "CURRENT_STATUS" => .string
  | "START_DATE" => .string
  | "END_DATE" => .string
  | "COMMENTS" => .slice .string
  | "WARNINGS" => .slice .string
  | _ => .any

/-- The fields of the Go struct `FrontMatter`. -/
def FrontMatter.fields : String → Shape
  | "AUTHORITY" => .slice (.struct Authority.fields)
  | "PURPOSE" => .string
  | "EXPECTED_OUTCOMES" => .slice .string
  | _ => .any

/-- The fields of the Go struct `DocumentInfo`. -/
def DocumentInfo.fields : String → Shape
  | "NAME" => .string
  | "SHORT_NAME" => .string
  | "EFFECTIVE" => .map (.struct EffectiveInfo.fields)
  | "RELEASES" => .slice (.struct Release.fields)
  | "FRONT_MATTER" => .struct FrontMatter.fields
  | _ => .any

/-- The only field of the local struct of `ParseDocumentInfo`. -/
def infoEnvelopeFields : String → Shape
  | "INFO" => .struct DocumentInfo.fields
  | _ => .any

/-- A Go slice where it matters whether the slice is nil: `nil`, or a slice
that is not nil with its elements (`elems []` is the empty slice `make`
returns for the length 0). -/
inductive Slice (α : Type) where
  | nil
  | elems (items : List α)
  deriving DecidableEq, Repr

/-- The elements of a slice. -/
def Slice.toList {α : Type} : Slice α → List α
  | .nil => []
  | .elems items => items

/-- The call `append(s, xs...)`: with nothing to append it returns the slice
itself, nil if it was nil. -/
def Slice.append {α : Type} (s : Slice α) (xs : List α) : Slice α :=
  match xs with
  | [] => s
  | x :: rest => .elems (s.toList ++ x :: rest)

/-- The three variables the parse loop of `fetchData` fills, as slices. -/
structure ParsedSlices where
  allRequirements : Slice Requirement
  definitions : Slice Definition
  indicators : Slice Indicator
  deriving DecidableEq, Repr

/-- The lists `ParsedSlices` holds. -/
def ParsedSlices.forget (s : ParsedSlices) : Parsed :=
  ⟨s.allRequirements.toList, s.definitions.toList, s.indicators.toList⟩

/-- The body of the loop `for code, data := range docs` of `fetchData`, with
the slices as Go has them: `ParseDefinitions` returns the slice it got from
`make`, which is never nil; `ParseIndicators` returns a nil slice extended by
`append`, nil when there was nothing to append; `allRequirements` is extended
by `append`. -/
def parseStepSlices (orders : RangeOrders) (lex : Bytes → RawMessage) (state : ParsedSlices)
    (entry : String × Bytes) : ParsedSlices :=
  if entry.1 = "FRD" then
    match ParseDefinitions (lex entry.2) with
    | .ok defs => { state with definitions := .elems defs }
    | .error _ => state
  else if entry.1 = "KSI" then
    match ParseIndicators orders.themes (lex entry.2) with
    | .ok inds => { state with indicators := Slice.append .nil inds }
    | .error _ => state
  else
    match ParseRequirements (orders.categories entry.1) (lex entry.2) entry.1 with
    | .ok reqs => { state with allRequirements := state.allRequirements.append reqs }
    | .error _ => state

/-- The struct `DataLoadedMsg` with its four fields as slices. -/
structure DataLoadedSlices where
  Documents : Slice Document
  Requirements : Slice Requirement
  Definitions : Slice Definition
  Indicators : Slice Indicator
  deriving DecidableEq, Repr

/-- The `DataLoadedMsg` that `fetchData` returns when `FetchAllDocuments` gave
the documents `docs` and no error, with its slices as Go has them: the three
variables start as nil slices, `documents` is the slice `GetDocumentMetadata`
built. -/
def fetchDataSlices (orders : RangeOrders) (lex : Bytes → RawMessage) (docs : GoMap Bytes) :
    DataLoadedSlices :=
  let parsed := (orders.documents.visit docs).foldl (parseStepSlices orders lex)
    ⟨.nil, .nil, .nil⟩
  let documents := GetDocumentMetadata
  let counts := reqCounts parsed.allRequirements.toList
  let documents := documents.map (countAndEnrich orders lex docs counts)
  let documents := documents.map fun d =>
    if d.Code = "FRD" then { d with RequirementCount := parsed.definitions.toList.length }
    else if d.Code = "KSI" then { d with RequirementCount := parsed.indicators.toList.length }
    else d
  { Documents := .elems documents
    Requirements := parsed.allRequirements
    Definitions := parsed.definitions
    Indicators := parsed.indicators }

/-- The document parses to nothing: it is a JSON object without an `info`
member, so that `ParseDocumentInfo` finds no metadata in it,
`ParseRequirements` and `ParseDefinitions` return empty collections without
error, and `ParseIndicators` returns an empty collection or fails. -/
def ParsesEmpty (themes : RangeOrder ThemeJSON) (data : RawMessage) : Prop :=
  (∃ members : List (String × Json),
    data = .value (.obj members) ∧ ∀ m ∈ members, foldName m.1 ≠ "INFO") ∧
  (∀ (range : RangeOrder RequirementCategory) (docCode : String),
    ParseRequirements range data docCode = .ok []) ∧
  ParseDefinitions data = .ok [] ∧
  (ParseIndicators themes data = .ok [] ∨ ∃ e, ParseIndicators themes data = .error e)

/-- The lexer `lex2` reads every byte string as `lex1` does, except that some
byte strings that are not well-formed JSON for `lex1` are for `lex2` documents
that parse to nothing. -/
def RepairsTo (themes : RangeOrder ThemeJSON) (lex1 lex2 : Bytes → RawMessage) : Prop :=
  ∀ data, lex2 data = lex1 data ∨
    ((∀ j, lex1 data ≠ .value j) ∧ ParsesEmpty themes (lex2 data))

/-- The zero value of `model.Definition`. -/
def Definition.zero : Definition := ⟨"", "", [], "", "", "", ""⟩

/-- The zero value of `model.Control`. -/
def Control.zero : Control := ⟨"", ""⟩

/-- The assignment `s[i] = x` to a slice; none is the run-time panic for an
index out of range. -/
def setIndex {α : Type} (s : List α) (i : Nat) (x : α) : Option (List α) :=
  if i < s.length then some (s.set i x) else none

/-- The method `ParseDefinitions` step by step: the slice `make` returns,
filled with zero values, and the write `definitions[i] = ...` of each round of
the loop; none is a panic. -/
def ParseDefinitions.checked (data : RawMessage) :
    Option (Except ParseError (List Definition)) :=
  match jsonUnmarshal decodeDefinitionsDocument data DefinitionsDocument.zero with
  | .error e => some (.error (.json e))
  | .ok doc =>
    (doc.FRD.ALL.enum.foldlM
      (fun definitions (entry : Nat × DefinitionJSON) =>
        setIndex definitions entry.1
          { ID := entry.2.ID
            Term := entry.2.Term
            Alts := entry.2.Alts
            Text := entry.2.Definition
            Note := resolveNote entry.2
            Reference := entry.2.Reference
            ReferenceURL := entry.2.ReferenceURL })
      (List.replicate doc.FRD.ALL.length Definition.zero)).map .ok

/-- The slice `controls` of the inner loop of `ParseIndicators`, step by step:
the slice `make` returns and the write `controls[j] = ...` of each round; none
is a panic. -/
def controlsChecked (ind : IndicatorJSON) : Option (List Control) :=
  ind.Controls.enum.foldlM
    (fun controls (entry : Nat × ControlJSON) =>
      setIndex controls entry.1 { ControlID := entry.2.ControlID, Title := entry.2.Title })
    (List.replicate ind.Controls.length Control.zero)

/-- The method `ParseIndicators` step by step, with the slice `controls` built
by indexed writes; none is a panic. -/
def ParseIndicators.checked (range : RangeOrder ThemeJSON) (data : RawMessage) :
    Option (Except ParseError (List Indicator)) :=
  match jsonUnmarshal decodeRawMap data [] with
  | .error e => some (.error (.parsingRawDocument e))
  | .ok rawDoc =>
    match rawDoc.get "KSI" with
    | none => some (.error .ksiSectionNotFound)
    | some ksiRaw =>
      match jsonUnmarshal (decodeMap decodeThemeJSON ThemeJSON.zero) ksiRaw [] with
      | .error e => some (.error (.parsingKSIThemes e))
      | .ok ksiThemes =>
        ((range.visit ksiThemes).foldlM
          (fun (indicators : List Indicator) (entry : String × ThemeJSON) =>
            entry.2.Indicators.foldlM
              (fun (indicators : List Indicator) (ind : IndicatorJSON) =>
                (controlsChecked ind).map fun controls =>
                  indicators ++
                    [{ ID := ind.ID
                       ThemeCode := entry.1
                       ThemeName := entry.2.Name
                       ThemeDesc := entry.2.Theme
                       Name := ind.Name
                       Statement := ind.Statement
                       Impact := { Low := ind.Impact.Low, Moderate := ind.Impact.Moderate,
                                   High := ind.Impact.High }
                       Controls := controls
                       Reference := ind.Reference
                       ReferenceURL := ind.ReferenceURL
                       Note := ind.Note
                       Retired := ind.Retired }])
              indicators)
          []).map .ok

/-- The method `extractRequirements` with a bound on the depth of its calls:
none when a call would go deeper than `depth`. -/
def extractRequirements.bounded : Nat → List RequirementJSON → String →
    Option (List Requirement)
  | 0, _, _ => none
  | depth + 1, reqs, docCode =>
    reqs.foldlM
      (fun (requirements : List Requirement) (r0 : RequirementJSON) =>
        let r := r0.UnmarshalFollowingInfo
        let requirements := requirements ++ [Requirement.ofJSON r docCode]
        if r.FollowingInformation.length > 0 then
          (extractRequirements.bounded depth r.FollowingInformation docCode).map fun nested =>
            requirements ++ nested
        else some requirements)
      []

/-- The method `updateListForView` panics: its first call on the list is
`SetItems`, which needs the delegate. -/
def Model.updateListForView.faults {B : Components} (m : Model B) : Bool :=
  !B.listHasDelegate m.list

/-- The block of `Update` under `if m.view == ViewDetail` panics: it does so
when it calls `updateListForView`, for a key that goes back and for Enter on a
document, on a list without delegate. -/
def Update.detailKeys.faults {B : Components} (m : Model B) (msg : KeyMsg) : Bool :=
  if msg.type = .KeyEsc ∨ msg.type = .KeyBackspace ∨ msg.type = .KeyEsc ∨ msg.String = "q" then
    Model.updateListForView.faults m
  else if msg.type = .KeyEnter ∧ (Update.detailEnter m).isSome then
    Model.updateListForView.faults m
  else false

/-- The statement `switch msg.String()` of `Update` panics: it does so in the
cases that call `updateListForView`, on a list without delegate. -/
def Update.keySwitch.faults {B : Components} (m : Model B) (msg : KeyMsg) : Bool :=
  if msg.String = "ctrl+c" then false
  else if msg.String = "q" then false
  else if msg.String = "enter" then false
  else if msg.String = "f" then
    if m.view = .ViewRequirements ∧
        (m.documentFilter ≠ "" ∨ m.keywordFilter ≠ "" ∨ m.affectsFilter ≠ "") then
      Model.updateListForView.faults m
    else false
  else if msg.String = "x" then
    if m.view = .ViewRequirements then Model.updateListForView.faults m else false
  else if msg.String = "m" then
    if m.view = .ViewRequirements then Model.updateListForView.faults m else false
  else if msg.String = "s" then
    if m.view = .ViewRequirements ∧ B.listFilterState m.list ≠ .Filtering then
      Model.updateListForView.faults m
    else false
  else if msg.String = "1" ∨ msg.String = "2" ∨ msg.String = "3" ∨ msg.String = "4" then
    if m.view ≠ .ViewDetail then Model.updateListForView.faults m else false
  else false

/-- The method `Update` panics because `SetItems` or `SetSize` is called on a
list without delegate: in `updateListForView`, reached as `Update` reaches it,
or in the branch for `tea.WindowSizeMsg`, which calls `SetSize` unless the
data is loading. When this is false `Update` returns what `Update` gives. -/
def Update.faults {B : Components} (m : Model B) (msg : Msg B.Tick B.Other) : Bool :=
  match msg with
  | .key key =>
    if m.view = .ViewDetail ∧ (Update.detailKeys m key).isSome then
      Update.detailKeys.faults m key
    else if B.listFilterState m.list = .Filtering then false
    else Update.keySwitch.faults m key
  | .windowSize _ _ => m.loading = false && !B.listHasDelegate m.list
  | _ => false

/-! ## Sample inputs -/

/-- The order of `range` that visits a map in the order of its entries. -/
def RangeOrder.stored (V : Type) : RangeOrder V :=
  ⟨fun m => m, fun m => List.Perm.refl m⟩

/-- The JSON text `{"id":"A","following_information":[{"id":"A.1"}]}`. -/
def sampleNestedJson : Json :=
  .obj [("id", .str "A"), ("following_information", .arr [.obj [("id", .str "A.1")]])]

/-- The record `sampleNestedJson` decodes to. -/
def sampleNested : RequirementJSON :=
  { RequirementJSON.zero with
    ID := "A", RawFollowingInfo := .value (.arr [.obj [("id", .str "A.1")]]) }

/-- The record `{"id":"A.1"}` decodes to. -/
def sampleLeaf : RequirementJSON :=
  { RequirementJSON.zero with ID := "A.1" }

/-- A record whose `following_information` is free text, followed by a sibling. -/
def sampleFreeText : RequirementJSON :=
  { RequirementJSON.zero with ID := "B", RawFollowingInfo := .value (.str "see the note") }

/-- The JSON text `{"requirements":[{"id":"VDR-1","statement":"x"}]}`. -/
def sampleSingleCategory : List (String × Json) :=
  [("requirements", .arr [.obj [("id", .str "VDR-1"), ("statement", .str "x")]])]

/-- The category `sampleSingleCategory` decodes to. -/
def sampleSingleCategoryDecoded : RequirementCategory :=
  { RequirementCategory.zero with
    Requirements := [{ RequirementJSON.zero with ID := "VDR-1", Statement := "x" }] }

/-- The JSON text `{"base":{"requirements":[{"id":"A","following_information":
[{"id":"A.1"}]}]},"extra":{"requirements":[{"id":"B"}]}}`. -/
def sampleCategoryMap : Json :=
  .obj [("base", .obj [("requirements", .arr [sampleNestedJson])]),
        ("extra", .obj [("requirements", .arr [.obj [("id", .str "B")]])])]

/-- The map `sampleCategoryMap` decodes to. -/
def sampleCategoryMapDecoded : GoMap RequirementCategory :=
  [("base", { RequirementCategory.zero with Requirements := [sampleNested] }),
   ("extra", { RequirementCategory.zero with
      Requirements := [{ RequirementJSON.zero with ID := "B" }] })]

/-- The JSON text `{"AFR":{"id":"AFR","name":"Access & Flow Restriction",
"theme":"Limit access","indicators":[{"id":"KSI-AFR-01","name":"Minimum scope",
"controls":[{"control_id":"ac-2","title":"Account Management"},
{"control_id":"ac-3","title":"Access Enforcement"}]}]}}`. -/
def sampleKSISection : Json :=
  .obj [("AFR", .obj
    [("id", .str "AFR"), ("name", .str "Access & Flow Restriction"),
     ("theme", .str "Limit access"),
     ("indicators", .arr [.obj
       [("id", .str "KSI-AFR-01"), ("name", .str "Minimum scope"),
        ("controls", .arr
          [.obj [("control_id", .str "ac-2"), ("title", .str "Account Management")],
           .obj [("control_id", .str "ac-3"), ("title", .str "Access Enforcement")]])]])])]

/-- The members of the JSON text `{"KSI": ...}` whose `KSI` section is
`sampleKSISection`. -/
def sampleKSI : List (String × Json) :=
  [("KSI", sampleKSISection)]

/-- The theme map `sampleKSISection` decodes to. -/
def sampleThemes : GoMap ThemeJSON :=
  [("AFR",
    { ID := "AFR", Name := "Access & Flow Restriction", Theme := "Limit access",
      Indicators :=
        [{ IndicatorJSON.zero with
           ID := "KSI-AFR-01", Name := "Minimum scope",
           Controls := [⟨"ac-2", "Account Management"⟩, ⟨"ac-3", "Access Enforcement"⟩] }] })]

/-- The JSON text `{"FRD":{"ALL":[{"note":"","notes":["a","b"]},
{"note":"x","notes":["a","b"]},{"id":"FRD-3"}]}}`. -/
def sampleDefinitions : RawMessage :=
  .value (.obj [("FRD", .obj [("ALL", .arr
    [.obj [("note", .str ""), ("notes", .arr [.str "a", .str "b"])],
     .obj [("note", .str "x"), ("notes", .arr [.str "a", .str "b"])],
     .obj [("id", .str "FRD-3")]])])])

/-- The document `sampleDefinitions` decodes to. -/
def sampleDefinitionsDecoded : DefinitionsDocument :=
  { DefinitionsDocument.zero with
    FRD := ⟨[{ DefinitionJSON.zero with Notes := ["a", "b"] },
             { DefinitionJSON.zero with Note := "x", Notes := ["a", "b"] },
             { DefinitionJSON.zero with ID := "FRD-3" }]⟩ }

/-- The JSON text `{"FRD":{"ALL":[{"id":"FRD-2","term":"Zeta","alts":["Z"],
"definition":"Last letter","reference":"Ref","reference_url":"https://z"},
{"id":"FRD-1","term":"Alpha","definition":"First letter"},
{"id":"FRD-1","term":"Alpha","definition":"First letter"}]}}`. -/
def sampleTerms : RawMessage :=
  .value (.obj [("FRD", .obj [("ALL", .arr
    [.obj [("id", .str "FRD-2"), ("term", .str "Zeta"), ("alts", .arr [.str "Z"]),
           ("definition", .str "Last letter"), ("reference", .str "Ref"),
           ("reference_url", .str "https://z")],
     .obj [("id", .str "FRD-1"), ("term", .str "Alpha"), ("definition", .str "First letter")],
     .obj [("id", .str "FRD-1"), ("term", .str "Alpha"),
           ("definition", .str "First letter")]])])])

/-- The document `sampleTerms` decodes to. -/
def sampleTermsDecoded : DefinitionsDocument :=
  { DefinitionsDocument.zero with
    FRD := ⟨[{ DefinitionJSON.zero with
                ID := "FRD-2", Term := "Zeta", Alts := ["Z"], Definition := "Last letter",
                Reference := "Ref", ReferenceURL := "https://z" },
             { DefinitionJSON.zero with
                ID := "FRD-1", Term := "Alpha", Definition := "First letter" },
             { DefinitionJSON.zero with
                ID := "FRD-1", Term := "Alpha", Definition := "First letter" }]⟩ }

/-- A cache that keeps everything in memory and never fails. -/
def memoryCache : Cache (GoMap Bytes) :=
  ⟨fun store key => GoMap.get store key, fun store key data => (GoMap.set store key data, false)⟩

/-- Per-document fetches of which only that of the VDR document fails. -/
def sampleFetch (filename : String) : Except FetchError Bytes :=
  if filename = "FRMR.VDR.vulnerability-detection-and-response.json" then
    .error (.transport "connection refused")
  else .ok [123, 125]

/-- A server that answers every request with status 200 and the body `{}`,
delivered in two reads. -/
def sampleServer (_ : String) : Except String Response :=
  .ok ⟨200, "200 OK", ⟨[[123]], [125], .EOF⟩⟩

/-- A network on which every request fails. -/
def sampleOffline (_ : String) : Except String Response :=
  .error "no route to host"

/-- A server that answers with status 200 and whose connection breaks after
the first two bytes of the body. -/
def sampleBrokenBody (_ : String) : Except String Response :=
  .ok ⟨200, "200 OK", ⟨[[123, 34]], [], .failure "connection reset by peer"⟩⟩

/-- A client made by `NewClient(WithRefresh(true))` whose cache holds the
bytes `[]` of an earlier pass under the URL of the FRD document. -/
def sampleRefreshBase : Client (GoMap Bytes) :=
  NewClient (some [(BaseURL ++ "/" ++ "FRMR.FRD.fedramp-definitions.json", [91, 93])]) []

/-- Range orders that visit every map in the order of its entries. -/
def sampleOrders : RangeOrders :=
  ⟨RangeOrder.stored Bytes, fun _ => RangeOrder.stored RequirementCategory,
    RangeOrder.stored ThemeJSON, fun _ => RangeOrder.stored EffectiveInfo⟩

/-- A stand-in for the lexical layer of `encoding/json` on four byte strings:
`[1]` is read as the text of `sampleDefinitions`, `[2]` as the KSI document
`sampleKSI`, `[3]` as the requirements document
`{"FRR":{"VDR":{"requirements":[{"id":"VDR-1","statement":"x"}]}}}`, the bytes
of `{}` as the empty object; the empty string is empty and everything else is
malformed. -/
def sampleLex (data : Bytes) : RawMessage :=
  if data = [1] then sampleDefinitions
  else if data = [2] then .value (.obj sampleKSI)
  else if data = [3] then .value (.obj [("FRR", .obj [("VDR", .obj sampleSingleCategory)])])
  else if data = [123, 125] then .value (.obj [])
  else if data = [] then .empty
  else .malformed

/-- Fetched documents of which FRD and UCM are not well-formed JSON. -/
def sampleDocs : GoMap Bytes :=
  [("FRD", [7]), ("KSI", [2]), ("VDR", [3]), ("UCM", [7])]

/-- The document `{"FRR":{"VDR":{"requirements":[{"id":5}]}}}`: the section
for `VDR` is an object whose member `requirements` is an array, so it is no
map of categories, and the record in the array has a number for `id`, so it is
no single category either. -/
def sampleNeitherShape : List (String × Json) :=
  [("FRR", .obj [("VDR", .obj [("requirements", .arr [.obj [("id", .num "5")]])])])]

/-- The list of `sampleComponents`: its items, its filter state and whether it
has a delegate; its selected item is the first one. -/
structure SampleList where
  items : List Item
  filterState : FilterState
  hasDelegate : Bool
  deriving DecidableEq, Repr

/-- Stand-ins for the three components: a list is a `SampleList`, without
delegate as the zero value and with one from `list.New`; `ResetFilter` leaves
the list unfiltered, as in bubbles; the viewport is its content; no component
reacts to a message or returns a command. -/
def sampleComponents : Components :=
  { ListModel := SampleList
    ViewportModel := String
    SpinnerModel := Unit
    Command := Unit
    Tick := Unit
    Other := Unit
    CacheStore := GoMap Bytes
    newCache := some []
    zeroList := ⟨[], .Unfiltered, false⟩
    zeroViewport := ""
    newSpinner := ()
    listNew := fun items _ _ => ⟨items, .Unfiltered, true⟩
    listConfigure := fun l => l
    listFilterState := fun l => l.filterState
    listSelectedItem := fun l => l.items.head?
    listSetItems := fun l items => { l with items := items }
    listSetTitle := fun l _ => l
    listResetSelected := fun l => l
    listResetFilter := fun l => { l with filterState := .Unfiltered }
    listSetSize := fun l _ _ => l
    listUpdate := fun l _ => (l, .nil)
    viewportNew := fun _ _ => ""
    viewportSetContent := fun _ content => content
    viewportSetSize := fun v _ _ => v
    viewportUpdate := fun v _ => (v, .nil)
    spinnerUpdate := fun s _ => (s, .nil)
    renderDetailContent := fun _ _ => ""
    listHasDelegate := fun l => l.hasDelegate
    zeroList_noDelegate := rfl
    listNew_hasDelegate := fun _ _ _ => rfl }

/-- The key message the tests build for a typed key:
`tea.KeyMsg{Type: tea.KeyRunes, Runes: []rune(key)}`. -/
def keyRunes (key : String) : KeyMsg := ⟨.KeyRunes, key.toList, false, false⟩

/-- The key message the tests build for a named key: `tea.KeyMsg{Type: t}`. -/
def keyOfType (t : KeyType) : KeyMsg := ⟨t, [], false, false⟩

/-- A requirement with the three fields the tests fill. -/
def sampleRequirement (id code keyword : String) : Requirement :=
  { ID := id, DocumentCode := code, Statement := "", Name := "",
    Impact := ⟨false, false, false⟩, Affects := [], PrimaryKeyWord := keyword, Note := "" }

/-- A catalog entry with a code and a name. -/
def sampleDocument (code name : String) : Document :=
  { Code := code, Name := name, Description := "", RequirementCount := 0, Purpose := "",
    ExpectedOutcomes := [], Authority := [], Releases := [], EffectiveInfo := [] }

/-- Loaded data with two documents and the requirements VDR-1, VDR-2 and
UCM-1 of `TestDocumentFilter`. -/
def sampleData : DataLoadedMsg :=
  { Documents := [sampleDocument "VDR" "Vulnerability Detection and Response",
                  sampleDocument "FRD" "FedRAMP Definitions"]
    Requirements := [sampleRequirement "VDR-1" "VDR" "MUST",
                     sampleRequirement "VDR-2" "VDR" "SHOULD",
                     sampleRequirement "UCM-1" "UCM" "MUST"]
    Definitions := []
    Indicators := [] }

/-- The model after `NewModel()` has received the loaded data. -/
def sampleLoaded : Model sampleComponents :=
  run (NewModel sampleComponents []) [.dataLoaded sampleData]

/-- The loaded model in the requirements view. -/
def sampleRequirementsView : Model sampleComponents :=
  run sampleLoaded [.key (keyRunes "2")]

/-- The loaded model after Enter on the first document of the home list: the
detail view of the document VDR. -/
def sampleDetail : Model sampleComponents :=
  run sampleLoaded [.key (keyOfType .KeyEnter)]

/-- The lexer `sampleLex`, except that the bytes `[7]`, malformed for
`sampleLex`, are read as the empty object `{}`. -/
def sampleLexRepaired (data : Bytes) : RawMessage :=
  if data = [7] then .value (.obj []) else sampleLex data

/-- Fetched documents of which KSI and UCM are not well-formed JSON. -/
def sampleDocsBroken : GoMap Bytes :=
  [("FRD", [1]), ("KSI", [7]), ("VDR", [3]), ("UCM", [7])]

/-! ## Theorems -/

theorem extractRequirements_nil (docCode : String) :
    extractRequirements [] docCode = [] := by
  rw [extractRequirements]

theorem extractRequirements_cons (r0 : RequirementJSON) (rest : List RequirementJSON)
    (docCode : String) :
    extractRequirements (r0 :: rest) docCode =
      Requirement.ofJSON r0.UnmarshalFollowingInfo docCode ::
        ((if r0.UnmarshalFollowingInfo.FollowingInformation.length > 0 then
            extractRequirements r0.UnmarshalFollowingInfo.FollowingInformation docCode
          else []) ++ extractRequirements rest docCode) := by
  rw [extractRequirements]
  rfl

theorem requirementForest_nil : requirementForest [] = [] := by
  rw [requirementForest]

theorem requirementForest_cons (r : RequirementJSON) (rest : List RequirementJSON) :
    requirementForest (r :: rest) =
      .node r (requirementForest r.children) :: requirementForest rest := by
  rw [requirementForest]

theorem Requirement.ofJSON_unmarshal (r : RequirementJSON) (docCode : String) :
    Requirement.ofJSON r.UnmarshalFollowingInfo docCode = Requirement.ofJSON r docCode := by
  unfold RequirementJSON.UnmarshalFollowingInfo
  split
  · rfl
  · split <;> rfl

theorem RequirementJSON.unmarshal_children (r : RequirementJSON) (h : r.Fresh) :
    r.UnmarshalFollowingInfo.FollowingInformation = r.children := by
  unfold RequirementJSON.UnmarshalFollowingInfo RequirementJSON.children
  cases hraw : r.RawFollowingInfo with
  | empty => simpa [jsonUnmarshal] using h
  | malformed => simpa [jsonUnmarshal] using h
  | value j =>
    simp only [jsonUnmarshal]
    cases hd : decodeRequirementJSONs [] j with
    | ok kids => rfl
    | error e => exact h

theorem RequirementJSON.children_fresh (r : RequirementJSON) :
    ∀ k ∈ r.children, k.Fresh := by
  unfold RequirementJSON.children
  cases hraw : r.RawFollowingInfo with
  | empty => simp [jsonUnmarshal]
  | malformed => simp [jsonUnmarshal]
  | value j =>
    simp only [jsonUnmarshal]
    cases hd : decodeRequirementJSONs [] j with
    | ok kids => exact (decodeRequirementJSONs_weight j kids hd).1
    | error e => simp

theorem extractRequirements_guard (l : List RequirementJSON) (docCode : String) :
    (if l.length > 0 then extractRequirements l docCode else []) =
      extractRequirements l docCode := by
  cases l with
  | nil => simp [extractRequirements_nil]
  | cons a l => simp

theorem extractRequirements_fresh_cons (r : RequirementJSON) (rest : List RequirementJSON)
    (docCode : String) (h : r.Fresh) :
    extractRequirements (r :: rest) docCode =
      Requirement.ofJSON r docCode ::
        (extractRequirements r.children docCode ++ extractRequirements rest docCode) := by
  rw [extractRequirements_cons, extractRequirements_guard, Requirement.ofJSON_unmarshal,
    RequirementJSON.unmarshal_children r h]

theorem extractRequirements_preorder_of_weight (docCode : String) (n : Nat) :
    ∀ l : List RequirementJSON,
      RequirementJSON.weight.weightList l ≤ n → (∀ r ∈ l, r.Fresh) →
      extractRequirements l docCode =
        (ReqTree.preorder.preorderList (requirementForest l)).map
          (fun r => Requirement.ofJSON r docCode) := by
  induction n with
  | zero =>
    intro l hw _
    cases l with
    | nil =>
      simp [extractRequirements_nil, requirementForest_nil, ReqTree.preorder.preorderList]
    | cons r rest =>
      have := RequirementJSON.weight_eq r
      simp only [RequirementJSON.weight.weightList] at hw
      omega
  | succ n ih =>
    intro l hw hf
    cases l with
    | nil =>
      simp [extractRequirements_nil, requirementForest_nil, ReqTree.preorder.preorderList]
    | cons r rest =>
      have hr : r.Fresh := hf r (List.mem_cons_self _ _)
      have hrest : ∀ x ∈ rest, x.Fresh := fun x hx => hf x (List.mem_cons_of_mem _ hx)
      have hk := RequirementJSON.children_weight r
      have hw1 := RequirementJSON.weight_eq r
      simp only [RequirementJSON.weight.weightList] at hw
      rw [extractRequirements_fresh_cons r rest docCode hr, requirementForest_cons,
        ih r.children (by omega) (RequirementJSON.children_fresh r),
        ih rest (by omega) hrest]
      simp [ReqTree.preorder.preorderList, ReqTree.preorder]

theorem extractRequirements_length_of_weight (docCode : String) (n : Nat) :
    ∀ l : List RequirementJSON,
      RequirementJSON.weight.weightList l ≤ n → (∀ r ∈ l, r.Fresh) →
      (extractRequirements l docCode).length =
        ReqTree.nodeCount.nodeCountList (requirementForest l) := by
  induction n with
  | zero =>
    intro l hw _
    cases l with
    | nil =>
      simp [extractRequirements_nil, requirementForest_nil, ReqTree.nodeCount.nodeCountList]
    | cons r rest =>
      have := RequirementJSON.weight_eq r
      simp only [RequirementJSON.weight.weightList] at hw
      omega
  | succ n ih =>
    intro l hw hf
    cases l with
    | nil =>
      simp [extractRequirements_nil, requirementForest_nil, ReqTree.nodeCount.nodeCountList]
    | cons r rest =>
      have hr : r.Fresh := hf r (List.mem_cons_self _ _)
      have hrest : ∀ x ∈ rest, x.Fresh := fun x hx => hf x (List.mem_cons_of_mem _ hx)
      have hk := RequirementJSON.children_weight r
      have hw1 := RequirementJSON.weight_eq r
      simp only [RequirementJSON.weight.weightList] at hw
      have hlen1 := ih r.children (by omega) (RequirementJSON.children_fresh r)
      have hlen2 := ih rest (by omega) hrest
      rw [extractRequirements_fresh_cons r rest docCode hr, requirementForest_cons]
      simp only [List.length_cons, List.length_append, hlen1, hlen2,
        ReqTree.nodeCount.nodeCountList, ReqTree.nodeCount]
      omega

theorem extractRequirements_documentCode (docCode : String) (n : Nat) :
    ∀ l : List RequirementJSON, RequirementJSON.weight.weightList l ≤ n →
      ∀ q ∈ extractRequirements l docCode, q.DocumentCode = docCode := by
  induction n with
  | zero =>
    intro l hw
    cases l with
    | nil => simp [extractRequirements_nil]
    | cons r rest =>
      have := RequirementJSON.weight_eq r
      simp only [RequirementJSON.weight.weightList] at hw
      omega
  | succ n ih =>
    intro l hw
    cases l with
    | nil => simp [extractRequirements_nil]
    | cons r rest =>
      have hk := RequirementJSON.UnmarshalFollowingInfo_weight r
      have hw1 := RequirementJSON.weight_eq r
      simp only [RequirementJSON.weight.weightList] at hw
      intro q hq
      rw [extractRequirements_cons, extractRequirements_guard] at hq
      rcases List.mem_cons.mp hq with rfl | hq
      · rfl
      · rcases List.mem_append.mp hq with hq | hq
        · exact ih _ (by omega) q hq
        · exact ih rest (by omega) q hq

/-- C1: on records as the decoder produces them, `extractRequirements` returns
the records of the requirement forest in pre-order (each record, then the
flattening of its children, siblings in source order), each turned into a
`model.Requirement` with the given document code. -/
theorem extractRequirements_preorder (reqs : List RequirementJSON) (docCode : String)
    (hfresh : ∀ r ∈ reqs, r.Fresh) :
    extractRequirements reqs docCode =
      (ReqTree.preorder.preorderList (requirementForest reqs)).map
        (fun r => Requirement.ofJSON r docCode) := by
  have hbound : RequirementJSON.weight.weightList reqs ≤
      RequirementJSON.weight.weightList reqs := Nat.le_refl _
  exact extractRequirements_preorder_of_weight docCode _ reqs hbound hfresh

/-- C1, witness: the record `{"id":"A","following_information":[{"id":"A.1"}]}`
is decoded to `sampleNested`, and flattens to two records with ids `A`, `A.1`. -/
theorem extractRequirements_preorder_witness :
    decodeRequirementJSONs [] (.arr [sampleNestedJson]) = .ok [sampleNested] ∧
    (∀ r ∈ [sampleNested], r.Fresh) ∧
    extractRequirements [sampleNested] "FSI" =
      (ReqTree.preorder.preorderList (requirementForest [sampleNested])).map
        (fun r => Requirement.ofJSON r "FSI") ∧
    (extractRequirements [sampleNested] "FSI").map (fun q => q.ID) = ["A", "A.1"] := by
  have hf : ∀ r ∈ [sampleNested], r.Fresh := by
    intro r hr
    rw [List.mem_singleton.mp hr]
    rfl
  have hk : sampleNested.children = [sampleLeaf] := rfl
  have hl : sampleLeaf.children = [] := rfl
  refine ⟨rfl, hf, extractRequirements_preorder [sampleNested] "FSI" hf, ?_⟩
  rw [extractRequirements_preorder [sampleNested] "FSI" hf, requirementForest_cons, hk,
    requirementForest_cons, hl, requirementForest_nil]
  rfl

/-- C2: on records as the decoder produces them, `extractRequirements` yields
as many records as the requirement forest has nodes at all levels, and every
emitted record carries the document code passed in (the latter for any list of
records). -/
theorem extractRequirements_count (reqs : List RequirementJSON) (docCode : String)
    (hfresh : ∀ r ∈ reqs, r.Fresh) :
    (extractRequirements reqs docCode).length =
        ReqTree.nodeCount.nodeCountList (requirementForest reqs) ∧
      ∀ q ∈ extractRequirements reqs docCode, q.DocumentCode = docCode := by
  have hbound : RequirementJSON.weight.weightList reqs ≤
      RequirementJSON.weight.weightList reqs := Nat.le_refl _
  constructor
  · exact extractRequirements_length_of_weight docCode _ reqs hbound hfresh
  · exact extractRequirements_documentCode docCode _ reqs hbound

/-- C2, witness: the forest of `sampleNested` followed by `sampleFreeText` has
three nodes, so three records are emitted, each with the code `FSI`. -/
theorem extractRequirements_count_witness :
    (∀ r ∈ [sampleNested, sampleFreeText], r.Fresh) ∧
    ((extractRequirements [sampleNested, sampleFreeText] "FSI").length =
        ReqTree.nodeCount.nodeCountList (requirementForest [sampleNested, sampleFreeText]) ∧
      ∀ q ∈ extractRequirements [sampleNested, sampleFreeText] "FSI",
        q.DocumentCode = "FSI") ∧
    (extractRequirements [sampleNested, sampleFreeText] "FSI").length = 3 := by
  have hf : ∀ r ∈ [sampleNested, sampleFreeText], r.Fresh := by
    intro r hr
    simp only [List.mem_cons, List.mem_singleton, List.not_mem_nil, or_false] at hr
    rcases hr with rfl | rfl <;> rfl
  have h := extractRequirements_count [sampleNested, sampleFreeText] "FSI" hf
  have hk : sampleNested.children = [sampleLeaf] := rfl
  have hl : sampleLeaf.children = [] := rfl
  have ht : sampleFreeText.children = [] := rfl
  refine ⟨hf, h, ?_⟩
  rw [h.1, requirementForest_cons, hk, requirementForest_cons, hl, requirementForest_nil,
    requirementForest_cons, ht, requirementForest_nil]
  rfl

/-- C3: a record, as the decoder produces it, whose `following_information` is
absent, free text or not decodable as a list of requirement records is left
unchanged by `UnmarshalFollowingInfo`, has no children, and contributes exactly
one record, after which `extractRequirements` goes on with the siblings. -/
theorem extractRequirements_no_children (r : RequirementJSON)
    (rest : List RequirementJSON) (docCode : String) (hfresh : r.Fresh)
    (hraw : r.RawFollowingInfo = .empty ∨ (∃ s, r.RawFollowingInfo = .value (.str s)) ∨
      ∃ e, jsonUnmarshal decodeRequirementJSONs r.RawFollowingInfo [] = .error e) :
    r.UnmarshalFollowingInfo = r ∧
      r.UnmarshalFollowingInfo.FollowingInformation = [] ∧
      extractRequirements (r :: rest) docCode =
        Requirement.ofJSON r docCode :: extractRequirements rest docCode := by
  have herr : ∃ e, jsonUnmarshal decodeRequirementJSONs r.RawFollowingInfo [] = .error e := by
    rcases hraw with h | ⟨s, h⟩ | h
    · exact ⟨.syntaxError, by rw [h]; rfl⟩
    · exact ⟨.unmarshalTypeError, by rw [h]; rfl⟩
    · exact h
  obtain ⟨e, he⟩ := herr
  have hsame : r.UnmarshalFollowingInfo = r := by
    unfold RequirementJSON.UnmarshalFollowingInfo
    split
    · rfl
    · rw [he]
  have hkids : r.children = [] := by
    unfold RequirementJSON.children
    rw [he]
  refine ⟨hsame, ?_, ?_⟩
  · rw [hsame]
    exact hfresh
  · rw [extractRequirements_fresh_cons r rest docCode hfresh, hkids, extractRequirements_nil]
    rfl

/-- C3, witness: a record whose `following_information` is the text
`"see the note"` gives one record, and the sibling after it is still emitted. -/
theorem extractRequirements_no_children_witness :
    sampleFreeText.UnmarshalFollowingInfo = sampleFreeText ∧
      sampleFreeText.UnmarshalFollowingInfo.FollowingInformation = [] ∧
      extractRequirements [sampleFreeText, sampleLeaf] "FSI" =
        Requirement.ofJSON sampleFreeText "FSI" :: extractRequirements [sampleLeaf] "FSI" :=
  extractRequirements_no_children sampleFreeText [sampleLeaf] "FSI" rfl
    (Or.inr (Or.inl ⟨"see the note", rfl⟩))

/-! ### Maps and raw sections -/

theorem decodeMembers_invariant {α : Type} (P : α → Prop)
    (setField : α → String → Json → Except JsonError α)
    (hstep : ∀ a k v b, P a → setField a k v = .ok b → P b) (ms : List (String × Json)) :
    ∀ cur out, P cur → decodeMembers setField cur ms = .ok out → P out := by
  induction ms with
  | nil =>
    intro cur out hcur h
    simp only [decodeMembers] at h
    cases h
    exact hcur
  | cons e ms ih =>
    intro cur out hcur h
    obtain ⟨k, v⟩ := e
    simp only [decodeMembers] at h
    split at h
    · cases h
    · rename_i next hnext
      exact ih next out (hstep cur k v next hcur hnext) h

theorem GoMap.get_set {V : Type} (m : GoMap V) (k k1 : String) (v : V) :
    (GoMap.set m k v).get k1 = if k = k1 then some v else m.get k1 := by
  induction m with
  | nil => simp [GoMap.set, GoMap.get]
  | cons e rest ih =>
    obtain ⟨k0, v0⟩ := e
    by_cases h0 : k0 = k
    · subst h0
      by_cases h1 : k0 = k1 <;> simp [GoMap.set, GoMap.get, h1]
    · by_cases h1 : k0 = k1
      · subst h1
        simp [GoMap.set, GoMap.get, h0, Ne.symm h0]
      · simp [GoMap.set, GoMap.get, h0, h1, ih]

theorem decodeRawMap_members (ms : List (String × Json)) :
    ∀ cur : GoMap RawMessage, ∃ m : GoMap RawMessage,
      decodeMembers (fun m k v =>
        match decodeRawMessage RawMessage.empty v with
        | .error e => .error e
        | .ok x => .ok (GoMap.set m k x)) cur ms = .ok m ∧
      ∀ k, m.get k =
        match Json.lookup ms k with
        | some v => some (.value v)
        | none => cur.get k := by
  induction ms with
  | nil =>
    intro cur
    exact ⟨cur, rfl, fun k => rfl⟩
  | cons e ms ih =>
    intro cur
    obtain ⟨k0, v0⟩ := e
    obtain ⟨m, hm, hget⟩ := ih (GoMap.set cur k0 (.value v0))
    refine ⟨m, ?_, ?_⟩
    · simpa [decodeMembers, decodeRawMessage] using hm
    · intro k
      rw [hget k]
      simp only [Json.lookup]
      cases hl : Json.lookup ms k with
      | some x => rfl
      | none =>
        simp only [GoMap.get_set]
        by_cases h : k0 = k <;> simp [h]

theorem jsonUnmarshal_rawMap (ms : List (String × Json)) :
    ∃ m : GoMap RawMessage,
      jsonUnmarshal decodeRawMap (.value (.obj ms)) [] = .ok m ∧
      ∀ k, m.get k = (Json.lookup ms k).map RawMessage.value := by
  obtain ⟨m, hm, hget⟩ := decodeRawMap_members ms []
  refine ⟨m, hm, ?_⟩
  intro k
  rw [hget k]
  cases Json.lookup ms k <;> rfl

theorem RangeOrder.visit_nil {V : Type} (range : RangeOrder V) : range.visit [] = [] :=
  List.Perm.eq_nil (range.perm [])

theorem Json.lookup_eq_none (ms : List (String × Json)) (k : String)
    (h : ∀ m ∈ ms, m.1 ≠ k) : Json.lookup ms k = none := by
  induction ms with
  | nil => rfl
  | cons e ms ih =>
    obtain ⟨k0, v0⟩ := e
    have h0 : k0 ≠ k := h (k0, v0) (List.mem_cons_self _ _)
    simp [Json.lookup, ih (fun m hm => h m (List.mem_cons_of_mem _ hm)), h0]

theorem GoMap.keys_set {V : Type} (m : GoMap V) (k : String) (v : V) :
    (GoMap.set m k v).map Prod.fst =
      if k ∈ m.map Prod.fst then m.map Prod.fst else m.map Prod.fst ++ [k] := by
  induction m with
  | nil => simp [GoMap.set]
  | cons e rest ih =>
    obtain ⟨k0, v0⟩ := e
    by_cases h0 : k0 = k
    · subst h0
      simp [GoMap.set]
    · have h1 : ¬ k = k0 := fun h => h0 h.symm
      simp only [GoMap.set, h0, if_false, List.map_cons, ih, List.mem_cons, h1, false_or]
      split <;> simp

theorem GoMap.nodup_set {V : Type} (m : GoMap V) (k : String) (v : V)
    (h : (m.map Prod.fst).Nodup) : ((GoMap.set m k v).map Prod.fst).Nodup := by
  rw [GoMap.keys_set]
  split
  · exact h
  · rename_i hk
    exact List.Nodup.append h (List.nodup_singleton k) (by simpa using hk)

theorem GoMap.get_of_mem {V : Type} (m : GoMap V) (k : String) (v : V)
    (hnd : (m.map Prod.fst).Nodup) (h : (k, v) ∈ m) : m.get k = some v := by
  induction m with
  | nil => cases h
  | cons e rest ih =>
    obtain ⟨k0, v0⟩ := e
    simp only [List.map_cons, List.nodup_cons] at hnd
    rcases List.mem_cons.mp h with h | h
    · cases h
      simp [GoMap.get]
    · have hne : k0 ≠ k := by
        intro hk
        apply hnd.1
        rw [hk]
        exact List.mem_map.mpr ⟨(k, v), h, rfl⟩
      simp [GoMap.get, hne, ih hnd.2 h]

theorem GoMap.mem_of_get {V : Type} (m : GoMap V) (k : String) (v : V)
    (h : m.get k = some v) : (k, v) ∈ m := by
  induction m with
  | nil => cases h
  | cons e rest ih =>
    obtain ⟨k0, v0⟩ := e
    simp only [GoMap.get] at h
    split at h
    · rename_i hk
      cases h
      rw [hk]
      exact List.mem_cons_self _ _
    · exact List.mem_cons_of_mem _ (ih h)

theorem decodeMap_nodup {V : Type} (dec : Decoder V) (zero : V) (j : Json) (m : GoMap V)
    (h : decodeMap dec zero [] j = .ok m) : (m.map Prod.fst).Nodup := by
  unfold decodeMap at h
  split at h
  · refine decodeMembers_invariant (fun m : GoMap V => (m.map Prod.fst).Nodup) _ ?_ _ []
      m (by simp) h
    intro a k v b ha hset
    split at hset
    · cases hset
    · cases hset
      exact GoMap.nodup_set a k _ ha
  · cases h
    simp
  · cases h

theorem ParseRequirements_no_FRR (range : RangeOrder RequirementCategory)
    (members : List (String × Json)) (docCode : String)
    (h : Json.lookup members "FRR" = none) :
    ParseRequirements range (.value (.obj members)) docCode = .ok [] := by
  obtain ⟨rawDoc, hraw, hget⟩ := jsonUnmarshal_rawMap members
  have hk : rawDoc.get "FRR" = none := by rw [hget, h]; rfl
  simp only [ParseRequirements, hraw, hk]

theorem ParseRequirements_section (range : RangeOrder RequirementCategory)
    (members frr : List (String × Json)) (docCode : String)
    (hfrr : Json.lookup members "FRR" = some (.obj frr)) :
    ParseRequirements range (.value (.obj members)) docCode =
      match Json.lookup frr docCode with
      | none => .ok []
      | some docData =>
        match decodeMap decodeRequirementCategory RequirementCategory.zero [] docData with
        | .error _ =>
          match decodeRequirementCategory RequirementCategory.zero docData with
          | .ok singleCat => .ok (extractRequirements singleCat.Requirements docCode)
          | .error _ => .ok []
        | .ok categories =>
          .ok ((range.visit categories).foldl
            (fun requirements entry =>
              requirements ++ extractRequirements entry.2.Requirements docCode) []) := by
  obtain ⟨rawDoc, hraw, hget⟩ := jsonUnmarshal_rawMap members
  obtain ⟨frrMap, hraw2, hget2⟩ := jsonUnmarshal_rawMap frr
  have hk : rawDoc.get "FRR" = some (.value (.obj frr)) := by rw [hget, hfrr]; rfl
  simp only [ParseRequirements, hraw, hk, hraw2, hget2]
  cases Json.lookup frr docCode with
  | none => rfl
  | some docData => rfl

/-- C4: for a document that is a JSON object, if it has no `FRR` key, or its
`FRR` object has no key equal to the document code, or the section under that
key is the empty object, `ParseRequirements` returns no requirements and no
error. -/
theorem ParseRequirements_missing_section (range : RangeOrder RequirementCategory)
    (members : List (String × Json)) (docCode : String)
    (h : (∀ m ∈ members, m.1 ≠ "FRR") ∨
      ∃ frr, Json.lookup members "FRR" = some (.obj frr) ∧
        ((∀ m ∈ frr, m.1 ≠ docCode) ∨ Json.lookup frr docCode = some (.obj []))) :
    ParseRequirements range (.value (.obj members)) docCode = .ok [] := by
  rcases h with h | ⟨frr, hfrr, h | h⟩
  · exact ParseRequirements_no_FRR range members docCode (Json.lookup_eq_none _ _ h)
  · rw [ParseRequirements_section range members frr docCode hfrr,
      Json.lookup_eq_none _ _ h]
  · rw [ParseRequirements_section range members frr docCode hfrr, h]
    simp [decodeMap, decodeMembers, RangeOrder.visit_nil]

/-- C4, witness: `{"FRR":{"FSI":{}}}` and `{}`, each with code `FSI`. -/
theorem ParseRequirements_missing_section_witness :
    ParseRequirements (RangeOrder.stored RequirementCategory)
        (.value (.obj [("FRR", .obj [("FSI", .obj [])])])) "FSI" = .ok [] ∧
      ParseRequirements (RangeOrder.stored RequirementCategory) (.value (.obj [])) "FSI"
        = .ok [] :=
  ⟨ParseRequirements_missing_section _ [("FRR", .obj [("FSI", .obj [])])] "FSI"
      (Or.inr ⟨[("FSI", .obj [])], rfl, Or.inr rfl⟩),
    ParseRequirements_missing_section _ [] "FSI" (Or.inl (by simp))⟩

/-! ### Decoded categories hold records as the decoder produces them -/

theorem decodeSliceElems_invariant {α : Type} (P : α → Prop) (dec : Decoder α) (zero : α)
    (hzero : P zero) (hdec : ∀ a j b, P a → dec a j = .ok b → P b) (items : List Json) :
    ∀ cur out, (∀ a ∈ cur, P a) → decodeSliceElems dec zero cur items = .ok out →
      ∀ b ∈ out, P b := by
  induction items with
  | nil =>
    intro cur out _ h
    simp only [decodeSliceElems] at h
    cases h
    simp
  | cons j js ih =>
    intro cur out hcur h
    simp only [decodeSliceElems] at h
    split at h
    · cases h
    · rename_i x hx
      split at h
      · cases h
      · rename_i xs hxs
        cases h
        have hhead : P (cur.headD zero) := by
          cases cur with
          | nil => exact hzero
          | cons a _ => exact hcur a (List.mem_cons_self _ _)
        have htail : ∀ a ∈ cur.tail, P a := fun a ha => hcur a (List.mem_of_mem_tail ha)
        intro b hb
        rcases List.mem_cons.mp hb with rfl | hb
        · exact hdec _ _ _ hhead hx
        · exact ih cur.tail xs htail hxs b hb

theorem decodeRequirementJSON_fresh (a : RequirementJSON) (j : Json) (b : RequirementJSON)
    (ha : a.Fresh) (h : decodeRequirementJSON a j = .ok b) : b.Fresh := by
  unfold decodeRequirementJSON decodeStruct at h
  split at h
  · exact (RequirementJSON.decodeMembers_raw _ a b h).1.trans ha
  · cases h
    exact ha
  · cases h

theorem decodeRequirementJSONs_fresh (cur : List RequirementJSON) (j : Json)
    (out : List RequirementJSON) (hcur : ∀ r ∈ cur, r.Fresh)
    (h : decodeRequirementJSONs cur j = .ok out) : ∀ r ∈ out, r.Fresh := by
  unfold decodeRequirementJSONs decodeSlice at h
  split at h
  · exact decodeSliceElems_invariant RequirementJSON.Fresh decodeRequirementJSON
      RequirementJSON.zero rfl decodeRequirementJSON_fresh _ cur out hcur h
  · cases h
    simp
  · cases h

theorem decodeRequirementCategory_fresh (a : RequirementCategory) (j : Json)
    (b : RequirementCategory) (ha : ∀ r ∈ a.Requirements, r.Fresh)
    (h : decodeRequirementCategory a j = .ok b) : ∀ r ∈ b.Requirements, r.Fresh := by
  unfold decodeRequirementCategory decodeStruct at h
  split at h
  · refine decodeMembers_invariant (fun c => ∀ r ∈ c.Requirements, r.Fresh)
      RequirementCategory.setField ?_ _ a b ha h
    intro c k v c1 hc hset
    unfold RequirementCategory.setField at hset
    split at hset <;>
      first
      | (cases hset; exact hc)
      | (simp only [Except.map] at hset
         split at hset
         · cases hset
         · cases hset
           first
           | exact hc
           | (rename_i x hx
              exact decodeRequirementJSONs_fresh _ _ _ hc hx))
  · cases h
    exact ha
  · cases h

theorem GoMap.mem_set {V : Type} (m : GoMap V) (k : String) (v : V) (e : String × V)
    (h : e ∈ GoMap.set m k v) : e = (k, v) ∨ e ∈ m := by
  induction m with
  | nil =>
    simp only [GoMap.set, List.mem_singleton] at h
    exact Or.inl h
  | cons e0 rest ih =>
    obtain ⟨k0, v0⟩ := e0
    simp only [GoMap.set] at h
    split at h
    · rcases List.mem_cons.mp h with h | h
      · exact Or.inl h
      · exact Or.inr (List.mem_cons_of_mem _ h)
    · rcases List.mem_cons.mp h with h | h
      · exact Or.inr (h ▸ List.mem_cons_self _ _)
      · rcases ih h with h | h
        · exact Or.inl h
        · exact Or.inr (List.mem_cons_of_mem _ h)

theorem decodeCategories_fresh (j : Json) (categories : GoMap RequirementCategory)
    (h : decodeMap decodeRequirementCategory RequirementCategory.zero [] j = .ok categories) :
    ∀ e ∈ categories, ∀ r ∈ e.2.Requirements, r.Fresh := by
  unfold decodeMap at h
  split at h
  · refine decodeMembers_invariant
      (fun m : GoMap RequirementCategory => ∀ e ∈ m, ∀ r ∈ e.2.Requirements, r.Fresh)
      _ ?_ _ [] categories (by simp) h
    intro m k v m1 hm hset
    split at hset
    · cases hset
    · rename_i x hx
      cases hset
      intro e he
      rcases GoMap.mem_set m k x e he with rfl | he
      · exact decodeRequirementCategory_fresh _ _ _ (by simp [RequirementCategory.zero]) hx
      · exact hm e he
  · cases h
    simp
  · cases h

theorem decodeCategories_array_member (ms : List (String × Json)) (k : String)
    (items : List Json) (hmem : (k, Json.arr items) ∈ ms) :
    ∀ cur : GoMap RequirementCategory, ∃ e,
      decodeMap decodeRequirementCategory RequirementCategory.zero cur (.obj ms) = .error e := by
  induction ms with
  | nil => cases hmem
  | cons m ms ih =>
    intro cur
    obtain ⟨k0, v0⟩ := m
    rcases List.mem_cons.mp hmem with h | h
    · cases h
      exact ⟨.unmarshalTypeError, by
        simp [decodeMap, decodeMembers, decodeRequirementCategory, decodeStruct]⟩
    · simp only [decodeMap, decodeMembers]
      cases hd : decodeRequirementCategory RequirementCategory.zero v0 with
      | error e => exact ⟨e, rfl⟩
      | ok x =>
        obtain ⟨e, he⟩ := ih h (GoMap.set cur k0 x)
        exact ⟨e, by simpa [decodeMap] using he⟩

theorem foldl_append_join {α β : Type} (f : α → List β) (l : List α) :
    ∀ init : List β,
      l.foldl (fun acc e => acc ++ f e) init = init ++ (l.map f).flatten := by
  induction l with
  | nil => intro init; simp
  | cons a l ih => intro init; simp [ih]

/-- C5: when the section `FRR[docCode]` is an object that holds a
`requirements` list directly and decodes as one `RequirementCategory`, decoding
it as a map of categories fails, and `ParseRequirements` returns, with no
error, the pre-order flattening of that category's requirement list. -/
theorem ParseRequirements_single_category (range : RangeOrder RequirementCategory)
    (members frr sms : List (String × Json)) (docCode : String)
    (singleCat : RequirementCategory)
    (hfrr : Json.lookup members "FRR" = some (.obj frr))
    (hdoc : Json.lookup frr docCode = some (.obj sms))
    (hlist : ∃ k items, (k, Json.arr items) ∈ sms ∧ foldName k = "REQUIREMENTS")
    (hcat : decodeRequirementCategory RequirementCategory.zero (.obj sms) = .ok singleCat) :
    (∃ e, decodeMap decodeRequirementCategory RequirementCategory.zero [] (.obj sms)
        = .error e) ∧
      ParseRequirements range (.value (.obj members)) docCode =
        .ok ((ReqTree.preorder.preorderList (requirementForest singleCat.Requirements)).map
          (fun r => Requirement.ofJSON r docCode)) := by
  obtain ⟨k, items, hmem, _⟩ := hlist
  obtain ⟨e, he⟩ := decodeCategories_array_member sms k items hmem []
  refine ⟨⟨e, he⟩, ?_⟩
  have hfresh : ∀ r ∈ singleCat.Requirements, r.Fresh :=
    decodeRequirementCategory_fresh _ _ _ (by simp [RequirementCategory.zero]) hcat
  rw [ParseRequirements_section range members frr docCode hfrr, hdoc]
  simp only [he, hcat]
  rw [extractRequirements_preorder_of_weight docCode _ singleCat.Requirements
    (Nat.le_refl _) hfresh]

/-- C5, witness: `{"FRR":{"VDR":{"requirements":[{"id":"VDR-1","statement":"x"}]}}}`
with code `VDR` yields exactly one requirement, with id `VDR-1` and document
code `VDR`. -/
theorem ParseRequirements_single_category_witness :
    ParseRequirements (RangeOrder.stored RequirementCategory)
        (.value (.obj [("FRR", .obj [("VDR", .obj sampleSingleCategory)])])) "VDR" =
      .ok [{ ID := "VDR-1", DocumentCode := "VDR", Statement := "x", Name := "",
             Impact := ⟨false, false, false⟩, Affects := [], PrimaryKeyWord := "",
             Note := "" }] := by
  have h := (ParseRequirements_single_category (RangeOrder.stored RequirementCategory)
    [("FRR", .obj [("VDR", .obj sampleSingleCategory)])] [("VDR", .obj sampleSingleCategory)]
    sampleSingleCategory "VDR" sampleSingleCategoryDecoded rfl rfl
    ⟨"requirements", _, List.mem_singleton.mpr rfl, by decide⟩ rfl).2
  have hk : (RequirementJSON.mk "VDR-1" "x" "" ImpactJSON.zero [] "" "" [] .empty).children
      = [] := rfl
  rw [h]
  simp only [sampleSingleCategoryDecoded, RequirementJSON.zero]
  rw [requirementForest_cons, hk, requirementForest_nil]
  rfl

/-- C6: when the section `FRR[docCode]` decodes as a map from category names
to category objects, `ParseRequirements` returns, with no error, the
concatenation over the categories, in the order `range` visits them (some
arrangement of the map's entries), of the pre-order flattening of each
category's requirement list; its length is the sum of the categories' node
counts. -/
theorem ParseRequirements_category_map (range : RangeOrder RequirementCategory)
    (members frr : List (String × Json)) (docData : Json) (docCode : String)
    (categories : GoMap RequirementCategory)
    (hfrr : Json.lookup members "FRR" = some (.obj frr))
    (hdoc : Json.lookup frr docCode = some docData)
    (hmap : decodeMap decodeRequirementCategory RequirementCategory.zero [] docData
      = .ok categories) :
    ∃ (order : List (String × RequirementCategory)) (out : List Requirement),
      order.Perm categories ∧
      ParseRequirements range (.value (.obj members)) docCode = .ok out ∧
      out = (order.map fun entry =>
        (ReqTree.preorder.preorderList (requirementForest entry.2.Requirements)).map
          (fun r => Requirement.ofJSON r docCode)).flatten ∧
      out.length = (categories.map fun entry =>
        ReqTree.nodeCount.nodeCountList (requirementForest entry.2.Requirements)).sum := by
  have hfresh := decodeCategories_fresh docData categories hmap
  have hperm := range.perm categories
  have hvisit : ∀ e ∈ range.visit categories, ∀ r ∈ e.2.Requirements, r.Fresh :=
    fun e he => hfresh e (hperm.subset he)
  have hpre : ∀ l : List (String × RequirementCategory),
      (∀ e ∈ l, ∀ r ∈ e.2.Requirements, r.Fresh) →
      (l.map fun entry => extractRequirements entry.2.Requirements docCode) =
        l.map fun entry =>
          (ReqTree.preorder.preorderList (requirementForest entry.2.Requirements)).map
            (fun r => Requirement.ofJSON r docCode) := by
    intro l hl
    apply List.map_congr_left
    intro e he
    exact extractRequirements_preorder_of_weight docCode _ e.2.Requirements
      (Nat.le_refl _) (hl e he)
  have hlen : ∀ l : List (String × RequirementCategory),
      (∀ e ∈ l, ∀ r ∈ e.2.Requirements, r.Fresh) →
      ((l.map fun entry => extractRequirements entry.2.Requirements docCode).flatten).length =
        (l.map fun entry =>
          ReqTree.nodeCount.nodeCountList (requirementForest entry.2.Requirements)).sum := by
    intro l
    induction l with
    | nil => intro _; simp
    | cons e l ih =>
      intro hl
      have h1 := extractRequirements_length_of_weight docCode _ e.2.Requirements
        (Nat.le_refl _) (hl e (List.mem_cons_self _ _))
      have h2 := ih (fun x hx => hl x (List.mem_cons_of_mem _ hx))
      simp only [List.map_cons, List.flatten_cons, List.length_append, List.sum_cons, h1, h2]
  refine ⟨range.visit categories,
    ((range.visit categories).map fun entry =>
      extractRequirements entry.2.Requirements docCode).flatten, hperm, ?_, ?_, ?_⟩
  · rw [ParseRequirements_section range members frr docCode hfrr, hdoc]
    simp only [hmap]
    rw [foldl_append_join, List.nil_append]
  · exact congrArg List.flatten (hpre _ hvisit)
  · rw [hlen _ hvisit]
    exact (hperm.map _).sum_eq

/-- C6, witness: a section with the two categories `base` (a record with one
nested record) and `extra` (one record), under code `FSI`. -/
theorem ParseRequirements_category_map_witness :
    ∃ (order : List (String × RequirementCategory)) (out : List Requirement),
      order.Perm sampleCategoryMapDecoded ∧
      ParseRequirements (RangeOrder.stored RequirementCategory)
        (.value (.obj [("FRR", .obj [("FSI", sampleCategoryMap)])])) "FSI" = .ok out ∧
      out = (order.map fun entry =>
        (ReqTree.preorder.preorderList (requirementForest entry.2.Requirements)).map
          (fun r => Requirement.ofJSON r "FSI")).flatten ∧
      out.length = (sampleCategoryMapDecoded.map fun entry =>
        ReqTree.nodeCount.nodeCountList (requirementForest entry.2.Requirements)).sum :=
  ParseRequirements_category_map (RangeOrder.stored RequirementCategory)
    [("FRR", .obj [("FSI", sampleCategoryMap)])] [("FSI", sampleCategoryMap)]
    sampleCategoryMap "FSI" sampleCategoryMapDecoded rfl rfl rfl

/-! ### The theme-tree normalizer -/

theorem foldl_append_singleton {α β : Type} (f : α → β) (l : List α) :
    ∀ init : List β,
      l.foldl (fun acc a => acc ++ [f a]) init = init ++ l.map f := by
  induction l with
  | nil => intro init; simp
  | cons a l ih => intro init; simp [ih]

theorem ParseIndicators_section (range : RangeOrder ThemeJSON)
    (members : List (String × Json)) (ksi : Json)
    (hksi : Json.lookup members "KSI" = some ksi) :
    ParseIndicators range (.value (.obj members)) =
      match decodeMap decodeThemeJSON ThemeJSON.zero [] ksi with
      | .error e => .error (.parsingKSIThemes e)
      | .ok ksiThemes =>
        .ok ((range.visit ksiThemes).map fun entry =>
          entry.2.Indicators.map (Indicator.ofJSON entry.1 entry.2)).flatten := by
  obtain ⟨rawDoc, hraw, hget⟩ := jsonUnmarshal_rawMap members
  have hk : rawDoc.get "KSI" = some (.value ksi) := by rw [hget, hksi]; rfl
  have hu : jsonUnmarshal (decodeMap decodeThemeJSON ThemeJSON.zero) (.value ksi) [] =
      decodeMap decodeThemeJSON ThemeJSON.zero [] ksi := rfl
  simp only [ParseIndicators, hraw, hk, hu]
  cases decodeMap decodeThemeJSON ThemeJSON.zero [] ksi with
  | error e => rfl
  | ok ksiThemes =>
    simp only [foldl_append_singleton]
    rw [foldl_append_join]
    rfl

/-- C7: for a payload that is a JSON object without a top-level `KSI` key,
`ParseIndicators` returns the error "KSI section not found" and no indicators,
whereas `ParseRequirements` returns an empty result and no error when the
`FRR` section is missing. -/
theorem ParseIndicators_missing_KSI (range : RangeOrder ThemeJSON)
    (members : List (String × Json)) (h : ∀ m ∈ members, m.1 ≠ "KSI") :
    ParseIndicators range (.value (.obj members)) = .error .ksiSectionNotFound ∧
      ∀ (rangeReq : RangeOrder RequirementCategory) (docCode : String),
        (∀ m ∈ members, m.1 ≠ "FRR") →
        ParseRequirements rangeReq (.value (.obj members)) docCode = .ok [] := by
  constructor
  · obtain ⟨rawDoc, hraw, hget⟩ := jsonUnmarshal_rawMap members
    have hk : rawDoc.get "KSI" = none := by
      rw [hget, Json.lookup_eq_none _ _ h]
      rfl
    simp only [ParseIndicators, hraw, hk]
  · intro rangeReq docCode hfrr
    exact ParseRequirements_no_FRR rangeReq members docCode (Json.lookup_eq_none _ _ hfrr)

/-- C7, witness: the payload `{}`. -/
theorem ParseIndicators_missing_KSI_witness :
    ParseIndicators (RangeOrder.stored ThemeJSON) (.value (.obj []))
        = .error .ksiSectionNotFound ∧
      ParseRequirements (RangeOrder.stored RequirementCategory) (.value (.obj [])) "FSI"
        = .ok [] :=
  have h := ParseIndicators_missing_KSI (RangeOrder.stored ThemeJSON) [] (by simp)
  ⟨h.1, h.2 (RangeOrder.stored RequirementCategory) "FSI" (by simp)⟩

/-- C8: when the `KSI` section decodes to the theme map `themes`,
`ParseIndicators` succeeds, each indicator it emits comes from an indicator
record of the theme stored under some key `K` and carries `ThemeCode = K`, that
theme's name and that theme's description, and every indicator record of every
stored theme is emitted so. -/
theorem ParseIndicators_theme_fields (range : RangeOrder ThemeJSON)
    (members : List (String × Json)) (ksi : Json) (themes : GoMap ThemeJSON)
    (hksi : Json.lookup members "KSI" = some ksi)
    (hthemes : decodeMap decodeThemeJSON ThemeJSON.zero [] ksi = .ok themes) :
    ∃ inds, ParseIndicators range (.value (.obj members)) = .ok inds ∧
      (∀ ind ∈ inds, ∃ K theme src, themes.get K = some theme ∧ src ∈ theme.Indicators ∧
        ind = Indicator.ofJSON K theme src ∧
        ind.ThemeCode = K ∧ ind.ThemeName = theme.Name ∧ ind.ThemeDesc = theme.Theme) ∧
      (∀ K theme src, themes.get K = some theme → src ∈ theme.Indicators →
        ∃ ind ∈ inds, ind = Indicator.ofJSON K theme src ∧
          ind.ThemeCode = K ∧ ind.ThemeName = theme.Name ∧ ind.ThemeDesc = theme.Theme) := by
  have hnd := decodeMap_nodup decodeThemeJSON ThemeJSON.zero ksi themes hthemes
  refine ⟨((range.visit themes).map fun entry =>
    entry.2.Indicators.map (Indicator.ofJSON entry.1 entry.2)).flatten, ?_, ?_, ?_⟩
  · rw [ParseIndicators_section range members ksi hksi, hthemes]
  · intro ind hind
    simp only [List.mem_flatten, List.mem_map] at hind
    obtain ⟨block, ⟨entry, hentry, rfl⟩, hmem⟩ := hind
    obtain ⟨src, hsrc, rfl⟩ := List.mem_map.mp hmem
    have hstored : themes.get entry.1 = some entry.2 :=
      GoMap.get_of_mem themes entry.1 entry.2 hnd ((range.perm themes).subset hentry)
    exact ⟨entry.1, entry.2, src, hstored, hsrc, rfl, rfl, rfl, rfl⟩
  · intro K theme src hget hsrc
    have hmem : (K, theme) ∈ themes := GoMap.mem_of_get themes K theme hget
    refine ⟨Indicator.ofJSON K theme src, ?_, rfl, rfl, rfl, rfl⟩
    simp only [List.mem_flatten, List.mem_map]
    exact ⟨_, ⟨(K, theme), (range.perm themes).mem_iff.mpr hmem, rfl⟩,
      List.mem_map.mpr ⟨src, hsrc, rfl⟩⟩

/-- C8, witness: the indicator nested under the theme `AFR` named
"Access & Flow Restriction" is emitted with that theme code and name. -/
theorem ParseIndicators_theme_fields_witness :
    (∃ inds, ParseIndicators (RangeOrder.stored ThemeJSON) (.value (.obj sampleKSI))
        = .ok inds ∧
      (∀ ind ∈ inds, ∃ K theme src, sampleThemes.get K = some theme ∧
        src ∈ theme.Indicators ∧
        ind = Indicator.ofJSON K theme src ∧
        ind.ThemeCode = K ∧ ind.ThemeName = theme.Name ∧ ind.ThemeDesc = theme.Theme) ∧
      (∀ K theme src, sampleThemes.get K = some theme → src ∈ theme.Indicators →
        ∃ ind ∈ inds, ind = Indicator.ofJSON K theme src ∧
          ind.ThemeCode = K ∧ ind.ThemeName = theme.Name ∧ ind.ThemeDesc = theme.Theme)) ∧
    (ParseIndicators (RangeOrder.stored ThemeJSON) (.value (.obj sampleKSI))).map
        (fun inds => inds.map fun ind => (ind.ID, ind.ThemeCode, ind.ThemeName))
      = .ok [("KSI-AFR-01", "AFR", "Access & Flow Restriction")] :=
  ⟨ParseIndicators_theme_fields (RangeOrder.stored ThemeJSON) sampleKSI sampleKSISection
      sampleThemes rfl rfl, rfl⟩

/-- C9: when the `KSI` section decodes to the theme map `themes`,
`ParseIndicators` emits, for the themes in the order `range` visits them (some
arrangement of the map's entries), the block of that theme's indicators in
source order, one indicator per source record, so that the total is the sum
of the themes' indicator counts; the controls of an emitted indicator are
those of its source record, with the same length, order, `ControlID` and
`Title`. -/
theorem ParseIndicators_blocks (range : RangeOrder ThemeJSON)
    (members : List (String × Json)) (ksi : Json) (themes : GoMap ThemeJSON)
    (hksi : Json.lookup members "KSI" = some ksi)
    (hthemes : decodeMap decodeThemeJSON ThemeJSON.zero [] ksi = .ok themes) :
    ∃ (order : List (String × ThemeJSON)) (inds : List Indicator),
      order.Perm themes ∧
      ParseIndicators range (.value (.obj members)) = .ok inds ∧
      inds = (order.map fun entry =>
        entry.2.Indicators.map (Indicator.ofJSON entry.1 entry.2)).flatten ∧
      inds.length = (themes.map fun entry => entry.2.Indicators.length).sum ∧
      ∀ K theme src,
        (Indicator.ofJSON K theme src).ID = src.ID ∧
        (Indicator.ofJSON K theme src).Controls.length = src.Controls.length ∧
        (Indicator.ofJSON K theme src).Controls.map (fun c => c.ControlID) =
          src.Controls.map (fun c => c.ControlID) ∧
        (Indicator.ofJSON K theme src).Controls.map (fun c => c.Title) =
          src.Controls.map (fun c => c.Title) := by
  have hperm := range.perm themes
  have hlen : ∀ l : List (String × ThemeJSON),
      ((l.map fun entry =>
        entry.2.Indicators.map (Indicator.ofJSON entry.1 entry.2)).flatten).length =
        (l.map fun entry => entry.2.Indicators.length).sum := by
    intro l
    induction l with
    | nil => simp
    | cons e l ih =>
      simp only [List.map_cons, List.flatten_cons, List.length_append, List.length_map,
        List.sum_cons, ih]
  refine ⟨range.visit themes, _, hperm, ?_, rfl, ?_, ?_⟩
  · rw [ParseIndicators_section range members ksi hksi, hthemes]
  · rw [hlen]
    exact (hperm.map _).sum_eq
  · intro K theme src
    simp [Indicator.ofJSON]

/-- C9, witness: the one indicator of `sampleKSI` is emitted with its two
controls in source order. -/
theorem ParseIndicators_blocks_witness :
    (∃ (order : List (String × ThemeJSON)) (inds : List Indicator),
      order.Perm sampleThemes ∧
      ParseIndicators (RangeOrder.stored ThemeJSON) (.value (.obj sampleKSI)) = .ok inds ∧
      inds = (order.map fun entry =>
        entry.2.Indicators.map (Indicator.ofJSON entry.1 entry.2)).flatten ∧
      inds.length = (sampleThemes.map fun entry => entry.2.Indicators.length).sum ∧
      ∀ K theme src,
        (Indicator.ofJSON K theme src).ID = src.ID ∧
        (Indicator.ofJSON K theme src).Controls.length = src.Controls.length ∧
        (Indicator.ofJSON K theme src).Controls.map (fun c => c.ControlID) =
          src.Controls.map (fun c => c.ControlID) ∧
        (Indicator.ofJSON K theme src).Controls.map (fun c => c.Title) =
          src.Controls.map (fun c => c.Title)) ∧
    (ParseIndicators (RangeOrder.stored ThemeJSON) (.value (.obj sampleKSI))).map
        (fun inds => inds.map fun ind => ind.Controls)
      = .ok [[⟨"ac-2", "Account Management"⟩, ⟨"ac-3", "Access Enforcement"⟩]] :=
  ⟨ParseIndicators_blocks (RangeOrder.stored ThemeJSON) sampleKSI sampleKSISection
      sampleThemes rfl rfl, rfl⟩

/-! ### The flat-list normalizer -/

theorem resolveNote_loop (l : List String) :
    ∀ (acc : String) (k : Nat), 0 < k →
      (l.enumFrom k).foldl
        (fun note jn => (if jn.1 > 0 then note ++ " " else note) ++ jn.2) acc =
      String.intercalate.go acc " " l := by
  induction l with
  | nil =>
    intro acc k _
    simp [String.intercalate.go]
  | cons a l ih =>
    intro acc k hk
    simp only [List.enumFrom_cons, List.foldl_cons, String.intercalate.go]
    rw [ih _ (k + 1) (Nat.succ_pos k)]
    simp [hk]

theorem resolveNote_join (notes : List String) :
    notes.enum.foldl
        (fun note jn => (if jn.1 > 0 then note ++ " " else note) ++ jn.2) "" =
      " ".intercalate notes := by
  cases notes with
  | nil => rfl
  | cons a l =>
    simp only [List.enum, List.enumFrom_cons, List.foldl_cons, String.intercalate]
    rw [resolveNote_loop l _ 1 Nat.one_pos]
    simp

/-- C10: for a decodable definitions document, the note of each definition
returned by `ParseDefinitions` is the singular `note` of its record if that is
non-empty, otherwise the entries of `notes` joined with a single space in
source order, otherwise the empty string. -/
theorem ParseDefinitions_note (data : RawMessage) (doc : DefinitionsDocument)
    (hdoc : jsonUnmarshal decodeDefinitionsDocument data DefinitionsDocument.zero = .ok doc) :
    ∃ defs, ParseDefinitions data = .ok defs ∧
      defs.map (fun d => d.Note) = doc.FRD.ALL.map fun d =>
        if d.Note ≠ "" then d.Note
        else if d.Notes ≠ [] then " ".intercalate d.Notes
        else "" := by
  refine ⟨doc.FRD.ALL.map fun d =>
      { ID := d.ID, Term := d.Term, Alts := d.Alts, Text := d.Definition,
        Note := resolveNote d, Reference := d.Reference, ReferenceURL := d.ReferenceURL },
    by simp only [ParseDefinitions, hdoc], ?_⟩
  rw [List.map_map]
  apply List.map_congr_left
  intro d _
  simp only [Function.comp, resolveNote]
  by_cases hn : d.Note = ""
  · cases hl : d.Notes with
    | nil => simp [hn]
    | cons a l =>
      rw [← hl]
      have hpos : d.Notes.length > 0 := by rw [hl]; simp
      have hne : d.Notes ≠ [] := by rw [hl]; simp
      simp only [hn, hpos, hne, and_self, if_true, ne_eq, not_true_eq_false, if_false,
        not_false_eq_true]
      exact resolveNote_join d.Notes
  · simp [hn]

/-- C10, witness: `{note: "", notes: ["a","b"]}` resolves to `"a b"`,
`{note: "x", notes: ["a","b"]}` to `"x"`, and a record with neither to `""`. -/
theorem ParseDefinitions_note_witness :
    (∃ defs, ParseDefinitions sampleDefinitions = .ok defs ∧
      defs.map (fun d => d.Note) = sampleDefinitionsDecoded.FRD.ALL.map fun d =>
        if d.Note ≠ "" then d.Note
        else if d.Notes ≠ [] then " ".intercalate d.Notes
        else "") ∧
    (ParseDefinitions sampleDefinitions).map (fun defs => defs.map fun d => d.Note)
      = .ok ["a b", "x", ""] :=
  ⟨ParseDefinitions_note sampleDefinitions sampleDefinitionsDecoded rfl, rfl⟩

/-! ### The flat-list normalizer: order and copied fields -/

/-- C11: for a decodable definitions document, `ParseDefinitions` returns a
list as long as the source list `FRD.ALL`, whose i-th definition carries the
id, term, alternate terms, definition text, reference and reference URL of
the i-th record (so nothing is sorted, filtered or merged). -/
theorem ParseDefinitions_copy (data : RawMessage) (doc : DefinitionsDocument)
    (hdoc : jsonUnmarshal decodeDefinitionsDocument data DefinitionsDocument.zero = .ok doc) :
    ∃ defs, ParseDefinitions data = .ok defs ∧
      defs.length = doc.FRD.ALL.length ∧
      ∀ i : Nat, ∀ (hi : i < defs.length) (hj : i < doc.FRD.ALL.length),
        (defs.get ⟨i, hi⟩).ID = (doc.FRD.ALL.get ⟨i, hj⟩).ID ∧
        (defs.get ⟨i, hi⟩).Term = (doc.FRD.ALL.get ⟨i, hj⟩).Term ∧
        (defs.get ⟨i, hi⟩).Alts = (doc.FRD.ALL.get ⟨i, hj⟩).Alts ∧
        (defs.get ⟨i, hi⟩).Text = (doc.FRD.ALL.get ⟨i, hj⟩).Definition ∧
        (defs.get ⟨i, hi⟩).Reference = (doc.FRD.ALL.get ⟨i, hj⟩).Reference ∧
        (defs.get ⟨i, hi⟩).ReferenceURL = (doc.FRD.ALL.get ⟨i, hj⟩).ReferenceURL := by
  refine ⟨doc.FRD.ALL.map fun d =>
      { ID := d.ID, Term := d.Term, Alts := d.Alts, Text := d.Definition,
        Note := resolveNote d, Reference := d.Reference, ReferenceURL := d.ReferenceURL },
    by simp only [ParseDefinitions, hdoc], by simp, ?_⟩
  intro i hi hj
  simp

/-- C11, witness: three records, the first sorting after the others and the
last two equal, come out as three definitions in the same order. -/
theorem ParseDefinitions_copy_witness :
    (∃ defs, ParseDefinitions sampleTerms = .ok defs ∧
      defs.length = sampleTermsDecoded.FRD.ALL.length ∧
      ∀ i : Nat, ∀ (hi : i < defs.length) (hj : i < sampleTermsDecoded.FRD.ALL.length),
        (defs.get ⟨i, hi⟩).ID = (sampleTermsDecoded.FRD.ALL.get ⟨i, hj⟩).ID ∧
        (defs.get ⟨i, hi⟩).Term = (sampleTermsDecoded.FRD.ALL.get ⟨i, hj⟩).Term ∧
        (defs.get ⟨i, hi⟩).Alts = (sampleTermsDecoded.FRD.ALL.get ⟨i, hj⟩).Alts ∧
        (defs.get ⟨i, hi⟩).Text = (sampleTermsDecoded.FRD.ALL.get ⟨i, hj⟩).Definition ∧
        (defs.get ⟨i, hi⟩).Reference = (sampleTermsDecoded.FRD.ALL.get ⟨i, hj⟩).Reference ∧
        (defs.get ⟨i, hi⟩).ReferenceURL =
          (sampleTermsDecoded.FRD.ALL.get ⟨i, hj⟩).ReferenceURL) ∧
    ParseDefinitions sampleTerms =
      .ok [⟨"FRD-2", "Zeta", ["Z"], "Last letter", "", "Ref", "https://z"⟩,
           ⟨"FRD-1", "Alpha", [], "First letter", "", "", ""⟩,
           ⟨"FRD-1", "Alpha", [], "First letter", "", "", ""⟩] :=
  ⟨ParseDefinitions_copy sampleTerms sampleTermsDecoded rfl, rfl⟩

/-! ### `Impact.String` -/

/-- C12: for each of the eight `Impact` values, `Impact.String` is the names
of the set flags in the order Low, Moderate, High joined with `", "`, and it
is the sentinel `"N/A"` exactly when no flag is set. -/
theorem impactString_table (i : Impact) :
    i.String =
        (if i.Low = true ∨ i.Moderate = true ∨ i.High = true then
          ", ".intercalate i.flagNames
        else "N/A") ∧
      (i.String = "N/A" ↔ (i.Low = false ∧ i.Moderate = false ∧ i.High = false)) ∧
      (Impact.mk false false false).String = "N/A" ∧
      (Impact.mk true false false).String = "Low" ∧
      (Impact.mk false true false).String = "Moderate" ∧
      (Impact.mk false false true).String = "High" ∧
      (Impact.mk true true false).String = "Low, Moderate" ∧
      (Impact.mk true false true).String = "Low, High" ∧
      (Impact.mk false true true).String = "Moderate, High" ∧
      (Impact.mk true true true).String = "Low, Moderate, High" := by
  obtain ⟨low, moderate, high⟩ := i
  cases low <;> cases moderate <;> cases high <;> decide

/-! ### Fetching all documents -/

theorem GoMap.set_of_not_mem {V : Type} (m : GoMap V) (k : String) (v : V)
    (h : k ∉ m.map Prod.fst) : GoMap.set m k v = m ++ [(k, v)] := by
  induction m with
  | nil => rfl
  | cons e rest ih =>
    obtain ⟨k0, v0⟩ := e
    simp only [List.map_cons, List.mem_cons, not_or] at h
    have h0 : ¬ k0 = k := fun hk => h.1 hk.symm
    simp [GoMap.set, h0, ih h.2]

theorem GoMap.foldl_set_eq_append {V : Type} (pairs : List (String × V)) :
    ∀ m : GoMap V, (m.map Prod.fst ++ pairs.map Prod.fst).Nodup →
      pairs.foldl (fun m p => GoMap.set m p.1 p.2) m = m ++ pairs := by
  induction pairs with
  | nil => intro m _; simp
  | cons p pairs ih =>
    intro m h
    have hp : p.1 ∉ m.map Prod.fst := by
      intro hmem
      have := List.nodup_append.mp h
      exact this.2.2 hmem (by simp)
    rw [List.foldl_cons, GoMap.set_of_not_mem m p.1 p.2 hp, ih]
    · simp
    · simpa [List.append_assoc] using h

theorem FetchAllDocuments_fold (fetch : String → Except FetchError Bytes)
    (l : List (String × DocumentMetadata)) :
    ∀ (m : GoMap Bytes) (errs : List FetchingError),
      l.foldl
        (fun (state : GoMap Bytes × List FetchingError) entry =>
          match fetch entry.2.Filename with
          | .error err => (state.1, state.2 ++ [⟨entry.1, err⟩])
          | .ok data => (GoMap.set state.1 entry.1 data, state.2))
        (m, errs) =
      ((fetchedOf fetch l).foldl (fun m p => GoMap.set m p.1 p.2) m,
        errs ++ failedOf fetch l) := by
  induction l with
  | nil => intro m errs; simp [fetchedOf, failedOf]
  | cons e l ih =>
    intro m errs
    rw [List.foldl_cons]
    cases hf : fetch e.2.Filename with
    | error err =>
      simp only [hf]
      rw [ih]
      simp [fetchedOf, failedOf, hf]
    | ok data =>
      simp only [hf]
      rw [ih]
      simp [fetchedOf, failedOf, hf]

theorem fetchedOf_keys_sublist (fetch : String → Except FetchError Bytes)
    (l : List (String × DocumentMetadata)) :
    ((fetchedOf fetch l).map Prod.fst).Sublist (l.map Prod.fst) := by
  induction l with
  | nil => simp [fetchedOf]
  | cons e l ih =>
    cases hf : fetch e.2.Filename with
    | error err =>
      have : fetchedOf fetch (e :: l) = fetchedOf fetch l := by
        simp [fetchedOf, hf]
      rw [this]
      exact List.Sublist.cons _ ih
    | ok data =>
      have : fetchedOf fetch (e :: l) = (e.1, data) :: fetchedOf fetch l := by
        simp [fetchedOf, hf]
      rw [this]
      exact List.Sublist.cons₂ _ ih

theorem fetched_failed_length (fetch : String → Except FetchError Bytes)
    (l : List (String × DocumentMetadata)) :
    (fetchedOf fetch l).length + (failedOf fetch l).length = l.length := by
  induction l with
  | nil => simp [fetchedOf, failedOf]
  | cons e l ih =>
    cases hf : fetch e.2.Filename with
    | error err =>
      have h1 : fetchedOf fetch (e :: l) = fetchedOf fetch l := by simp [fetchedOf, hf]
      have h2 : failedOf fetch (e :: l) = ⟨e.1, err⟩ :: failedOf fetch l := by
        simp [failedOf, hf]
      rw [h1, h2]
      simp only [List.length_cons]
      omega
    | ok data =>
      have h1 : fetchedOf fetch (e :: l) = (e.1, data) :: fetchedOf fetch l := by
        simp [fetchedOf, hf]
      have h2 : failedOf fetch (e :: l) = failedOf fetch l := by simp [failedOf, hf]
      rw [h1, h2]
      simp only [List.length_cons]
      omega

theorem DocumentFiles_nodup : (DocumentFiles.map Prod.fst).Nodup := by decide

theorem FetchAllDocuments_eq (fetch : String → Except FetchError Bytes)
    (schedule : RangeOrder DocumentMetadata) :
    FetchAllDocuments fetch schedule =
      (fetchedOf fetch (schedule.visit DocumentFiles),
        if (failedOf fetch (schedule.visit DocumentFiles)).length > 0 then
          some ⟨failedOf fetch (schedule.visit DocumentFiles)⟩
        else none) := by
  have hnd : ((schedule.visit DocumentFiles).map Prod.fst).Nodup :=
    ((schedule.perm DocumentFiles).map Prod.fst).nodup_iff.mpr DocumentFiles_nodup
  have hsub := (fetchedOf_keys_sublist fetch (schedule.visit DocumentFiles)).nodup hnd
  have hfold := GoMap.foldl_set_eq_append (fetchedOf fetch (schedule.visit DocumentFiles)) []
    (by simpa using hsub)
  simp only [FetchAllDocuments, FetchAllDocuments_fold, hfold, List.nil_append]
  split <;> rfl

theorem fetchedOf_mem (fetch : String → Except FetchError Bytes)
    (l : List (String × DocumentMetadata)) (code : String) (data : Bytes) :
    (code, data) ∈ fetchedOf fetch l ↔
      ∃ meta, (code, meta) ∈ l ∧ fetch meta.Filename = .ok data := by
  simp only [fetchedOf, List.mem_filterMap]
  constructor
  · rintro ⟨e, he, h⟩
    split at h
    · rename_i d hd
      cases h
      exact ⟨e.2, he, hd⟩
    · cases h
  · rintro ⟨meta, hmem, hf⟩
    exact ⟨(code, meta), hmem, by simp [hf]⟩

theorem failedOf_mem (fetch : String → Except FetchError Bytes)
    (l : List (String × DocumentMetadata)) (fe : FetchingError) :
    fe ∈ failedOf fetch l ↔
      ∃ meta, (fe.code, meta) ∈ l ∧ fetch meta.Filename = .error fe.cause := by
  simp only [failedOf, List.mem_filterMap]
  constructor
  · rintro ⟨e, he, h⟩
    split at h
    · cases h
    · rename_i err herr
      cases h
      exact ⟨e.2, he, herr⟩
  · rintro ⟨meta, hmem, hf⟩
    exact ⟨(fe.code, meta), hmem, by simp [hf]⟩

theorem GoMap.mem_iff_get {V : Type} (m : GoMap V) (hnd : (m.map Prod.fst).Nodup)
    (k : String) (v : V) : (k, v) ∈ m ↔ m.get k = some v :=
  ⟨GoMap.get_of_mem m k v hnd, GoMap.mem_of_get m k v⟩

theorem FetchAllDocuments_failed_mem (fetch : String → Except FetchError Bytes)
    (schedule : RangeOrder DocumentMetadata) (code : String) (cause : FetchError) :
    (⟨code, cause⟩ : FetchingError) ∈ failedOf fetch (schedule.visit DocumentFiles) ↔
      ∃ meta, DocumentFiles.get code = some meta ∧ fetch meta.Filename = .error cause := by
  have hperm := schedule.perm DocumentFiles
  rw [failedOf_mem]
  constructor
  · rintro ⟨meta, hmem, hf⟩
    exact ⟨meta, (GoMap.mem_iff_get _ DocumentFiles_nodup _ _).mp (hperm.subset hmem), hf⟩
  · rintro ⟨meta, hget, hf⟩
    exact ⟨meta, hperm.mem_iff.mpr (GoMap.mem_of_get _ _ _ hget), hf⟩

theorem FetchAllDocuments_error_iff (fetch : String → Except FetchError Bytes)
    (schedule : RangeOrder DocumentMetadata) :
    (FetchAllDocuments fetch schedule).2 ≠ none ↔
      ∃ code meta cause, DocumentFiles.get code = some meta ∧
        fetch meta.Filename = .error cause := by
  rw [FetchAllDocuments_eq]
  simp only
  constructor
  · intro h
    split at h
    · rename_i hpos
      obtain ⟨fe, hfe⟩ := List.exists_mem_of_length_pos hpos
      obtain ⟨meta, hget, hf⟩ :=
        (FetchAllDocuments_failed_mem fetch schedule fe.code fe.cause).mp hfe
      exact ⟨fe.code, meta, fe.cause, hget, hf⟩
    · exact absurd rfl h
  · rintro ⟨code, meta, cause, hget, hf⟩
    have hmem := (FetchAllDocuments_failed_mem fetch schedule code cause).mpr ⟨meta, hget, hf⟩
    have hpos : (failedOf fetch (schedule.visit DocumentFiles)).length > 0 :=
      List.length_pos_of_mem hmem
    simp [hpos]

/-- C15: whatever the per-document fetches return and in whatever order the
goroutines finish, `FetchAllDocuments` handles all 12 entries: the mapping it
returns holds exactly the codes whose fetch succeeded, each with its fetched
bytes; the error is non-nil exactly when some fetch failed, and then lists
exactly the failed codes, each with its cause. -/
theorem FetchAllDocuments_outcome (fetch : String → Except FetchError Bytes)
    (schedule : RangeOrder DocumentMetadata) :
    (∀ code data, (FetchAllDocuments fetch schedule).1.get code = some data ↔
      ∃ meta, DocumentFiles.get code = some meta ∧ fetch meta.Filename = .ok data) ∧
    ((FetchAllDocuments fetch schedule).2 ≠ none ↔
      ∃ code meta cause, DocumentFiles.get code = some meta ∧
        fetch meta.Filename = .error cause) ∧
    (∀ code cause,
      (∃ err, (FetchAllDocuments fetch schedule).2 = some err ∧ ⟨code, cause⟩ ∈ err.errs) ↔
      ∃ meta, DocumentFiles.get code = some meta ∧ fetch meta.Filename = .error cause) ∧
    (FetchAllDocuments fetch schedule).1.length +
      (match (FetchAllDocuments fetch schedule).2 with
        | some err => err.errs.length
        | none => 0) = 12 := by
  have hperm := schedule.perm DocumentFiles
  have hnd : ((schedule.visit DocumentFiles).map Prod.fst).Nodup :=
    (hperm.map Prod.fst).nodup_iff.mpr DocumentFiles_nodup
  have hsub := (fetchedOf_keys_sublist fetch (schedule.visit DocumentFiles)).nodup hnd
  refine ⟨?_, FetchAllDocuments_error_iff fetch schedule, ?_, ?_⟩
  · intro code data
    rw [FetchAllDocuments_eq]
    simp only
    rw [← GoMap.mem_iff_get _ hsub, fetchedOf_mem]
    constructor
    · rintro ⟨meta, hmem, hf⟩
      exact ⟨meta, (GoMap.mem_iff_get _ DocumentFiles_nodup _ _).mp (hperm.subset hmem), hf⟩
    · rintro ⟨meta, hget, hf⟩
      exact ⟨meta, hperm.mem_iff.mpr (GoMap.mem_of_get _ _ _ hget), hf⟩
  · intro code cause
    rw [FetchAllDocuments_eq]
    simp only
    rw [← FetchAllDocuments_failed_mem fetch schedule]
    constructor
    · rintro ⟨err, herr, hmem⟩
      split at herr
      · cases herr
        exact hmem
      · cases herr
    · intro hmem
      have hpos : (failedOf fetch (schedule.visit DocumentFiles)).length > 0 :=
        List.length_pos_of_mem hmem
      exact ⟨⟨failedOf fetch (schedule.visit DocumentFiles)⟩, by simp [hpos], hmem⟩
  · have hlen := fetched_failed_length fetch (schedule.visit DocumentFiles)
    have h12 : (schedule.visit DocumentFiles).length = 12 := by
      rw [hperm.length_eq]
      rfl
    rw [FetchAllDocuments_eq]
    simp only
    split
    · rename_i err herr
      split at herr
      · cases herr
        dsimp only
        omega
      · cases herr
    · rename_i herr
      split at herr
      · cases herr
      · omega

/-- C15, witness: 11 fetches succeed and that of VDR fails: the mapping has 11
entries, none for VDR, and the error names VDR alone, with its cause. -/
theorem FetchAllDocuments_outcome_witness :
    (FetchAllDocuments sampleFetch (RangeOrder.stored DocumentMetadata)).1.length = 11 ∧
    (FetchAllDocuments sampleFetch (RangeOrder.stored DocumentMetadata)).1.get "VDR" = none ∧
    (FetchAllDocuments sampleFetch (RangeOrder.stored DocumentMetadata)).2 =
      some ⟨[⟨"VDR", .transport "connection refused"⟩]⟩ ∧
    (FetchAllDocuments sampleFetch (RangeOrder.stored DocumentMetadata)).1.length +
      (match (FetchAllDocuments sampleFetch (RangeOrder.stored DocumentMetadata)).2 with
        | some err => err.errs.length
        | none => 0) = 12 :=
  ⟨by decide, by decide, by decide,
    (FetchAllDocuments_outcome sampleFetch (RangeOrder.stored DocumentMetadata)).2.2.2⟩

/-! ### Fetching one document -/

/-- C16: with a cache present that returns what was last stored under a key,
and forced refresh not set, if a call of `fetchDocument` succeeds then the next
call for the same filename returns the same bytes, and all it does is read the
cache under the full URL (no network request, whatever the network would
answer). -/
theorem fetchDocument_twice {σ : Type} (ops : Cache σ)
    (hstore : ∀ store key data, ops.Get (ops.Set store key data).1 key = some data)
    (httpGet1 httpGet2 : String → Except String Response) (c : Client σ)
    (hcache : c.cache ≠ none) (hrefresh : c.refresh = false)
    (filename : String) (data : Bytes)
    (hfirst : (fetchDocument ops httpGet1 c filename).result = .ok data) :
    (fetchDocument ops httpGet2
        { c with cache := (fetchDocument ops httpGet1 c filename).cache } filename).result
      = .ok data ∧
    (fetchDocument ops httpGet2
        { c with cache := (fetchDocument ops httpGet1 c filename).cache } filename).trace
      = [.cacheGet (c.baseURL ++ "/" ++ filename)] := by
  cases hc : c.cache with
  | none => exact absurd hc hcache
  | some store =>
    cases hget : ops.Get store (c.baseURL ++ "/" ++ filename) with
    | some cachedData =>
      simp only [fetchDocument, hc, hrefresh, hget] at hfirst ⊢
      simp only [Bool.not_false, if_true] at hfirst ⊢
      cases hfirst
      simp [hget]
    | none =>
      cases hnet : httpGet1 (c.baseURL ++ "/" ++ filename) with
      | error cause =>
        simp [fetchDocument, hc, hrefresh, hget, hnet] at hfirst
      | ok resp =>
        by_cases hstatus : resp.StatusCode = 200
        · simp only [fetchDocument, hc, hrefresh, hget, hnet, hstatus, Bool.not_false,
            if_true, ne_eq, not_true_eq_false, if_false] at hfirst ⊢
          cases hfirst
          simp [hstore]
        · simp [fetchDocument, hc, hrefresh, hget, hnet, hstatus] at hfirst

/-- C16, witness: a new client with an empty in-memory cache fetches the FRD
document from the server; the second call returns the same two bytes from the
cache although the network is down. -/
theorem fetchDocument_twice_witness :
    (fetchDocument memoryCache sampleOffline
        { (NewClient (some []) [] : Client (GoMap Bytes)) with
          cache := (fetchDocument memoryCache sampleServer (NewClient (some []) [])
            "FRMR.FRD.fedramp-definitions.json").cache }
        "FRMR.FRD.fedramp-definitions.json").result = .ok [123, 125] ∧
    (fetchDocument memoryCache sampleOffline
        { (NewClient (some []) [] : Client (GoMap Bytes)) with
          cache := (fetchDocument memoryCache sampleServer (NewClient (some []) [])
            "FRMR.FRD.fedramp-definitions.json").cache }
        "FRMR.FRD.fedramp-definitions.json").trace =
      [.cacheGet ((NewClient (some []) [] : Client (GoMap Bytes)).baseURL ++ "/" ++
        "FRMR.FRD.fedramp-definitions.json")] :=
  fetchDocument_twice memoryCache
    (fun store key data => by simp [memoryCache, GoMap.get_set])
    sampleServer sampleOffline (NewClient (some []) []) (by simp [NewClient]) rfl
    "FRMR.FRD.fedramp-definitions.json" [123, 125] rfl

/-- C17: a client configured with `WithRefresh(true)` never reads the cache:
the first thing `fetchDocument` does is the network request, what it returns
does not depend on the cache (nor on whether there is one), and when the
request succeeds and a cache is present the fetched bytes are written to it
under the full URL. -/
theorem fetchDocument_refresh {σ : Type} (ops : Cache σ)
    (httpGet : String → Except String Response) (c : Client σ) (filename : String) :
    (∀ key, Effect.cacheGet key ∉ (fetchDocument ops httpGet (WithRefresh true c) filename).trace) ∧
    (fetchDocument ops httpGet (WithRefresh true c) filename).trace.head? =
      some (.httpGet (c.baseURL ++ "/" ++ filename)) ∧
    (∀ other : Option σ,
      (fetchDocument ops httpGet (WithRefresh true { c with cache := other }) filename).result =
        (fetchDocument ops httpGet (WithRefresh true c) filename).result) ∧
    (∀ store data, c.cache = some store →
      (fetchDocument ops httpGet (WithRefresh true c) filename).result = .ok data →
      (fetchDocument ops httpGet (WithRefresh true c) filename).cache =
          some (ops.Set store (c.baseURL ++ "/" ++ filename) data).1 ∧
        (fetchDocument ops httpGet (WithRefresh true c) filename).trace =
          [.httpGet (c.baseURL ++ "/" ++ filename),
           .cacheSet (c.baseURL ++ "/" ++ filename) data]) := by
  have hresult : ∀ cache : Option σ,
      (fetchDocument ops httpGet (WithRefresh true { c with cache := cache }) filename).result =
        match httpGet (c.baseURL ++ "/" ++ filename) with
        | .error cause => .error (.transport cause)
        | .ok resp =>
          if resp.StatusCode ≠ 200 then .error (.httpStatus resp.StatusCode resp.Status)
          else .ok (readBody resp.Body) := by
    intro cache
    cases cache <;> simp only [fetchDocument, WithRefresh] <;>
      cases httpGet (c.baseURL ++ "/" ++ filename) <;> simp <;> split <;> simp
  have hself : (WithRefresh true { c with cache := c.cache }) = WithRefresh true c := rfl
  refine ⟨?_, ?_, ?_, ?_⟩
  · intro key
    cases hc : c.cache <;> simp only [fetchDocument, WithRefresh, hc] <;>
      cases httpGet (c.baseURL ++ "/" ++ filename) <;> simp <;> split <;> simp
  · cases hc : c.cache <;> simp only [fetchDocument, WithRefresh, hc] <;>
      cases httpGet (c.baseURL ++ "/" ++ filename) <;> simp <;> split <;> simp
  · intro other
    rw [hresult other, ← hself, hresult c.cache]
  · intro store data hc hok
    simp only [fetchDocument, WithRefresh, hc] at hok ⊢
    cases hnet : httpGet (c.baseURL ++ "/" ++ filename) with
    | error cause => simp [hnet] at hok
    | ok resp =>
      by_cases hstatus : resp.StatusCode = 200
      · simp [hnet, hstatus] at hok ⊢
        simp [hok]
      · simp [hnet, hstatus] at hok

/-- C17, witness: the cache holds `[]` for the FRD document, the server
answers `{}`: with forced refresh the call returns `{}`, after one network
request and no cache read, and stores `{}` under the URL. -/
theorem fetchDocument_refresh_witness :
    sampleRefreshBase.cache =
      some [(BaseURL ++ "/" ++ "FRMR.FRD.fedramp-definitions.json", [91, 93])] ∧
    (fetchDocument memoryCache sampleServer (WithRefresh true sampleRefreshBase)
      "FRMR.FRD.fedramp-definitions.json").result = .ok [123, 125] ∧
    ((fetchDocument memoryCache sampleServer (WithRefresh true sampleRefreshBase)
        "FRMR.FRD.fedramp-definitions.json").cache =
        some (memoryCache.Set
          [(BaseURL ++ "/" ++ "FRMR.FRD.fedramp-definitions.json", [91, 93])]
          (sampleRefreshBase.baseURL ++ "/" ++ "FRMR.FRD.fedramp-definitions.json")
          [123, 125]).1 ∧
      (fetchDocument memoryCache sampleServer (WithRefresh true sampleRefreshBase)
        "FRMR.FRD.fedramp-definitions.json").trace =
        [.httpGet (sampleRefreshBase.baseURL ++ "/" ++ "FRMR.FRD.fedramp-definitions.json"),
         .cacheSet (sampleRefreshBase.baseURL ++ "/" ++ "FRMR.FRD.fedramp-definitions.json")
           [123, 125]]) :=
  ⟨rfl, rfl,
    (fetchDocument_refresh memoryCache sampleServer sampleRefreshBase
      "FRMR.FRD.fedramp-definitions.json").2.2.2
      [(BaseURL ++ "/" ++ "FRMR.FRD.fedramp-definitions.json", [91, 93])] [123, 125] rfl rfl⟩

theorem fetchDocument_from_network {σ : Type} (ops : Cache σ)
    (httpGet : String → Except String Response) (c : Client σ) (filename : String)
    (hmiss : c.refresh = true ∨ c.cache = none ∨
      ∃ store, c.cache = some store ∧ ops.Get store (c.baseURL ++ "/" ++ filename) = none) :
    (fetchDocument ops httpGet c filename).result =
        (match httpGet (c.baseURL ++ "/" ++ filename) with
          | .error cause => .error (.transport cause)
          | .ok resp =>
            if resp.StatusCode ≠ 200 then .error (.httpStatus resp.StatusCode resp.Status)
            else .ok (readBody resp.Body)) ∧
      ((∀ data, (fetchDocument ops httpGet c filename).result ≠ .ok data) →
        (fetchDocument ops httpGet c filename).cache = c.cache ∧
        ∀ key data, Effect.cacheSet key data ∉ (fetchDocument ops httpGet c filename).trace) := by
  have hcached : (match c.cache with
      | some store => if !c.refresh then ops.Get store (c.baseURL ++ "/" ++ filename) else none
      | none => none) = none := by
    rcases hmiss with h | h | ⟨store, h, hget⟩
    · cases c.cache <;> simp [h]
    · simp [h]
    · simp only [h, hget]
      split <;> rfl
  have hconsulted : ∀ key data, Effect.cacheSet key data ∉
      (match c.cache with
        | some _ => if !c.refresh then [Effect.cacheGet (c.baseURL ++ "/" ++ filename)] else []
        | none => []) := by
    intro key data
    cases c.cache with
    | none => simp
    | some store => cases c.refresh <;> simp
  simp only [fetchDocument, hcached]
  cases hnet : httpGet (c.baseURL ++ "/" ++ filename) with
  | error cause =>
    refine ⟨rfl, fun _ => ⟨rfl, ?_⟩⟩
    intro key data hmem
    rcases List.mem_append.mp hmem with h | h
    · exact hconsulted key data h
    · simp at h
  | ok resp =>
    by_cases hstatus : resp.StatusCode = 200
    · simp only [hstatus, ne_eq, not_true_eq_false, if_false]
      cases hc : c.cache with
      | none => exact ⟨rfl, fun h => absurd rfl (h _)⟩
      | some store => exact ⟨rfl, fun h => absurd rfl (h _)⟩
    · simp only [ne_eq, hstatus, not_false_eq_true, if_true]
      refine ⟨by trivial, fun _ => ⟨by trivial, ?_⟩⟩
      intro key data hmem
      rcases List.mem_append.mp hmem with h | h
      · exact hconsulted key data h
      · simp at h

/-- C18: the code at the failing input. The server answers with status 200 and
the connection breaks while the body is read, after two bytes: `fetchDocument`
reports success, returns the two bytes as the document and stores them in the
cache, because the read loop leaves on any error of `Read` and never looks at
which one. -/
theorem fetchDocument_broken_body :
    (fetchDocument memoryCache sampleBrokenBody (NewClient (some []) [])
      "FRMR.FRD.fedramp-definitions.json").result = .ok [123, 34] ∧
    (fetchDocument memoryCache sampleBrokenBody (NewClient (some []) [])
      "FRMR.FRD.fedramp-definitions.json").cache =
      some [(BaseURL ++ "/" ++ "FRMR.FRD.fedramp-definitions.json", [123, 34])] ∧
    (fetchDocument memoryCache sampleBrokenBody (NewClient (some []) [])
      "FRMR.FRD.fedramp-definitions.json").trace =
      [.cacheGet (BaseURL ++ "/" ++ "FRMR.FRD.fedramp-definitions.json"),
       .httpGet (BaseURL ++ "/" ++ "FRMR.FRD.fedramp-definitions.json"),
       .cacheSet (BaseURL ++ "/" ++ "FRMR.FRD.fedramp-definitions.json") [123, 34]] :=
  ⟨rfl, rfl, rfl⟩

/-! ### `fetchData` -/

theorem reqCounts_fold (reqs : List Requirement) (code : String) :
    ∀ counts : GoMap Int,
      ((reqs.foldl
        (fun counts r =>
          GoMap.set counts r.DocumentCode ((counts.get r.DocumentCode).getD 0 + 1))
        counts).get code).getD 0 =
      (counts.get code).getD 0 + ((reqs.filter fun r => r.DocumentCode = code).length : Int) := by
  induction reqs with
  | nil => intro counts; simp
  | cons r reqs ih =>
    intro counts
    rw [List.foldl_cons, ih, GoMap.get_set]
    by_cases h : r.DocumentCode = code
    · subst h
      simp
      omega
    · simp [h]

theorem reqCounts_get (reqs : List Requirement) (code : String) :
    ((reqCounts reqs).get code).getD 0 =
      ((reqs.filter fun r => r.DocumentCode = code).length : Int) := by
  have h := reqCounts_fold reqs code []
  simpa [reqCounts, GoMap.get] using h

theorem EnrichDocument_frame (range : RangeOrder EffectiveInfo) (doc : Document)
    (info : Option DocumentInfo) :
    (EnrichDocument range doc info).Code = doc.Code ∧
      (EnrichDocument range doc info).RequirementCount = doc.RequirementCount := by
  cases info with
  | none => exact ⟨rfl, rfl⟩
  | some info =>
    simp only [EnrichDocument]
    split <;> exact ⟨rfl, rfl⟩

theorem GetDocumentMetadata_codes :
    GetDocumentMetadata.map (fun d => d.Code) = DocumentOrder := by decide

theorem countAndEnrich_frame (orders : RangeOrders) (lex : Bytes → RawMessage)
    (docs : GoMap Bytes) (counts : GoMap Int) (d : Document) :
    (countAndEnrich orders lex docs counts d).Code = d.Code ∧
      (countAndEnrich orders lex docs counts d).RequirementCount =
        (counts.get d.Code).getD 0 := by
  simp only [countAndEnrich]
  split
  · split
    · exact EnrichDocument_frame _ _ _
    · exact ⟨rfl, rfl⟩
  · exact ⟨rfl, rfl⟩

theorem fetchData_loaded (orders : RangeOrders) (lex : Bytes → RawMessage)
    (docs : GoMap Bytes) :
    fetchData orders lex (docs, none) =
      .dataLoaded
        { Documents :=
            (GetDocumentMetadata.map
              (countAndEnrich orders lex docs
                (reqCounts ((orders.documents.visit docs).foldl (parseStep orders lex)
                  ⟨[], [], []⟩).allRequirements))).map fun d =>
              if d.Code = "FRD" then
                { d with RequirementCount :=
                  ((orders.documents.visit docs).foldl (parseStep orders lex)
                    ⟨[], [], []⟩).definitions.length }
              else if d.Code = "KSI" then
                { d with RequirementCount :=
                  ((orders.documents.visit docs).foldl (parseStep orders lex)
                    ⟨[], [], []⟩).indicators.length }
              else d
          Requirements :=
            ((orders.documents.visit docs).foldl (parseStep orders lex)
              ⟨[], [], []⟩).allRequirements
          Definitions :=
            ((orders.documents.visit docs).foldl (parseStep orders lex)
              ⟨[], [], []⟩).definitions
          Indicators :=
            ((orders.documents.visit docs).foldl (parseStep orders lex)
              ⟨[], [], []⟩).indicators } := rfl

/-- C13: in the `DataLoadedMsg` built by `fetchData` the documents are the
catalog entries in display order; the count of the FRD entry is the number of
returned definitions, that of the KSI entry the number of returned indicators,
and that of every other entry the number of returned requirements whose
`DocumentCode` is the entry's code. -/
theorem fetchData_counts (orders : RangeOrders) (lex : Bytes → RawMessage)
    (docs : GoMap Bytes) :
    ∃ msg, fetchData orders lex (docs, none) = .dataLoaded msg ∧
      msg.Documents.map (fun d => d.Code) = DocumentOrder ∧
      ∀ d ∈ msg.Documents,
        d.RequirementCount =
          if d.Code = "FRD" then (msg.Definitions.length : Int)
          else if d.Code = "KSI" then (msg.Indicators.length : Int)
          else ((msg.Requirements.filter fun r => r.DocumentCode = d.Code).length : Int) := by
  refine ⟨_, fetchData_loaded orders lex docs, ?_, ?_⟩
  · simp only [List.map_map]
    rw [← GetDocumentMetadata_codes]
    apply List.map_congr_left
    intro d _
    have h := (countAndEnrich_frame orders lex docs
      (reqCounts ((orders.documents.visit docs).foldl (parseStep orders lex)
        ⟨[], [], []⟩).allRequirements) d).1
    simp only [Function.comp]
    split
    · exact h
    · split
      · exact h
      · exact h
  · intro d hd
    simp only [List.mem_map] at hd
    obtain ⟨d1, ⟨d0, _, rfl⟩, rfl⟩ := hd
    obtain ⟨hcode, hcount⟩ := countAndEnrich_frame orders lex docs
      (reqCounts ((orders.documents.visit docs).foldl (parseStep orders lex)
        ⟨[], [], []⟩).allRequirements) d0
    by_cases hfrd : (countAndEnrich orders lex docs
        (reqCounts ((orders.documents.visit docs).foldl (parseStep orders lex)
          ⟨[], [], []⟩).allRequirements) d0).Code = "FRD"
    · simp [hfrd]
    · by_cases hksi : (countAndEnrich orders lex docs
          (reqCounts ((orders.documents.visit docs).foldl (parseStep orders lex)
            ⟨[], [], []⟩).allRequirements) d0).Code = "KSI"
      · simp [hfrd, hksi]
      · simp only [hfrd, hksi, if_false]
        rw [hcount, reqCounts_get, hcode]

theorem GoMap.get_eq_none {V : Type} (m : GoMap V) (k : String)
    (h : k ∉ m.map Prod.fst) : m.get k = none := by
  induction m with
  | nil => rfl
  | cons e rest ih =>
    obtain ⟨k0, v0⟩ := e
    simp only [List.map_cons, List.mem_cons, not_or] at h
    have h0 : ¬ k0 = k := fun hk => h.1 hk.symm
    simp [GoMap.get, h0, ih h.2]

theorem GoMap.get_perm {V : Type} (m1 m2 : GoMap V) (hperm : m1.Perm m2)
    (hnd : (m2.map Prod.fst).Nodup) (k : String) : m1.get k = m2.get k := by
  have hnd1 : (m1.map Prod.fst).Nodup := (hperm.map Prod.fst).nodup_iff.mpr hnd
  cases h2 : m2.get k with
  | some v =>
    exact GoMap.get_of_mem m1 k v hnd1 (hperm.mem_iff.mpr (GoMap.mem_of_get m2 k v h2))
  | none =>
    cases h1 : m1.get k with
    | none => rfl
    | some v =>
      have := GoMap.get_of_mem m2 k v hnd (hperm.mem_iff.mp (GoMap.mem_of_get m1 k v h1))
      rw [h2] at this
      cases this

theorem parseStep_requirements (orders : RangeOrders) (lex : Bytes → RawMessage)
    (state : Parsed) (entry : String × Bytes) :
    (parseStep orders lex state entry).allRequirements =
      state.allRequirements ++ contributedRequirements orders lex entry := by
  unfold parseStep contributedRequirements
  by_cases hfrd : entry.1 = "FRD"
  · simp only [hfrd, if_true, true_or]
    split <;> simp
  · by_cases hksi : entry.1 = "KSI"
    · have hne : ¬ "KSI" = "FRD" := by decide
      simp only [hksi, hne, if_true, if_false, or_true]
      split <;> simp
    · simp only [hfrd, hksi, if_false, or_self]
      split <;> simp

theorem parseFold_requirements (orders : RangeOrders) (lex : Bytes → RawMessage)
    (l : List (String × Bytes)) :
    ∀ state : Parsed,
      (l.foldl (parseStep orders lex) state).allRequirements =
        state.allRequirements ++ (l.map (contributedRequirements orders lex)).flatten := by
  induction l with
  | nil => intro state; simp
  | cons e l ih =>
    intro state
    rw [List.foldl_cons, ih, parseStep_requirements]
    simp

theorem parseFold_definitions (orders : RangeOrders) (lex : Bytes → RawMessage)
    (l : List (String × Bytes)) :
    ∀ state : Parsed, (l.map Prod.fst).Nodup →
      (l.foldl (parseStep orders lex) state).definitions =
        match GoMap.get l "FRD" with
        | some data =>
          (match ParseDefinitions (lex data) with
            | .ok defs => defs
            | .error _ => state.definitions)
        | none => state.definitions := by
  induction l with
  | nil => intro state _; rfl
  | cons e l ih =>
    intro state hnd
    obtain ⟨k, data⟩ := e
    simp only [List.map_cons, List.nodup_cons] at hnd
    rw [List.foldl_cons, ih _ hnd.2]
    by_cases hk : k = "FRD"
    · subst hk
      rw [GoMap.get_eq_none l "FRD" hnd.1]
      simp only [GoMap.get, if_true, parseStep]
      split <;> rfl
    · have hstep : (parseStep orders lex state (k, data)).definitions = state.definitions := by
        simp only [parseStep, hk, if_false]
        split
        · split <;> rfl
        · split <;> rfl
      simp only [GoMap.get, hk, if_false, hstep]

theorem parseFold_indicators (orders : RangeOrders) (lex : Bytes → RawMessage)
    (l : List (String × Bytes)) :
    ∀ state : Parsed, (l.map Prod.fst).Nodup →
      (l.foldl (parseStep orders lex) state).indicators =
        match GoMap.get l "KSI" with
        | some data =>
          (match ParseIndicators orders.themes (lex data) with
            | .ok inds => inds
            | .error _ => state.indicators)
        | none => state.indicators := by
  induction l with
  | nil => intro state _; rfl
  | cons e l ih =>
    intro state hnd
    obtain ⟨k, data⟩ := e
    simp only [List.map_cons, List.nodup_cons] at hnd
    rw [List.foldl_cons, ih _ hnd.2]
    by_cases hk : k = "KSI"
    · subst hk
      rw [GoMap.get_eq_none l "KSI" hnd.1]
      have hne : ¬ "KSI" = "FRD" := by decide
      simp only [GoMap.get, if_true, parseStep, hne, if_false]
      split <;> rfl
    · have hstep : (parseStep orders lex state (k, data)).indicators = state.indicators := by
        simp only [parseStep, hk, if_false]
        split
        · split <;> rfl
        · split <;> rfl
      simp only [GoMap.get, hk, if_false, hstep]

/-- C20: when `FetchAllDocuments` returned no error, `fetchData` produces a
`DataLoadedMsg` whatever the parsers return: its definitions are those of the
FRD document if `ParseDefinitions` succeeds on it (none otherwise), its
indicators those of the KSI document if `ParseIndicators` succeeds on it (none
otherwise), and its requirements the concatenation, over the fetched
documents in the order they are visited, of what `ParseRequirements` returns
for each other document on which it succeeds; a document on which its parser
fails contributes nothing and changes nothing else. -/
theorem fetchData_isolates_failures (orders : RangeOrders) (lex : Bytes → RawMessage)
    (docs : GoMap Bytes) (hmap : (docs.map Prod.fst).Nodup) :
    ∃ msg, fetchData orders lex (docs, none) = .dataLoaded msg ∧
      msg.Definitions =
        (match docs.get "FRD" with
          | some data =>
            (match ParseDefinitions (lex data) with
              | .ok defs => defs
              | .error _ => [])
          | none => []) ∧
      msg.Indicators =
        (match docs.get "KSI" with
          | some data =>
            (match ParseIndicators orders.themes (lex data) with
              | .ok inds => inds
              | .error _ => [])
          | none => []) ∧
      ∃ order : List (String × Bytes), order.Perm docs ∧
        msg.Requirements = (order.map (contributedRequirements orders lex)).flatten := by
  have hperm := orders.documents.perm docs
  have hnd : ((orders.documents.visit docs).map Prod.fst).Nodup :=
    (hperm.map Prod.fst).nodup_iff.mpr hmap
  refine ⟨_, fetchData_loaded orders lex docs, ?_, ?_, orders.documents.visit docs, hperm, ?_⟩
  · simp only
    rw [parseFold_definitions orders lex _ _ hnd, GoMap.get_perm _ _ hperm hmap]
  · simp only
    rw [parseFold_indicators orders lex _ _ hnd, GoMap.get_perm _ _ hperm hmap]
  · simp only
    rw [parseFold_requirements]
    rfl

/-- C20, witness: of four fetched documents FRD and UCM are malformed: the
message has no definitions, the one indicator of the KSI document, and the
requirements of VDR and UCM, UCM contributing none. -/
theorem fetchData_isolates_failures_witness :
    (sampleDocs.map Prod.fst).Nodup ∧
    ∃ msg, fetchData sampleOrders sampleLex (sampleDocs, none) = .dataLoaded msg ∧
      msg.Definitions = [] ∧
      msg.Indicators.map (fun ind => ind.ID) = ["KSI-AFR-01"] ∧
      ∃ order : List (String × Bytes), order.Perm sampleDocs ∧
        msg.Requirements = (order.map (contributedRequirements sampleOrders sampleLex)).flatten ∧
        contributedRequirements sampleOrders sampleLex ("UCM", [7]) = [] := by
  have hnd : (sampleDocs.map Prod.fst).Nodup := by decide
  obtain ⟨msg, hmsg, hdefs, hinds, order, hperm, hreqs⟩ :=
    fetchData_isolates_failures sampleOrders sampleLex sampleDocs hnd
  refine ⟨hnd, msg, hmsg, hdefs.trans rfl, ?_, order, hperm, hreqs, rfl⟩
  rw [hinds]
  rfl

/-- C19, the claim fails: 11 documents are fetched and the fetch of VDR fails;
`FetchAllDocuments` returns the 11 documents with the combined error, and
`fetchData` answers with the `ErrorMsg`, not with a `DataLoadedMsg`. -/
theorem fetchData_partial_is_error :
    (FetchAllDocuments sampleFetch (RangeOrder.stored DocumentMetadata)).1.length = 11 ∧
    fetchData sampleOrders sampleLex
        (FetchAllDocuments sampleFetch (RangeOrder.stored DocumentMetadata)) =
      .error ⟨⟨[⟨"VDR", .transport "connection refused"⟩]⟩⟩ ∧
    ¬ ∃ msg, fetchData sampleOrders sampleLex
        (FetchAllDocuments sampleFetch (RangeOrder.stored DocumentMetadata)) =
      .dataLoaded msg := by
  have h : fetchData sampleOrders sampleLex
      (FetchAllDocuments sampleFetch (RangeOrder.stored DocumentMetadata)) =
      .error ⟨⟨[⟨"VDR", .transport "connection refused"⟩]⟩⟩ := by decide
  refine ⟨by decide, h, ?_⟩
  rintro ⟨msg, hmsg⟩
  rw [h] at hmsg
  cases hmsg

/-- C19, as amended: `fetchData` answers with the `ErrorMsg`, carrying the
error of `FetchAllDocuments`, exactly when that error is non-nil, which is
exactly when at least one of the 12 fetches failed, whatever documents were
fetched besides; it answers with a `DataLoadedMsg` exactly when every fetch
succeeded. -/
theorem fetchData_error_iff (orders : RangeOrders) (lex : Bytes → RawMessage) :
    (∀ (docs : GoMap Bytes) (err : FetchAllError),
      fetchData orders lex (docs, some err) = .error ⟨err⟩) ∧
    (∀ docs : GoMap Bytes, ∃ msg, fetchData orders lex (docs, none) = .dataLoaded msg) ∧
    (∀ (fetch : String → Except FetchError Bytes) (schedule : RangeOrder DocumentMetadata),
      ((∃ msg, fetchData orders lex (FetchAllDocuments fetch schedule) = .error msg) ↔
        ∃ code meta cause, DocumentFiles.get code = some meta ∧
          fetch meta.Filename = .error cause) ∧
      ((∃ msg, fetchData orders lex (FetchAllDocuments fetch schedule) = .dataLoaded msg) ↔
        ∀ code meta, DocumentFiles.get code = some meta →
          ∃ data, fetch meta.Filename = .ok data)) := by
  refine ⟨fun _ _ => rfl, fun docs => ⟨_, fetchData_loaded orders lex docs⟩, ?_⟩
  intro fetch schedule
  have hiff := FetchAllDocuments_error_iff fetch schedule
  cases hres : FetchAllDocuments fetch schedule with
  | mk docs err =>
    rw [hres] at hiff
    cases err with
    | none =>
      have hnone : ¬ ∃ code meta cause, DocumentFiles.get code = some meta ∧
          fetch meta.Filename = .error cause := fun h => (hiff.mpr h) rfl
      constructor
      · constructor
        · rintro ⟨msg, hmsg⟩
          rw [fetchData_loaded] at hmsg
          cases hmsg
        · intro h
          exact absurd h hnone
      · constructor
        · intro _ code meta hget
          cases hf : fetch meta.Filename with
          | ok data => exact ⟨data, rfl⟩
          | error cause => exact absurd ⟨code, meta, cause, hget, hf⟩ hnone
        · intro _
          exact ⟨_, fetchData_loaded orders lex docs⟩
    | some e =>
      have hsome : ∃ code meta cause, DocumentFiles.get code = some meta ∧
          fetch meta.Filename = .error cause := hiff.mp (by simp)
      constructor
      · constructor
        · intro _
          exact hsome
        · intro _
          exact ⟨⟨e⟩, rfl⟩
      · constructor
        · rintro ⟨msg, hmsg⟩
          cases hmsg
        · intro hall
          obtain ⟨code, meta, cause, hget, hf⟩ := hsome
          obtain ⟨data, hd⟩ := hall code meta hget
          rw [hf] at hd
          cases hd

theorem ParseRequirements_sampleVDR :
    ParseRequirements (RangeOrder.stored RequirementCategory) (sampleLex [3]) "VDR" =
      .ok [{ ID := "VDR-1", DocumentCode := "VDR", Statement := "x", Name := "",
             Impact := ⟨false, false, false⟩, Affects := [], PrimaryKeyWord := "",
             Note := "" }] := by
  have hlex : sampleLex [3] =
      .value (.obj [("FRR", .obj [("VDR", .obj sampleSingleCategory)])]) := rfl
  have hleaf : (RequirementJSON.mk "VDR-1" "x" "" ImpactJSON.zero [] "" "" [] .empty).children
      = [] := rfl
  have hfresh : (RequirementJSON.mk "VDR-1" "x" "" ImpactJSON.zero [] "" "" [] .empty).Fresh :=
    rfl
  rw [hlex, ParseRequirements_section (RangeOrder.stored RequirementCategory)
    [("FRR", .obj [("VDR", .obj sampleSingleCategory)])]
    [("VDR", .obj sampleSingleCategory)] "VDR" rfl]
  have hdoc : Json.lookup [("VDR", Json.obj sampleSingleCategory)] "VDR" =
      some (.obj sampleSingleCategory) := rfl
  have hmap : decodeMap decodeRequirementCategory RequirementCategory.zero []
      (.obj sampleSingleCategory) = .error .unmarshalTypeError := rfl
  have hcat : decodeRequirementCategory RequirementCategory.zero (.obj sampleSingleCategory) =
      .ok sampleSingleCategoryDecoded := rfl
  simp only [hdoc, hmap, hcat, sampleSingleCategoryDecoded, RequirementJSON.zero]
  rw [extractRequirements_fresh_cons _ _ _ hfresh, hleaf, extractRequirements_nil]
  rfl

/-- C13, witness: a pass over `sampleDocs`, in which the FRD and UCM bytes are
malformed, the KSI document holds one indicator and the VDR document one
requirement: the entries come in display order, KSI and VDR count 1 and every
other entry counts 0. -/
theorem fetchData_counts_witness :
    (∃ msg, fetchData sampleOrders sampleLex (sampleDocs, none) = .dataLoaded msg ∧
      msg.Documents.map (fun d => d.Code) = DocumentOrder ∧
      ∀ d ∈ msg.Documents,
        d.RequirementCount =
          if d.Code = "FRD" then (msg.Definitions.length : Int)
          else if d.Code = "KSI" then (msg.Indicators.length : Int)
          else ((msg.Requirements.filter fun r => r.DocumentCode = d.Code).length : Int)) ∧
    ∃ msg, fetchData sampleOrders sampleLex (sampleDocs, none) = .dataLoaded msg ∧
      msg.Documents.map (fun d => (d.Code, d.RequirementCount)) =
        [("FRD", 0), ("KSI", 1), ("VDR", 1), ("UCM", 0), ("RSC", 0), ("ADS", 0), ("CCM", 0),
         ("FSI", 0), ("ICP", 0), ("MAS", 0), ("PVA", 0), ("SCN", 0)] ∧
      msg.Requirements.map (fun r => (r.ID, r.DocumentCode)) = [("VDR-1", "VDR")] ∧
      msg.Definitions = [] ∧
      msg.Indicators.map (fun ind => ind.ID) = ["KSI-AFR-01"] := by
  refine ⟨fetchData_counts sampleOrders sampleLex sampleDocs, ?_⟩
  have hvdr := ParseRequirements_sampleVDR
  have h1 : parseStep sampleOrders sampleLex ⟨[], [], []⟩ ("FRD", [7]) = ⟨[], [], []⟩ := rfl
  have h2 : parseStep sampleOrders sampleLex ⟨[], [], []⟩ ("KSI", [2]) =
      ⟨[], [], (sampleThemes.map fun entry =>
        entry.2.Indicators.map (Indicator.ofJSON entry.1 entry.2)).flatten⟩ := rfl
  have h3 : ∀ inds, parseStep sampleOrders sampleLex ⟨[], [], inds⟩ ("VDR", [3]) =
      ⟨[{ ID := "VDR-1", DocumentCode := "VDR", Statement := "x", Name := "",
          Impact := ⟨false, false, false⟩, Affects := [], PrimaryKeyWord := "",
          Note := "" }], [], inds⟩ := by
    intro inds
    have hfrd : ¬ "VDR" = "FRD" := by decide
    have hksi : ¬ "VDR" = "KSI" := by decide
    have hord : sampleOrders.categories "VDR" = RangeOrder.stored RequirementCategory := rfl
    simp only [parseStep, hfrd, hksi, if_false, hord, hvdr, List.nil_append]
  have h4 : ∀ state, parseStep sampleOrders sampleLex state ("UCM", [7]) = state := by
    intro state
    rfl
  have hfold : (sampleOrders.documents.visit sampleDocs).foldl
      (parseStep sampleOrders sampleLex) ⟨[], [], []⟩ =
      ⟨[{ ID := "VDR-1", DocumentCode := "VDR", Statement := "x", Name := "",
          Impact := ⟨false, false, false⟩, Affects := [], PrimaryKeyWord := "",
          Note := "" }], [], (sampleThemes.map fun entry =>
        entry.2.Indicators.map (Indicator.ofJSON entry.1 entry.2)).flatten⟩ := by
    show List.foldl (parseStep sampleOrders sampleLex) ⟨[], [], []⟩
      [("FRD", [7]), ("KSI", [2]), ("VDR", [3]), ("UCM", [7])] = _
    simp only [List.foldl_cons, List.foldl_nil, h1, h2, h3, h4]
  have hload := fetchData_loaded sampleOrders sampleLex sampleDocs
  rw [hfold] at hload
  refine ⟨_, hload, ?_, rfl, rfl, rfl⟩
  decide

/-! ### `ParseRequirements`: when it fails -/

/-- C29: `ParseRequirements` returns an error exactly when the payload does
not decode as a top-level map from keys to raw values, or the value under
`FRR` is present and does not decode as such a map. A section `FRR[docCode]`
that decodes neither as a map of categories nor as a single category gives no
error and no requirement; the section `{"requirements":[{"id":5}]}` of
`sampleNeitherShape` is one. -/
theorem ParseRequirements_error_iff (range : RangeOrder RequirementCategory)
    (data : RawMessage) (docCode : String) :
    ((∃ e, ParseRequirements range data docCode = .error e) ↔
      ((∃ e, jsonUnmarshal decodeRawMap data [] = .error e) ∨
        ∃ rawDoc frrData e, jsonUnmarshal decodeRawMap data [] = .ok rawDoc ∧
          rawDoc.get "FRR" = some frrData ∧
          jsonUnmarshal decodeRawMap frrData [] = .error e)) ∧
    (∀ rawDoc frrData frr docData e1 e2,
      jsonUnmarshal decodeRawMap data [] = .ok rawDoc →
      rawDoc.get "FRR" = some frrData →
      jsonUnmarshal decodeRawMap frrData [] = .ok frr →
      frr.get docCode = some docData →
      jsonUnmarshal (decodeMap decodeRequirementCategory RequirementCategory.zero)
        docData [] = .error e1 →
      jsonUnmarshal decodeRequirementCategory docData RequirementCategory.zero = .error e2 →
      ParseRequirements range data docCode = .ok []) ∧
    ((∃ e1, decodeMap decodeRequirementCategory RequirementCategory.zero []
        (.obj [("requirements", .arr [.obj [("id", .num "5")]])]) = .error e1) ∧
      (∃ e2, decodeRequirementCategory RequirementCategory.zero
        (.obj [("requirements", .arr [.obj [("id", .num "5")]])]) = .error e2) ∧
      ParseRequirements range (.value (.obj sampleNeitherShape)) "VDR" = .ok []) := by
  refine ⟨⟨?_, ?_⟩, ?_, ⟨_, rfl⟩, ⟨_, rfl⟩, ?_⟩
  · rintro ⟨e, he⟩
    unfold ParseRequirements at he
    split at he
    · rename_i e0 h0
      exact Or.inl ⟨e0, h0⟩
    · rename_i rawDoc h0
      split at he
      · cases he
      · rename_i frrData h1
        split at he
        · rename_i e1 h2
          exact Or.inr ⟨rawDoc, frrData, e1, h0, h1, h2⟩
        · split at he
          · cases he
          · split at he
            · split at he <;> cases he
            · cases he
  · rintro (⟨e, he⟩ | ⟨rawDoc, frrData, e, h0, h1, h2⟩)
    · exact ⟨.json e, by simp only [ParseRequirements, he]⟩
    · exact ⟨.json e, by simp only [ParseRequirements, h0, h1, h2]⟩
  · intro rawDoc frrData frr docData e1 e2 h0 h1 h2 h3 h4 h5
    simp only [ParseRequirements, h0, h1, h2, h3, h4, h5]
  · rw [ParseRequirements_section range sampleNeitherShape
      [("VDR", .obj [("requirements", .arr [.obj [("id", .num "5")]])])] "VDR" rfl]
    rfl

/-! ### `ParseDocumentInfo` and `EnrichDocument` -/

theorem decodeMembers_skip {α : Type} (setField : α → String → Json → Except JsonError α)
    (ms : List (String × Json)) (h : ∀ m ∈ ms, ∀ a, setField a m.1 m.2 = .ok a) (cur : α) :
    decodeMembers setField cur ms = .ok cur := by
  induction ms with
  | nil => rfl
  | cons e ms ih =>
    obtain ⟨k, v⟩ := e
    simp only [decodeMembers, h (k, v) (List.mem_cons_self _ _) cur]
    exact ih fun m hm => h m (List.mem_cons_of_mem _ hm)

theorem ParseDocumentInfo_no_info (members : List (String × Json))
    (hm : ∀ m ∈ members, foldName m.1 ≠ "INFO") :
    ParseDocumentInfo (.value (.obj members)) = .ok DocumentInfo.zero := by
  have h := decodeMembers_skip infoEnvelopeSetField members (fun m hmem a => by
    have hne := hm m hmem
    unfold infoEnvelopeSetField
    split
    · exact absurd (by assumption) hne
    · rfl) DocumentInfo.zero
  simp only [ParseDocumentInfo, jsonUnmarshal, decodeStruct, h]

theorem decodeMembers_frame {α β : Type} (setField : α → String → Json → Except JsonError α)
    (proj : α → β) (ms : List (String × Json))
    (h : ∀ m ∈ ms, ∀ a b, setField a m.1 m.2 = .ok b → proj b = proj a) :
    ∀ cur out, decodeMembers setField cur ms = .ok out → proj out = proj cur := by
  induction ms with
  | nil =>
    intro cur out hd
    simp only [decodeMembers] at hd
    cases hd
    rfl
  | cons e ms ih =>
    intro cur out hd
    obtain ⟨k, v⟩ := e
    simp only [decodeMembers] at hd
    split at hd
    · cases hd
    · rename_i next hnext
      rw [ih (fun m hm => h m (List.mem_cons_of_mem _ hm)) next out hd]
      exact h (k, v) (List.mem_cons_self _ _) cur next hnext

/-- Decoding an object that lacks the section `field :: rest` into a struct
leaves the part `proj` of the struct as it was, when members selecting other
fields never touch that part and a member selecting `field` touches it only
through a value that has the section `rest`. -/
theorem decodeStruct_lacks {α β : Type} (setField : α → String → Json → Except JsonError α)
    (proj : α → β) (field : String) (rest : List String)
    (hother : ∀ a k v b, foldName k ≠ field → setField a k v = .ok b → proj b = proj a)
    (hfield : ∀ a k v b, foldName k = field → Json.lacks rest v = true →
      setField a k v = .ok b → proj b = proj a)
    (cur : α) (v : Json) (out : α) (h : decodeStruct setField cur v = .ok out)
    (hl : Json.lacks (field :: rest) v = true) : proj out = proj cur := by
  unfold decodeStruct at h
  split at h
  · rename_i members
    refine decodeMembers_frame setField proj members ?_ cur out h
    intro m hm a b hset
    simp only [Json.lacks, List.all_eq_true, Bool.or_eq_true, Bool.not_eq_true',
      beq_eq_false_iff_ne, ne_eq] at hl
    rcases hl m hm with hne | hrest
    · exact hother a m.1 m.2 b hne hset
    · by_cases hk : foldName m.1 = field
      · exact hfield a m.1 m.2 b hk hrest hset
      · exact hother a m.1 m.2 b hk hset
  · cases h
    rfl
  · cases h

theorem Json.lacks_nil (v : Json) : Json.lacks [] v = false := by
  cases v <;> rfl

theorem frontMatter_decode_lacks (cur : FrontMatter) (v : Json) (out : FrontMatter)
    (h : decodeStruct FrontMatter.setField cur v = .ok out) :
    (Json.lacks ["AUTHORITY"] v = true → out.Authority = cur.Authority) ∧
    (Json.lacks ["PURPOSE"] v = true → out.Purpose = cur.Purpose) ∧
    (Json.lacks ["EXPECTED_OUTCOMES"] v = true →
      out.ExpectedOutcomes = cur.ExpectedOutcomes) := by
  refine ⟨fun hl => decodeStruct_lacks _ (fun x => x.Authority) "AUTHORITY" [] ?_ ?_ cur v out h hl,
    fun hl => decodeStruct_lacks _ (fun x => x.Purpose) "PURPOSE" [] ?_ ?_ cur v out h hl,
    fun hl => decodeStruct_lacks _ (fun x => x.ExpectedOutcomes) "EXPECTED_OUTCOMES" []
      ?_ ?_ cur v out h hl⟩
  all_goals
    first
    | (intro a k w b _ hw _
       rw [Json.lacks_nil] at hw
       cases hw)
    | (intro a k w b hk hset
       unfold FrontMatter.setField at hset
       split at hset <;>
         first
         | exact absurd (by assumption) hk
         | (cases hset; rfl)
         | (simp only [Except.map] at hset
            split at hset <;> cases hset
            rfl))

theorem documentInfo_decode_lacks (cur : DocumentInfo) (v : Json) (out : DocumentInfo)
    (h : decodeDocumentInfo cur v = .ok out) :
    (Json.lacks ["NAME"] v = true → out.Name = cur.Name) ∧
    (Json.lacks ["SHORT_NAME"] v = true → out.ShortName = cur.ShortName) ∧
    (Json.lacks ["EFFECTIVE"] v = true → out.Effective = cur.Effective) ∧
    (Json.lacks ["RELEASES"] v = true → out.Releases = cur.Releases) ∧
    (Json.lacks ["FRONT_MATTER"] v = true → out.FrontMatter = cur.FrontMatter) ∧
    (Json.lacks ["FRONT_MATTER", "AUTHORITY"] v = true →
      out.FrontMatter.Authority = cur.FrontMatter.Authority) ∧
    (Json.lacks ["FRONT_MATTER", "PURPOSE"] v = true →
      out.FrontMatter.Purpose = cur.FrontMatter.Purpose) ∧
    (Json.lacks ["FRONT_MATTER", "EXPECTED_OUTCOMES"] v = true →
      out.FrontMatter.ExpectedOutcomes = cur.FrontMatter.ExpectedOutcomes) := by
  unfold decodeDocumentInfo at h
  refine ⟨fun hl => decodeStruct_lacks _ (fun x => x.Name) "NAME" [] ?_ ?_ cur v out h hl,
    fun hl => decodeStruct_lacks _ (fun x => x.ShortName) "SHORT_NAME" [] ?_ ?_ cur v out h hl,
    fun hl => decodeStruct_lacks _ (fun x => x.Effective) "EFFECTIVE" [] ?_ ?_ cur v out h hl,
    fun hl => decodeStruct_lacks _ (fun x => x.Releases) "RELEASES" [] ?_ ?_ cur v out h hl,
    fun hl => decodeStruct_lacks _ (fun x => x.FrontMatter) "FRONT_MATTER" [] ?_ ?_
      cur v out h hl,
    fun hl => decodeStruct_lacks _ (fun x => x.FrontMatter.Authority) "FRONT_MATTER"
      ["AUTHORITY"] ?_ ?_ cur v out h hl,
    fun hl => decodeStruct_lacks _ (fun x => x.FrontMatter.Purpose) "FRONT_MATTER"
      ["PURPOSE"] ?_ ?_ cur v out h hl,
    fun hl => decodeStruct_lacks _ (fun x => x.FrontMatter.ExpectedOutcomes) "FRONT_MATTER"
      ["EXPECTED_OUTCOMES"] ?_ ?_ cur v out h hl⟩
  all_goals
    first
    | (intro a k w b _ hw _
       rw [Json.lacks_nil] at hw
       cases hw)
    | (intro a k w b hk hw hset
       unfold DocumentInfo.setField at hset
       split at hset <;>
         first
         | (rename_i heq
            rw [hk] at heq
            exact absurd heq (by decide))
         | (simp only [Except.map] at hset
            split at hset
            · cases hset
            · rename_i y hy
              cases hset
              first
              | exact (frontMatter_decode_lacks _ _ _ hy).1 hw
              | exact (frontMatter_decode_lacks _ _ _ hy).2.1 hw
              | exact (frontMatter_decode_lacks _ _ _ hy).2.2 hw))
    | (intro a k w b hk hset
       unfold DocumentInfo.setField at hset
       split at hset <;>
         first
         | exact absurd (by assumption) hk
         | (cases hset; rfl)
         | (simp only [Except.map] at hset
            split at hset <;> cases hset
            rfl))

theorem infoEnvelope_decode_lacks (cur : DocumentInfo) (v : Json) (out : DocumentInfo)
    (h : decodeStruct infoEnvelopeSetField cur v = .ok out) :
    (Json.lacks ["INFO", "NAME"] v = true → out.Name = cur.Name) ∧
    (Json.lacks ["INFO", "SHORT_NAME"] v = true → out.ShortName = cur.ShortName) ∧
    (Json.lacks ["INFO", "EFFECTIVE"] v = true → out.Effective = cur.Effective) ∧
    (Json.lacks ["INFO", "RELEASES"] v = true → out.Releases = cur.Releases) ∧
    (Json.lacks ["INFO", "FRONT_MATTER"] v = true → out.FrontMatter = cur.FrontMatter) ∧
    (Json.lacks ["INFO", "FRONT_MATTER", "AUTHORITY"] v = true →
      out.FrontMatter.Authority = cur.FrontMatter.Authority) ∧
    (Json.lacks ["INFO", "FRONT_MATTER", "PURPOSE"] v = true →
      out.FrontMatter.Purpose = cur.FrontMatter.Purpose) ∧
    (Json.lacks ["INFO", "FRONT_MATTER", "EXPECTED_OUTCOMES"] v = true →
      out.FrontMatter.ExpectedOutcomes = cur.FrontMatter.ExpectedOutcomes) := by
  refine ⟨fun hl => decodeStruct_lacks _ (fun x => x.Name) "INFO" ["NAME"] ?_ ?_ cur v out h hl,
    fun hl => decodeStruct_lacks _ (fun x => x.ShortName) "INFO" ["SHORT_NAME"] ?_ ?_
      cur v out h hl,
    fun hl => decodeStruct_lacks _ (fun x => x.Effective) "INFO" ["EFFECTIVE"]
      ?_ ?_ cur v out h hl,
    fun hl => decodeStruct_lacks _ (fun x => x.Releases) "INFO" ["RELEASES"] ?_ ?_ cur v out h hl,
    fun hl => decodeStruct_lacks _ (fun x => x.FrontMatter) "INFO" ["FRONT_MATTER"] ?_ ?_
      cur v out h hl,
    fun hl => decodeStruct_lacks _ (fun x => x.FrontMatter.Authority) "INFO"
      ["FRONT_MATTER", "AUTHORITY"] ?_ ?_ cur v out h hl,
    fun hl => decodeStruct_lacks _ (fun x => x.FrontMatter.Purpose) "INFO"
      ["FRONT_MATTER", "PURPOSE"] ?_ ?_ cur v out h hl,
    fun hl => decodeStruct_lacks _ (fun x => x.FrontMatter.ExpectedOutcomes) "INFO"
      ["FRONT_MATTER", "EXPECTED_OUTCOMES"] ?_ ?_ cur v out h hl⟩
  all_goals
    first
    | (intro a k w b hk hw hset
       unfold infoEnvelopeSetField at hset
       split at hset
       · first
         | exact (documentInfo_decode_lacks _ _ _ hset).1 hw
         | exact (documentInfo_decode_lacks _ _ _ hset).2.1 hw
         | exact (documentInfo_decode_lacks _ _ _ hset).2.2.1 hw
         | exact (documentInfo_decode_lacks _ _ _ hset).2.2.2.1 hw
         | exact (documentInfo_decode_lacks _ _ _ hset).2.2.2.2.1 hw
         | exact (documentInfo_decode_lacks _ _ _ hset).2.2.2.2.2.1 hw
         | exact (documentInfo_decode_lacks _ _ _ hset).2.2.2.2.2.2.1 hw
         | exact (documentInfo_decode_lacks _ _ _ hset).2.2.2.2.2.2.2 hw
       · cases hset
         rfl)
    | (intro a k w b hk hset
       unfold infoEnvelopeSetField at hset
       split at hset
       · exact absurd (by assumption) hk
       · cases hset
         rfl)

theorem GetDocumentMetadata_fresh :
    ∀ d ∈ GetDocumentMetadata,
      d.Purpose = "" ∧ d.ExpectedOutcomes = [] ∧ d.Authority = [] ∧ d.Releases = [] ∧
        d.EffectiveInfo = [] := by decide

theorem EnrichDocument_fields (range : RangeOrder EffectiveInfo) (doc : Document)
    (info : DocumentInfo) :
    (EnrichDocument range doc (some info)).Purpose = info.FrontMatter.Purpose ∧
    (EnrichDocument range doc (some info)).ExpectedOutcomes =
      info.FrontMatter.ExpectedOutcomes ∧
    (info.FrontMatter.Authority = [] →
      (EnrichDocument range doc (some info)).Authority = doc.Authority) ∧
    (info.Releases = [] → (EnrichDocument range doc (some info)).Releases = doc.Releases) ∧
    (info.Effective = [] →
      (EnrichDocument range doc (some info)).EffectiveInfo = doc.EffectiveInfo) := by
  simp only [EnrichDocument]
  split
  · rename_i hpos
    refine ⟨rfl, rfl, fun h => by simp only [h, List.foldl_nil],
      fun h => by simp only [h, List.foldl_nil], fun h => ?_⟩
    rw [h] at hpos
    exact absurd hpos (by decide)
  · exact ⟨rfl, rfl, fun h => by simp only [h, List.foldl_nil],
      fun h => by simp only [h, List.foldl_nil], fun _ => rfl⟩

/-- C22, counterexample: the documents `{"info":5}` and
`{"info":{"releases":"none"}}` are JSON objects, and `ParseDocumentInfo`
returns the type error of `json.Unmarshal` for each. -/
theorem ParseDocumentInfo_wrong_type :
    ParseDocumentInfo (.value (.obj [("info", .num "5")]))
        = .error (.json .unmarshalTypeError) ∧
      ParseDocumentInfo (.value (.obj [("info", .obj [("releases", .str "none")])]))
        = .error (.json .unmarshalTypeError) :=
  ⟨rfl, rfl⟩

/-! ### The filters of the requirements list -/

theorem getRequirementItems_fold (documentFilter keywordFilter affectsFilter : String)
    (l : List Requirement) :
    ∀ items : List Item,
      l.foldl
        (fun items r =>
          if documentFilter ≠ "" ∧ r.DocumentCode ≠ documentFilter then items
          else if keywordFilter ≠ "" ∧ r.PrimaryKeyWord ≠ keywordFilter then items
          else if affectsFilter ≠ "" ∧ (r.Affects.any fun a => a == affectsFilter) = false then
            items
          else items ++ [.RequirementItem r])
        items =
      items ++ (l.filter fun r =>
        decide (passesFilters documentFilter keywordFilter affectsFilter r)).map
          .RequirementItem := by
  induction l with
  | nil => intro items; simp
  | cons r l ih =>
    intro items
    rw [List.foldl_cons, ih]
    have hany : (r.Affects.any fun a => a == affectsFilter) = false ↔
        affectsFilter ∉ r.Affects := by
      rw [List.any_eq_false]
      constructor
      · intro h hmem
        exact h affectsFilter hmem (by simp)
      · intro h a ha hbeq
        have : a = affectsFilter := by simpa using hbeq
        exact h (this ▸ ha)
    by_cases hd : documentFilter ≠ "" ∧ r.DocumentCode ≠ documentFilter
    · have hp : ¬ passesFilters documentFilter keywordFilter affectsFilter r := by
        rintro ⟨h1, _, _⟩
        rcases h1 with h1 | h1
        · exact hd.1 h1
        · exact hd.2 h1
      simp only [if_pos hd, List.filter_cons, decide_eq_true_eq, if_neg hp]
    · by_cases hk : keywordFilter ≠ "" ∧ r.PrimaryKeyWord ≠ keywordFilter
      · have hp : ¬ passesFilters documentFilter keywordFilter affectsFilter r := by
          rintro ⟨_, h2, _⟩
          rcases h2 with h2 | h2
          · exact hk.1 h2
          · exact hk.2 h2
        simp only [if_neg hd, if_pos hk, List.filter_cons, decide_eq_true_eq, if_neg hp]
      · by_cases ha : affectsFilter ≠ "" ∧
            (r.Affects.any fun a => a == affectsFilter) = false
        · have hp : ¬ passesFilters documentFilter keywordFilter affectsFilter r := by
            rintro ⟨_, _, h3⟩
            rcases h3 with h3 | h3
            · exact ha.1 h3
            · exact (hany.mp ha.2) h3
          simp only [if_neg hd, if_neg hk, if_pos ha, List.filter_cons, decide_eq_true_eq,
            if_neg hp]
        · have hp : passesFilters documentFilter keywordFilter affectsFilter r := by
            refine ⟨?_, ?_, ?_⟩
            · by_cases h : documentFilter = ""
              · exact Or.inl h
              · exact Or.inr (not_not.mp fun h2 => hd ⟨h, h2⟩)
            · by_cases h : keywordFilter = ""
              · exact Or.inl h
              · exact Or.inr (not_not.mp fun h2 => hk ⟨h, h2⟩)
            · by_cases h : affectsFilter = ""
              · exact Or.inl h
              · exact Or.inr (not_not.mp fun h2 => ha ⟨h, hany.mpr h2⟩)
          simp only [if_neg hd, if_neg hk, if_neg ha, List.filter_cons, decide_eq_true_eq,
            if_pos hp, List.map_cons, List.append_assoc, List.singleton_append]

/-- C23: for every model state `getRequirementItems` returns the items of the
requirements that pass the three filters, in the order of `m.requirements`: a
requirement passes when the document filter is empty or equals its document
code, the keyword filter is empty or equals its primary key word, and the
affects filter is empty or occurs in its `Affects`. With no filter set every
requirement is returned. Of VDR-1, VDR-2 and UCM-1 the document filter `VDR`
keeps the two items with code VDR. -/
theorem getRequirementItems_filter {B : Components} (m : Model B) :
    m.getRequirementItems =
        (m.requirements.filter fun r =>
          decide (passesFilters m.documentFilter m.keywordFilter m.affectsFilter r)).map
            .RequirementItem ∧
      (m.documentFilter = "" → m.keywordFilter = "" → m.affectsFilter = "" →
        m.getRequirementItems = m.requirements.map .RequirementItem) ∧
      ({ sampleLoaded with documentFilter := "VDR" }).getRequirementItems =
        [.RequirementItem (sampleRequirement "VDR-1" "VDR" "MUST"),
         .RequirementItem (sampleRequirement "VDR-2" "VDR" "SHOULD")] := by
  have h : m.getRequirementItems =
      (m.requirements.filter fun r =>
        decide (passesFilters m.documentFilter m.keywordFilter m.affectsFilter r)).map
          .RequirementItem := by
    unfold Model.getRequirementItems
    rw [getRequirementItems_fold]
    rfl
  refine ⟨h, ?_, by decide⟩
  intro hd hk ha
  rw [h]
  congr 1
  apply List.filter_eq_self.mpr
  intro r _
  exact decide_eq_true ⟨Or.inl hd, Or.inl hk, Or.inl ha⟩

/-! ### `Update`: keys in the detail view -/

theorem keyString_named (msg : KeyMsg) (name : String) (h : msg.type ≠ .KeyRunes)
    (hname : keyNames msg.type = some name) :
    msg.String = name ∨ msg.String = "alt+" ++ name := by
  obtain ⟨t, runes, alt, paste⟩ := msg
  have ht : t ≠ .KeyRunes := h
  have hn : keyNames t = some name := hname
  cases alt
  · left
    simp [KeyMsg.String, ht, hn]
  · right
    simp [KeyMsg.String, ht, hn]

theorem keyString_enter (msg : KeyMsg) (h : msg.type = .KeyEnter) : msg.String ≠ "q" := by
  rcases keyString_named msg "enter" (by rw [h]; decide) (by rw [h]; rfl) with hs | hs <;>
    rw [hs] <;> decide

theorem Update_detail_back {B : Components} (m : Model B) (msg : KeyMsg)
    (hview : m.view = .ViewDetail)
    (hkey : msg.type = .KeyEsc ∨ msg.type = .KeyBackspace ∨ msg.String = "q") :
    Update m (.key msg) =
      (({ m with view := m.previousView, viewportReady := false }).updateListForView,
        .nil) := by
  have hcond : msg.type = .KeyEsc ∨ msg.type = .KeyBackspace ∨ msg.type = .KeyEsc ∨
      msg.String = "q" := by
    rcases hkey with h | h | h
    · exact Or.inl h
    · exact Or.inr (Or.inl h)
    · exact Or.inr (Or.inr (Or.inr h))
  simp only [Update, hview, if_true, Update.detailKeys, if_pos hcond]

theorem Update_detail_enter_eq {B : Components} (m : Model B) (msg : KeyMsg) (next : Model B)
    (hview : m.view = .ViewDetail) (hkey : msg.type = .KeyEnter)
    (hnext : Update.detailEnter m = some next) :
    Update m (.key msg) = (next, .nil) := by
  have hcond : ¬ (msg.type = .KeyEsc ∨ msg.type = .KeyBackspace ∨ msg.type = .KeyEsc ∨
      msg.String = "q") := by
    rintro (h | h | h | h)
    · rw [hkey] at h; cases h
    · rw [hkey] at h; cases h
    · rw [hkey] at h; cases h
    · exact keyString_enter msg hkey h
  simp only [Update, hview, if_true, Update.detailKeys, if_neg hcond]
  simp only [hkey, if_true, hnext]

theorem updateListForView_frame {B : Components} (m : Model B) :
    m.updateListForView.view = m.view ∧
    m.updateListForView.previousView = m.previousView ∧
    m.updateListForView.viewportReady = m.viewportReady ∧
    m.updateListForView.documentFilter = m.documentFilter ∧
    m.updateListForView.keywordFilter = m.keywordFilter ∧
    m.updateListForView.affectsFilter = m.affectsFilter ∧
    m.updateListForView.documents = m.documents ∧
    m.updateListForView.requirements = m.requirements ∧
    m.updateListForView.definitions = m.definitions ∧
    m.updateListForView.indicators = m.indicators :=
  ⟨rfl, rfl, rfl, rfl, rfl, rfl, rfl, rfl, rfl, rfl⟩

/-- C24: in the detail view with a document entry selected, `Update` on a key
of type Enter returns no command and leaves the detail view: for the code
`FRD` the view is `ViewDefinitions` and the document filter empty, for `KSI`
the view is `ViewIndicators` and the document filter empty, for every other
code the view is `ViewRequirements` and the document filter that code. -/
theorem Update_detail_enter {B : Components} (m : Model B) (msg : KeyMsg) (doc : Document)
    (hview : m.view = .ViewDetail) (hkey : msg.type = .KeyEnter)
    (hsel : m.selectedItem = some (.DocumentItem doc)) :
    (Update m (.key msg)).2 = .nil ∧
    (doc.Code = "FRD" →
      (Update m (.key msg)).1.view = .ViewDefinitions ∧
        (Update m (.key msg)).1.documentFilter = "") ∧
    (doc.Code = "KSI" →
      (Update m (.key msg)).1.view = .ViewIndicators ∧
        (Update m (.key msg)).1.documentFilter = "") ∧
    (doc.Code ≠ "FRD" → doc.Code ≠ "KSI" →
      (Update m (.key msg)).1.view = .ViewRequirements ∧
        (Update m (.key msg)).1.documentFilter = doc.Code) := by
  have hnext : Update.detailEnter m =
      some ({ (if doc.Code = "FRD" then
                { m with view := .ViewDefinitions, documentFilter := "" }
              else if doc.Code = "KSI" then
                { m with view := .ViewIndicators, documentFilter := "" }
              else { m with view := .ViewRequirements, documentFilter := doc.Code } : Model B)
        with viewportReady := false }).updateListForView := by
    simp only [Update.detailEnter, hsel]
  rw [Update_detail_enter_eq m msg _ hview hkey hnext]
  refine ⟨rfl, ?_, ?_, ?_⟩
  · intro hc
    simp only [hc, if_true]
    exact ⟨rfl, rfl⟩
  · intro hc
    have hne : ¬ "KSI" = "FRD" := by decide
    simp only [hc, hne, if_true, if_false]
    exact ⟨rfl, rfl⟩
  · intro h1 h2
    simp only [h1, h2, if_false]
    exact ⟨rfl, rfl⟩

/-- C24, witness: as in `TestEnterKeyInDetailView`, Enter in the detail view
of the document VDR gives the requirements view filtered by `VDR`. -/
theorem Update_detail_enter_witness :
    (Update sampleDetail (.key (keyOfType .KeyEnter))).1.view = .ViewRequirements ∧
      (Update sampleDetail (.key (keyOfType .KeyEnter))).1.documentFilter = "VDR" :=
  (Update_detail_enter sampleDetail (keyOfType .KeyEnter)
    (sampleDocument "VDR" "Vulnerability Detection and Response") rfl rfl rfl).2.2.2
    (by decide) (by decide)

/-- C25: in the detail view `Update` on Esc, Backspace or a key whose string
is `q` sets the view to `previousView`, returns no command, and leaves the
documents, requirements, definitions, indicators and the three filters as
they were. -/
theorem Update_back_navigation {B : Components} (m : Model B) (msg : KeyMsg)
    (hview : m.view = .ViewDetail)
    (hkey : msg.type = .KeyEsc ∨ msg.type = .KeyBackspace ∨ msg.String = "q") :
    (Update m (.key msg)).1.view = m.previousView ∧
    (Update m (.key msg)).2 = .nil ∧
    (Update m (.key msg)).1.documents = m.documents ∧
    (Update m (.key msg)).1.requirements = m.requirements ∧
    (Update m (.key msg)).1.definitions = m.definitions ∧
    (Update m (.key msg)).1.indicators = m.indicators ∧
    (Update m (.key msg)).1.documentFilter = m.documentFilter ∧
    (Update m (.key msg)).1.keywordFilter = m.keywordFilter ∧
    (Update m (.key msg)).1.affectsFilter = m.affectsFilter := by
  rw [Update_detail_back m msg hview hkey]
  exact ⟨rfl, rfl, rfl, rfl, rfl, rfl, rfl, rfl, rfl⟩

/-- C25, witness: from the detail view opened on the home list, the key `q`
leads back to the home view and does not quit. -/
theorem Update_back_navigation_witness :
    (Update sampleDetail (.key (keyRunes "q"))).1.view = .ViewHome ∧
      (Update sampleDetail (.key (keyRunes "q"))).2 = .nil :=
  ⟨(Update_back_navigation sampleDetail (keyRunes "q") rfl (Or.inr (Or.inr rfl))).1,
    (Update_back_navigation sampleDetail (keyRunes "q") rfl (Or.inr (Or.inr rfl))).2.1⟩

/-! ### `Update`: keys in the list views -/

theorem Update_list_keys {B : Components} (m : Model B) (msg : KeyMsg)
    (hview : m.view ≠ .ViewDetail) (hfilter : B.listFilterState m.list ≠ .Filtering) :
    Update m (.key msg) =
      match Update.keySwitch m msg with
      | (m, some cmd) => (m, cmd)
      | (m, none) => Update.passToList m (.key msg) := by
  simp only [Update, if_neg hview, if_neg hfilter]

theorem passToList_frame {B : Components} (m : Model B) (msg : Msg B.Tick B.Other) :
    (Update.passToList m msg).1.view = m.view ∧
    (Update.passToList m msg).1.previousView = m.previousView ∧
    (Update.passToList m msg).1.viewportReady = m.viewportReady ∧
    (Update.passToList m msg).1.keywordFilter = m.keywordFilter := by
  unfold Update.passToList
  split <;> exact ⟨rfl, rfl, rfl, rfl⟩

theorem keySwitch_view_keys {B : Components} (m : Model B) (msg : KeyMsg)
    (hview : m.view ≠ .ViewDetail) :
    (msg.String = "1" → Update.keySwitch m msg =
      (({ m with view := .ViewHome, documentFilter := "",
                 keywordFilter := "" }).updateListForView, none)) ∧
    (msg.String = "2" → Update.keySwitch m msg =
      (({ m with view := .ViewRequirements }).updateListForView, none)) ∧
    (msg.String = "3" → Update.keySwitch m msg =
      (({ m with view := .ViewDefinitions }).updateListForView, none)) ∧
    (msg.String = "4" → Update.keySwitch m msg =
      (({ m with view := .ViewIndicators }).updateListForView, none)) := by
  refine ⟨fun h => ?_, fun h => ?_, fun h => ?_, fun h => ?_⟩ <;>
    simp [Update.keySwitch, h, hview]

/-- As long as no list operation panics, `Update` on a key whose string is
`1`, `2`, `3` or `4`, outside the detail view and with the list not filtering,
sets the view to `ViewHome`, `ViewRequirements`, `ViewDefinitions` or
`ViewIndicators`. -/
theorem Update_view_keys {B : Components} (m : Model B) (msg : KeyMsg)
    (hview : m.view ≠ .ViewDetail) (hfilter : B.listFilterState m.list ≠ .Filtering) :
    (msg.String = "1" → (Update m (.key msg)).1.view = .ViewHome) ∧
    (msg.String = "2" → (Update m (.key msg)).1.view = .ViewRequirements) ∧
    (msg.String = "3" → (Update m (.key msg)).1.view = .ViewDefinitions) ∧
    (msg.String = "4" → (Update m (.key msg)).1.view = .ViewIndicators) := by
  obtain ⟨h1, h2, h3, h4⟩ := keySwitch_view_keys m msg hview
  rw [Update_list_keys m msg hview hfilter]
  refine ⟨fun h => ?_, fun h => ?_, fun h => ?_, fun h => ?_⟩
  · rw [h1 h]
    exact (passToList_frame _ _).1
  · rw [h2 h]
    exact (passToList_frame _ _).1
  · rw [h3 h]
    exact (passToList_frame _ _).1
  · rw [h4 h]
    exact (passToList_frame _ _).1

theorem Update_keyword_key {B : Components} (m : Model B) (msg : KeyMsg)
    (hview : m.view = .ViewRequirements) (hfilter : B.listFilterState m.list ≠ .Filtering) :
    (msg.String = "m" → Update m (.key msg) =
      (({ m with keywordFilter :=
            if m.keywordFilter = "MUST" then "" else "MUST" }).updateListForView, .nil)) ∧
    (msg.String = "s" → Update m (.key msg) =
      (({ m with keywordFilter :=
            if m.keywordFilter = "SHOULD" then "" else "SHOULD" }).updateListForView,
        .nil)) := by
  have hne : m.view ≠ .ViewDetail := by rw [hview]; decide
  rw [Update_list_keys m msg hne hfilter]
  refine ⟨fun h => ?_, fun h => ?_⟩ <;>
    simp [Update.keySwitch, h, hview, hfilter]

/-- C27: in the requirements view with the list not filtering, the key `m`
makes the keyword filter empty if it was `MUST` and `MUST` otherwise, and the
key `s` does the same with `SHOULD`; after `m` the filter is never `SHOULD`
and after `s` never `MUST`; and, the list being unfiltered after
`ResetFilter`, the same key pressed twice from an empty keyword filter leaves
it empty. -/
theorem Update_keyword_toggle {B : Components} (m : Model B) (msg : KeyMsg)
    (hview : m.view = .ViewRequirements) (hfilter : B.listFilterState m.list ≠ .Filtering) :
    (msg.String = "m" →
      (Update m (.key msg)).1.keywordFilter = (if m.keywordFilter = "MUST" then "" else "MUST") ∧
        (Update m (.key msg)).1.keywordFilter ≠ "SHOULD") ∧
    (msg.String = "s" →
      (Update m (.key msg)).1.keywordFilter =
          (if m.keywordFilter = "SHOULD" then "" else "SHOULD") ∧
        (Update m (.key msg)).1.keywordFilter ≠ "MUST") ∧
    ((∀ l, B.listFilterState (B.listResetFilter l) ≠ .Filtering) →
      m.keywordFilter = "" → (msg.String = "m" ∨ msg.String = "s") →
      (Update (Update m (.key msg)).1 (.key msg)).1.keywordFilter = "") := by
  obtain ⟨hm, hs⟩ := Update_keyword_key m msg hview hfilter
  refine ⟨fun h => ?_, fun h => ?_, fun hreset hempty h => ?_⟩
  · rw [hm h]
    refine ⟨rfl, ?_⟩
    show (if m.keywordFilter = "MUST" then "" else "MUST") ≠ "SHOULD"
    split <;> decide
  · rw [hs h]
    refine ⟨rfl, ?_⟩
    show (if m.keywordFilter = "SHOULD" then "" else "SHOULD") ≠ "MUST"
    split <;> decide
  · rcases h with h | h
    · rw [hm h]
      have h2 := (Update_keyword_key
        (({ m with keywordFilter :=
              if m.keywordFilter = "MUST" then "" else "MUST" }).updateListForView)
        msg hview (hreset _)).1 h
      dsimp only
      rw [h2]
      show (if (if m.keywordFilter = "MUST" then "" else "MUST") = "MUST" then ""
        else "MUST") = ""
      rw [hempty]
      decide
    · rw [hs h]
      have h2 := (Update_keyword_key
        (({ m with keywordFilter :=
              if m.keywordFilter = "SHOULD" then "" else "SHOULD" }).updateListForView)
        msg hview (hreset _)).2 h
      dsimp only
      rw [h2]
      show (if (if m.keywordFilter = "SHOULD" then "" else "SHOULD") = "SHOULD" then ""
        else "SHOULD") = ""
      rw [hempty]
      decide

/-- C27, witness: as in `TestKeywordFilterToggle`, in the requirements view
the key `m` sets the filter `MUST`, and pressed again clears it. -/
theorem Update_keyword_toggle_witness :
    (Update sampleRequirementsView (.key (keyRunes "m"))).1.keywordFilter = "MUST" ∧
      (Update (Update sampleRequirementsView (.key (keyRunes "m"))).1
        (.key (keyRunes "m"))).1.keywordFilter = "" :=
  ⟨((Update_keyword_toggle sampleRequirementsView (keyRunes "m") rfl (by decide)).1 rfl).1,
    (Update_keyword_toggle sampleRequirementsView (keyRunes "m") rfl (by decide)).2.2
      (fun _ => (by decide : FilterState.Unfiltered ≠ FilterState.Filtering)) rfl
      (Or.inl rfl)⟩

/-! ### The invariant of the detail view -/

theorem initList_frame {B : Components} (m : Model B) :
    m.initList.view = m.view ∧ m.initList.previousView = m.previousView ∧
      m.initList.viewportReady = m.viewportReady :=
  ⟨rfl, rfl, rfl⟩

theorem keySwitch_invariant {B : Components} (m : Model B) (msg : KeyMsg)
    (hview : m.view ≠ .ViewDetail) (hinv : m.DetailInvariant) :
    (Update.keySwitch m msg).1.DetailInvariant := by
  obtain ⟨_, hprev⟩ := hinv
  have hite : ∀ (c : Prop) [Decidable c] (a b : Model B × Option (Cmd B.Command)),
      a.1.DetailInvariant → b.1.DetailInvariant →
        (if c then a else b).1.DetailInvariant := by
    intro c _ a b ha hb
    split <;> assumption
  unfold Update.keySwitch
  repeat' apply hite
  all_goals
    first
    | exact ⟨fun h => absurd h hview, hprev⟩
    | exact ⟨fun h => (by cases h), hprev⟩
    | (split
       · exact ⟨fun _ => rfl, hview⟩
       · exact ⟨fun h => absurd h hview, hprev⟩)

theorem detailKeys_invariant {B : Components} (m : Model B) (msg : KeyMsg)
    (hview : m.view = .ViewDetail) (hinv : m.DetailInvariant) :
    ∃ r, Update.detailKeys m msg = some r ∧ r.1.DetailInvariant ∧
      (r.1.view = .ViewDetail → r.1.previousView = m.previousView) := by
  obtain ⟨hready, hprev⟩ := hinv
  unfold Update.detailKeys
  split
  · exact ⟨_, rfl, ⟨fun h => absurd h hprev, hprev⟩, fun _ => rfl⟩
  · split
    · rename_i next hnext
      refine ⟨_, rfl, ?_⟩
      split at hnext
      · unfold Update.detailEnter at hnext
        split at hnext
        · cases hnext
          split
          · exact ⟨⟨fun h => (by cases h), hprev⟩, fun _ => rfl⟩
          · split
            · exact ⟨⟨fun h => (by cases h), hprev⟩, fun _ => rfl⟩
            · exact ⟨⟨fun h => (by cases h), hprev⟩, fun _ => rfl⟩
        · cases hnext
      · cases hnext
    · rw [if_pos (hready hview)]
      exact ⟨_, rfl, ⟨fun _ => hready hview, hprev⟩, fun _ => rfl⟩

theorem Update_invariant {B : Components} (m : Model B) (msg : Msg B.Tick B.Other)
    (hinv : m.DetailInvariant) : (Update m msg).1.DetailInvariant := by
  cases msg with
  | key key =>
    by_cases hview : m.view = .ViewDetail
    · obtain ⟨r, hr, hinv2, _⟩ := detailKeys_invariant m key hview hinv
      simp only [Update, if_pos hview, hr]
      exact hinv2
    · simp only [Update, if_neg hview]
      split
      · exact ⟨fun h => absurd h hview, hinv.2⟩
      · have hk := keySwitch_invariant m key hview hinv
        split
        · rename_i m2 cmd heq
          rw [heq] at hk
          exact hk
        · rename_i m2 heq
          rw [heq] at hk
          obtain ⟨h1, h2, h3, _⟩ := passToList_frame m2 (.key key)
          exact ⟨fun h => h3.trans (hk.1 (h1 ▸ h)), fun h => hk.2 (h2 ▸ h)⟩
  | windowSize Width Height =>
    simp only [Update]
    split <;> split <;> exact hinv
  | spinnerTick tick =>
    simp only [Update]
    split
    · exact hinv
    · obtain ⟨h1, h2, h3, _⟩ := passToList_frame m (.spinnerTick tick)
      exact ⟨fun h => h3.trans (hinv.1 (h1 ▸ h)), fun h => hinv.2 (h2 ▸ h)⟩
  | dataLoaded msg => exact hinv
  | error Err => exact hinv
  | other msg =>
    obtain ⟨h1, h2, h3, _⟩ := passToList_frame m (.other msg)
    exact ⟨fun h => h3.trans (hinv.1 (h1 ▸ h)), fun h => hinv.2 (h2 ▸ h)⟩

theorem run_invariant {B : Components} (msgs : List (Msg B.Tick B.Other)) :
    ∀ m : Model B, m.DetailInvariant → (run m msgs).DetailInvariant := by
  induction msgs with
  | nil => exact fun _ h => h
  | cons msg msgs ih => exact fun m h => ih _ (Update_invariant m msg h)

theorem NewModel_invariant (B : Components) : (NewModel B []).DetailInvariant := by
  refine ⟨fun h => ?_, ?_⟩
  · have h2 : ViewState.ViewHome = ViewState.ViewDetail := h
    cases h2
  · show ViewState.ViewHome ≠ ViewState.ViewDetail
    decide

/-- C30: in every state `NewModel()` reaches through any sequence of messages
handled by `Update`, the viewport is ready whenever the view is the detail
view, and `previousView` is not the detail view. Hence, in such a state in
the detail view, the keys that go back lead to a view that is not the detail
view, and every key message is answered by the block for the detail view, so
that the switch holding the transition of Enter into the detail view is not
reached. The detail view is reached: loading `sampleData` and pressing Enter
opens it. -/
theorem detail_view_invariant (B : Components) (msgs : List (Msg B.Tick B.Other)) :
    ((run (NewModel B []) msgs).view = .ViewDetail →
      (run (NewModel B []) msgs).viewportReady = true) ∧
    (run (NewModel B []) msgs).previousView ≠ .ViewDetail ∧
    (∀ key : KeyMsg, (run (NewModel B []) msgs).view = .ViewDetail →
      (key.type = .KeyEsc ∨ key.type = .KeyBackspace ∨ key.String = "q") →
      (Update (run (NewModel B []) msgs) (.key key)).1.view ≠ .ViewDetail) ∧
    (∀ key : KeyMsg, (run (NewModel B []) msgs).view = .ViewDetail →
      ∃ r, Update.detailKeys (run (NewModel B []) msgs) key = some r ∧
        Update (run (NewModel B []) msgs) (.key key) = r) ∧
    (run (NewModel sampleComponents [])
      [.dataLoaded sampleData, .key (keyOfType .KeyEnter)]).view = .ViewDetail := by
  have hinv := run_invariant msgs (NewModel B []) (NewModel_invariant B)
  refine ⟨hinv.1, hinv.2, ?_, ?_, rfl⟩
  · intro key hview hkey
    rw [Update_detail_back _ key hview hkey]
    exact hinv.2
  · intro key hview
    obtain ⟨r, hr, _, _⟩ := detailKeys_invariant _ key hview hinv
    refine ⟨r, hr, ?_⟩
    simp only [Update, if_pos hview, hr]

/-! ### ctrl+c in the detail view -/

/-- C28, at the failing input: in the detail view with the viewport ready, a
key of type ctrl+c is neither a back key nor Enter, so `Update` hands it to
the viewport and returns the viewport's command. In the state `sampleDetail`,
reached from `NewModel()` by loading data and pressing Enter, whose list is
not filtering, `Update` on ctrl+c returns the model unchanged and no command,
though `ctrl+c` is a key of the binding `Quit`; in every list view whose list
is not filtering it returns `tea.Quit`. -/
theorem Update_ctrl_c_in_detail :
    (∀ (B : Components) (m : Model B) (key : KeyMsg), m.view = .ViewDetail →
      m.viewportReady = true → key.type = .KeyCtrlC →
      Update m (.key key) =
        ({ m with viewport := (B.viewportUpdate m.viewport (.key key)).1 },
          (B.viewportUpdate m.viewport (.key key)).2)) ∧
    (∀ (B : Components) (m : Model B) (key : KeyMsg), m.view ≠ .ViewDetail →
      B.listFilterState m.list ≠ .Filtering → key.String = "ctrl+c" →
      Update m (.key key) = (m, .Quit)) ∧
    sampleDetail =
      run (NewModel sampleComponents []) [.dataLoaded sampleData, .key (keyOfType .KeyEnter)] ∧
    sampleDetail.view = .ViewDetail ∧
    sampleComponents.listFilterState sampleDetail.list ≠ .Filtering ∧
    (keyOfType .KeyCtrlC).String = "ctrl+c" ∧
    "ctrl+c" ∈ DefaultKeyMap.Quit.keys ∧
    Update sampleDetail (.key (keyOfType .KeyCtrlC)) = (sampleDetail, .nil) ∧
    (Update sampleDetail (.key (keyOfType .KeyCtrlC))).2 ≠ .Quit := by
  refine ⟨?_, ?_, rfl, rfl, by decide, rfl, by decide, rfl, ?_⟩
  · intro B m key hview hready hkey
    have hcond : ¬ (key.type = .KeyEsc ∨ key.type = .KeyBackspace ∨ key.type = .KeyEsc ∨
        key.String = "q") := by
      rintro (h | h | h | h)
      · rw [hkey] at h; cases h
      · rw [hkey] at h; cases h
      · rw [hkey] at h; cases h
      · rcases keyString_named key "ctrl+c" (by rw [hkey]; decide) (by rw [hkey]; rfl)
          with hs | hs <;> rw [hs] at h <;> exact absurd h (by decide)
    have hne : ¬ key.type = .KeyEnter := by rw [hkey]; decide
    simp only [Update, hview, if_true, Update.detailKeys, if_neg hcond, if_neg hne, hready]
  · intro B m key hview hfilter hkey
    rw [Update_list_keys m key hview hfilter]
    simp [Update.keySwitch, hkey]
  · intro h
    have h2 : (Cmd.nil : Cmd sampleComponents.Command) = .Quit := h
    cases h2

/-! ### The typed decoder succeeds exactly on values of the right JSON types -/

theorem Except.isOk_map {ε α β : Type} (f : α → β) (r : Except ε α) :
    (r.map f).isOk = r.isOk := by
  cases r <;> rfl

theorem Except.isOk_iff {ε α : Type} (r : Except ε α) :
    r.isOk = true ↔ ∃ a, r = .ok a := by
  cases r with
  | error e => simp [Except.isOk, Except.toBool]
  | ok a => simp [Except.isOk, Except.toBool]

theorem decodeString_fits (cur : String) (j : Json) :
    (decodeString cur j).isOk = Json.fits .string j := by
  cases j <;> rfl

theorem decodeBool_fits (cur : Bool) (j : Json) :
    (decodeBool cur j).isOk = Json.fits .bool j := by
  cases j <;> rfl

theorem decodeSliceElems_fits {α : Type} (dec : Decoder α) (zero : α) (s : Shape)
    (h : ∀ cur j, (dec cur j).isOk = Json.fits s j) (items : List Json) :
    ∀ cur, (decodeSliceElems dec zero cur items).isOk = items.all (Json.fits s) := by
  induction items with
  | nil => intro cur; rfl
  | cons j js ih =>
    intro cur
    have hj := h (cur.headD zero) j
    have hjs := ih cur.tail
    simp only [decodeSliceElems, List.all_cons]
    cases hd : dec (cur.headD zero) j with
    | error e =>
      rw [hd] at hj
      rw [← hj]
      rfl
    | ok x =>
      rw [hd] at hj
      rw [← hj, ← hjs]
      cases decodeSliceElems dec zero cur.tail js <;> rfl

theorem decodeSlice_fits {α : Type} (dec : Decoder α) (zero : α) (s : Shape)
    (h : ∀ cur j, (dec cur j).isOk = Json.fits s j) (cur : List α) (j : Json) :
    (decodeSlice dec zero cur j).isOk = Json.fits (.slice s) j := by
  cases j with
  | arr items =>
    simp only [decodeSlice, Json.fits]
    exact decodeSliceElems_fits dec zero s h items cur
  | _ => rfl

theorem decodeMembers_fits {α : Type} (setField : α → String → Json → Except JsonError α)
    (fit : String → Json → Bool) (h : ∀ a k v, (setField a k v).isOk = fit k v)
    (ms : List (String × Json)) :
    ∀ cur, (decodeMembers setField cur ms).isOk = ms.all fun m => fit m.1 m.2 := by
  induction ms with
  | nil => intro cur; rfl
  | cons e ms ih =>
    intro cur
    obtain ⟨k, v⟩ := e
    have hk := h cur k v
    simp only [decodeMembers, List.all_cons]
    cases hd : setField cur k v with
    | error e =>
      rw [hd] at hk
      rw [← hk]
      rfl
    | ok next =>
      rw [hd] at hk
      rw [← hk, ← ih next]
      simp [Except.isOk, Except.toBool]

theorem decodeStruct_fits {α : Type} (setField : α → String → Json → Except JsonError α)
    (field : String → Shape)
    (h : ∀ a k v, (setField a k v).isOk = Json.fits (field (foldName k)) v)
    (cur : α) (j : Json) :
    (decodeStruct setField cur j).isOk = Json.fits (.struct field) j := by
  cases j with
  | obj members =>
    simp only [decodeStruct, Json.fits]
    exact decodeMembers_fits setField _ h members cur
  | _ => rfl

theorem decodeMap_fits {V : Type} (dec : Decoder V) (zero : V) (s : Shape)
    (h : ∀ cur j, (dec cur j).isOk = Json.fits s j) (cur : GoMap V) (j : Json) :
    (decodeMap dec zero cur j).isOk = Json.fits (.map s) j := by
  cases j with
  | obj members =>
    simp only [decodeMap, Json.fits]
    refine decodeMembers_fits _ (fun _ v => Json.fits s v) ?_ members cur
    intro a k v
    show _ = Json.fits s v
    rw [← h zero v]
    cases dec zero v <;> rfl
  | _ => rfl

theorem authority_setField_fits (a : Authority) (k : String) (v : Json) :
    (Authority.setField a k v).isOk = Json.fits (Authority.fields (foldName k)) v := by
  unfold Authority.setField Authority.fields
  split <;> first
    | rfl
    | (rw [Except.isOk_map]
       exact decodeString_fits _ _)

theorem relatedRFC_setField_fits (a : RelatedRFC) (k : String) (v : Json) :
    (RelatedRFC.setField a k v).isOk = Json.fits (RelatedRFC.fields (foldName k)) v := by
  unfold RelatedRFC.setField RelatedRFC.fields
  split <;> first
    | rfl
    | (rw [Except.isOk_map]
       exact decodeString_fits _ _)

theorem release_setField_fits (a : Release) (k : String) (v : Json) :
    (Release.setField a k v).isOk = Json.fits (Release.fields (foldName k)) v := by
  unfold Release.setField Release.fields
  split <;> first
    | rfl
    | (rw [Except.isOk_map]
       first
       | exact decodeString_fits _ _
       | exact decodeBool_fits _ _
       | exact decodeSlice_fits _ _ _
           (decodeStruct_fits RelatedRFC.setField RelatedRFC.fields relatedRFC_setField_fits)
           _ _)

theorem effectiveInfo_setField_fits (a : EffectiveInfo) (k : String) (v : Json) :
    (EffectiveInfo.setField a k v).isOk = Json.fits (EffectiveInfo.fields (foldName k)) v := by
  unfold EffectiveInfo.setField EffectiveInfo.fields
  split <;> first
    | rfl
    | (rw [Except.isOk_map]
       first
       | exact decodeString_fits _ _
       | exact decodeSlice_fits _ _ _ decodeString_fits _ _)

theorem frontMatter_setField_fits (a : FrontMatter) (k : String) (v : Json) :
    (FrontMatter.setField a k v).isOk = Json.fits (FrontMatter.fields (foldName k)) v := by
  unfold FrontMatter.setField FrontMatter.fields
  split <;> first
    | rfl
    | (rw [Except.isOk_map]
       first
       | exact decodeString_fits _ _
       | exact decodeSlice_fits _ _ _ decodeString_fits _ _
       | exact decodeSlice_fits _ _ _
           (decodeStruct_fits Authority.setField Authority.fields authority_setField_fits) _ _)

theorem documentInfo_setField_fits (a : DocumentInfo) (k : String) (v : Json) :
    (DocumentInfo.setField a k v).isOk = Json.fits (DocumentInfo.fields (foldName k)) v := by
  unfold DocumentInfo.setField DocumentInfo.fields
  split <;> first
    | rfl
    | (rw [Except.isOk_map]
       first
       | exact decodeString_fits _ _
       | exact decodeMap_fits _ _ _
           (decodeStruct_fits EffectiveInfo.setField EffectiveInfo.fields
             effectiveInfo_setField_fits) _ _
       | exact decodeSlice_fits _ _ _
           (decodeStruct_fits Release.setField Release.fields release_setField_fits) _ _
       | exact decodeStruct_fits FrontMatter.setField FrontMatter.fields
           frontMatter_setField_fits _ _)

theorem infoEnvelopeSetField_fits (a : DocumentInfo) (k : String) (v : Json) :
    (infoEnvelopeSetField a k v).isOk = Json.fits (infoEnvelopeFields (foldName k)) v := by
  unfold infoEnvelopeSetField infoEnvelopeFields
  split
  · exact decodeStruct_fits DocumentInfo.setField DocumentInfo.fields
      documentInfo_setField_fits _ _
  · rfl

theorem ParseDocumentInfo_fits (j : Json) :
    (∃ info, ParseDocumentInfo (.value j) = .ok info) ↔
      Json.fits (.struct infoEnvelopeFields) j = true := by
  rw [← decodeStruct_fits infoEnvelopeSetField infoEnvelopeFields infoEnvelopeSetField_fits
    DocumentInfo.zero j, Except.isOk_iff]
  simp only [ParseDocumentInfo, jsonUnmarshal]
  constructor
  · rintro ⟨info, h⟩
    split at h
    · cases h
    · rename_i x hx
      exact ⟨x, hx⟩
  · rintro ⟨info, h⟩
    exact ⟨info, by rw [h]⟩

/-- C22, amended: for every JSON document, `ParseDocumentInfo` returns no
error exactly when each value present under `info` and inside it fits the JSON
type of the field its key selects (`null` fits every field, a key that selects
no field is skipped); so what is absent never causes an error. It returns the
zero `DocumentInfo` for an object none of whose keys selects `info`, and for a
fitting document that lacks the sections `name`, `short_name`, `effective`,
`releases` and `front_matter`. Whenever it returns an info for a document,
`EnrichDocument` applied with it to an entry of `GetDocumentMetadata`,
whatever its requirement count was set to, leaves the purpose, the expected
outcomes, the authorities, the releases and the effective-status map empty
when the document lacks the section. `EnrichDocument` never changes an
entry's code, name, description or requirement count, and with a nil info it
changes nothing. -/
theorem ParseDocumentInfo_EnrichDocument_absent (range : RangeOrder EffectiveInfo) :
    (∀ doc : Json, (∃ info, ParseDocumentInfo (.value doc) = .ok info) ↔
      Json.fits (.struct infoEnvelopeFields) doc = true) ∧
    (∀ members : List (String × Json), (∀ m ∈ members, foldName m.1 ≠ "INFO") →
      ParseDocumentInfo (.value (.obj members)) = .ok DocumentInfo.zero) ∧
    (∀ doc : Json, Json.fits (.struct infoEnvelopeFields) doc = true →
      Json.lacks ["INFO", "NAME"] doc = true →
      Json.lacks ["INFO", "SHORT_NAME"] doc = true →
      Json.lacks ["INFO", "EFFECTIVE"] doc = true →
      Json.lacks ["INFO", "RELEASES"] doc = true →
      Json.lacks ["INFO", "FRONT_MATTER"] doc = true →
      ParseDocumentInfo (.value doc) = .ok DocumentInfo.zero) ∧
    (∀ d ∈ GetDocumentMetadata, ∀ (n : Int) (doc : Json) (info : DocumentInfo),
      ParseDocumentInfo (.value doc) = .ok info →
      (Json.lacks ["INFO", "FRONT_MATTER", "PURPOSE"] doc = true →
        (EnrichDocument range { d with RequirementCount := n } (some info)).Purpose = "") ∧
      (Json.lacks ["INFO", "FRONT_MATTER", "EXPECTED_OUTCOMES"] doc = true →
        (EnrichDocument range { d with RequirementCount := n } (some info)).ExpectedOutcomes
          = []) ∧
      (Json.lacks ["INFO", "FRONT_MATTER", "AUTHORITY"] doc = true →
        (EnrichDocument range { d with RequirementCount := n } (some info)).Authority = []) ∧
      (Json.lacks ["INFO", "RELEASES"] doc = true →
        (EnrichDocument range { d with RequirementCount := n } (some info)).Releases = []) ∧
      (Json.lacks ["INFO", "EFFECTIVE"] doc = true →
        (EnrichDocument range { d with RequirementCount := n } (some info)).EffectiveInfo
          = [])) ∧
    (∀ (doc : Document) (info : Option DocumentInfo),
      (EnrichDocument range doc info).Code = doc.Code ∧
      (EnrichDocument range doc info).Name = doc.Name ∧
      (EnrichDocument range doc info).Description = doc.Description ∧
      (EnrichDocument range doc info).RequirementCount = doc.RequirementCount) ∧
    (∀ doc : Document, EnrichDocument range doc none = doc) := by
  have hdecode : ∀ (doc : Json) (info : DocumentInfo),
      ParseDocumentInfo (.value doc) = .ok info →
      decodeStruct infoEnvelopeSetField DocumentInfo.zero doc = .ok info := by
    intro doc info hparse
    simp only [ParseDocumentInfo, jsonUnmarshal] at hparse
    split at hparse
    · cases hparse
    · rename_i x hx
      cases hparse
      exact hx
  refine ⟨ParseDocumentInfo_fits, ?_, ?_, ?_, ?_, fun _ => rfl⟩
  · exact ParseDocumentInfo_no_info
  · intro doc hfits l1 l2 l3 l4 l5
    obtain ⟨info, hinfo⟩ := (ParseDocumentInfo_fits doc).mpr hfits
    obtain ⟨f1, f2, f3, f4, f5, _⟩ := infoEnvelope_decode_lacks _ _ _ (hdecode doc info hinfo)
    have h1 := f1 l1
    have h2 := f2 l2
    have h3 := f3 l3
    have h4 := f4 l4
    have h5 := f5 l5
    rw [hinfo]
    cases info
    simp only [DocumentInfo.zero] at h1 h2 h3 h4 h5
    subst h1 h2 h3 h4 h5
    rfl
  · intro d hd n doc info hparse
    obtain ⟨hp, ho, ha, hr, he⟩ := GetDocumentMetadata_fresh d hd
    obtain ⟨_, _, leff, lrel, _, lauth, lpur, lexp⟩ :=
      infoEnvelope_decode_lacks _ _ _ (hdecode doc info hparse)
    obtain ⟨fp, fo, fa, fr, fe⟩ :=
      EnrichDocument_fields range { d with RequirementCount := n } info
    refine ⟨fun hl => ?_, fun hl => ?_, fun hl => ?_, fun hl => ?_, fun hl => ?_⟩
    · rw [fp, lpur hl]
      rfl
    · rw [fo, lexp hl]
      rfl
    · rw [fa ((lauth hl).trans rfl)]
      exact ha
    · rw [fr ((lrel hl).trans rfl)]
      exact hr
    · rw [fe ((leff hl).trans rfl)]
      exact he
  · intro doc info
    cases info with
    | none => exact ⟨rfl, rfl, rfl, rfl⟩
    | some info =>
      simp only [EnrichDocument]
      split <;> exact ⟨rfl, rfl, rfl, rfl⟩

/-! ### `fetchData`: what becomes of a failed normalization -/

theorem Slice.toList_append {α : Type} (s : Slice α) (xs : List α) :
    (s.append xs).toList = s.toList ++ xs := by
  cases xs with
  | nil => simp [Slice.append]
  | cons x rest => rfl

theorem Slice.append_append {α : Type} (s : Slice α) (xs ys : List α) :
    (s.append xs).append ys = s.append (xs ++ ys) := by
  cases xs with
  | nil => rfl
  | cons x rest =>
    cases ys with
    | nil => simp [Slice.append]
    | cons y more => simp [Slice.append, Slice.toList]

theorem parseStepSlices_forget (orders : RangeOrders) (lex : Bytes → RawMessage)
    (state : ParsedSlices) (entry : String × Bytes) :
    (parseStepSlices orders lex state entry).forget =
      parseStep orders lex state.forget entry := by
  unfold parseStepSlices parseStep
  split
  · split <;> rfl
  · split
    · split
      · simp only [ParsedSlices.forget, Slice.toList_append]
        rfl
      · rfl
    · split
      · simp only [ParsedSlices.forget, Slice.toList_append]
      · rfl

theorem parseFoldSlices_forget (orders : RangeOrders) (lex : Bytes → RawMessage)
    (l : List (String × Bytes)) :
    ∀ state : ParsedSlices,
      (l.foldl (parseStepSlices orders lex) state).forget =
        l.foldl (parseStep orders lex) state.forget := by
  induction l with
  | nil => intro state; rfl
  | cons e l ih =>
    intro state
    rw [List.foldl_cons, List.foldl_cons, ih, parseStepSlices_forget]

theorem fetchDataSlices_forget (orders : RangeOrders) (lex : Bytes → RawMessage)
    (docs : GoMap Bytes) :
    fetchData orders lex (docs, none) =
      .dataLoaded
        { Documents := (fetchDataSlices orders lex docs).Documents.toList
          Requirements := (fetchDataSlices orders lex docs).Requirements.toList
          Definitions := (fetchDataSlices orders lex docs).Definitions.toList
          Indicators := (fetchDataSlices orders lex docs).Indicators.toList } := by
  have h := parseFoldSlices_forget orders lex (orders.documents.visit docs) ⟨.nil, .nil, .nil⟩
  have hz : (ParsedSlices.mk .nil .nil .nil).forget = ⟨[], [], []⟩ := rfl
  rw [hz] at h
  rw [fetchData_loaded, ← h]
  rfl

theorem parseFoldSlices_requirements (orders : RangeOrders) (lex : Bytes → RawMessage)
    (l : List (String × Bytes)) :
    ∀ state : ParsedSlices,
      (l.foldl (parseStepSlices orders lex) state).allRequirements =
        state.allRequirements.append
          (l.map (contributedRequirements orders lex)).flatten := by
  induction l with
  | nil => intro state; rfl
  | cons e l ih =>
    intro state
    have hstep : (parseStepSlices orders lex state e).allRequirements =
        state.allRequirements.append (contributedRequirements orders lex e) := by
      unfold parseStepSlices contributedRequirements
      by_cases hfrd : e.1 = "FRD"
      · simp only [hfrd, if_true, true_or]
        split <;> rfl
      · by_cases hksi : e.1 = "KSI"
        · have hne : ¬ "KSI" = "FRD" := by decide
          simp only [hksi, hne, if_true, if_false, or_true]
          split <;> rfl
        · simp only [hfrd, hksi, if_false, or_self]
          split <;> rfl
    rw [List.foldl_cons, ih, hstep, Slice.append_append]
    simp

theorem parseFoldSlices_definitions (orders : RangeOrders) (lex : Bytes → RawMessage)
    (l : List (String × Bytes)) :
    ∀ state : ParsedSlices, (l.map Prod.fst).Nodup →
      (l.foldl (parseStepSlices orders lex) state).definitions =
        match GoMap.get l "FRD" with
        | some data =>
          (match ParseDefinitions (lex data) with
            | .ok defs => .elems defs
            | .error _ => state.definitions)
        | none => state.definitions := by
  induction l with
  | nil => intro state _; rfl
  | cons e l ih =>
    intro state hnd
    obtain ⟨k, data⟩ := e
    simp only [List.map_cons, List.nodup_cons] at hnd
    rw [List.foldl_cons, ih _ hnd.2]
    by_cases hk : k = "FRD"
    · subst hk
      rw [GoMap.get_eq_none l "FRD" hnd.1]
      simp only [GoMap.get, if_true, parseStepSlices]
      split <;> rfl
    · have hstep : (parseStepSlices orders lex state (k, data)).definitions =
          state.definitions := by
        simp only [parseStepSlices, hk, if_false]
        split
        · split <;> rfl
        · split <;> rfl
      simp only [GoMap.get, hk, if_false, hstep]

theorem parseFoldSlices_indicators (orders : RangeOrders) (lex : Bytes → RawMessage)
    (l : List (String × Bytes)) :
    ∀ state : ParsedSlices, (l.map Prod.fst).Nodup →
      (l.foldl (parseStepSlices orders lex) state).indicators =
        match GoMap.get l "KSI" with
        | some data =>
          (match ParseIndicators orders.themes (lex data) with
            | .ok inds => Slice.append .nil inds
            | .error _ => state.indicators)
        | none => state.indicators := by
  induction l with
  | nil => intro state _; rfl
  | cons e l ih =>
    intro state hnd
    obtain ⟨k, data⟩ := e
    simp only [List.map_cons, List.nodup_cons] at hnd
    rw [List.foldl_cons, ih _ hnd.2]
    by_cases hk : k = "KSI"
    · subst hk
      rw [GoMap.get_eq_none l "KSI" hnd.1]
      have hne : ¬ "KSI" = "FRD" := by decide
      simp only [GoMap.get, if_true, parseStepSlices, hne, if_false]
      split <;> rfl
    · have hstep : (parseStepSlices orders lex state (k, data)).indicators =
          state.indicators := by
        simp only [parseStepSlices, hk, if_false]
        split
        · split <;> rfl
        · split <;> rfl
      simp only [GoMap.get, hk, if_false, hstep]

theorem ParseRequirements_not_value (range : RangeOrder RequirementCategory)
    (data : RawMessage) (docCode : String) (h : ∀ j, data ≠ .value j) :
    ParseRequirements range data docCode = .error (.json .syntaxError) := by
  cases data with
  | empty => rfl
  | malformed => rfl
  | value j => exact absurd rfl (h j)

theorem contributedRequirements_congr (orders : RangeOrders) (lex1 lex2 : Bytes → RawMessage)
    (hlex : RepairsTo orders.themes lex1 lex2) (entry : String × Bytes) :
    contributedRequirements orders lex1 entry = contributedRequirements orders lex2 entry := by
  unfold contributedRequirements
  split
  · rfl
  · rcases hlex entry.2 with h | ⟨h1, h2⟩
    · rw [h]
    · rw [h2.2.1, ParseRequirements_not_value _ _ _ h1]

theorem EnrichDocument_zero (range : RangeOrder EffectiveInfo) (d : Document) (n : Int)
    (hd : d ∈ GetDocumentMetadata) :
    EnrichDocument range { d with RequirementCount := n } (some DocumentInfo.zero) =
      { d with RequirementCount := n } := by
  obtain ⟨hp, ho, ha, hr, he⟩ := GetDocumentMetadata_fresh d hd
  cases d
  simp only at hp ho ha hr he
  subst hp ho ha hr he
  rfl

theorem countAndEnrich_congr (orders : RangeOrders) (lex1 lex2 : Bytes → RawMessage)
    (hlex : RepairsTo orders.themes lex1 lex2)
    (docs : GoMap Bytes) (counts : GoMap Int) (d : Document) (hd : d ∈ GetDocumentMetadata) :
    countAndEnrich orders lex1 docs counts d = countAndEnrich orders lex2 docs counts d := by
  simp only [countAndEnrich]
  cases docs.get d.Code with
  | none => rfl
  | some data =>
    rcases hlex data with h | ⟨h1, h2⟩
    · simp only [h]
    · have hbad : ∃ e, ParseDocumentInfo (lex1 data) = .error e := by
        cases hd1 : lex1 data with
        | empty => exact ⟨_, rfl⟩
        | malformed => exact ⟨_, rfl⟩
        | value j => exact absurd hd1 (h1 j)
      obtain ⟨e, he⟩ := hbad
      obtain ⟨members, hm, hno⟩ := h2.1
      have hz : ParseDocumentInfo (lex2 data) = .ok DocumentInfo.zero := by
        rw [hm]
        exact ParseDocumentInfo_no_info members hno
      simp only [hz, he, EnrichDocument_zero _ d _ hd]

theorem parseFoldSlices_congr (orders : RangeOrders) (lex1 lex2 : Bytes → RawMessage)
    (hlex : RepairsTo orders.themes lex1 lex2)
    (l : List (String × Bytes)) (hnd : (l.map Prod.fst).Nodup) :
    (l.foldl (parseStepSlices orders lex1) ⟨.nil, .nil, .nil⟩).allRequirements =
      (l.foldl (parseStepSlices orders lex2) ⟨.nil, .nil, .nil⟩).allRequirements ∧
    (l.foldl (parseStepSlices orders lex1) ⟨.nil, .nil, .nil⟩).indicators =
      (l.foldl (parseStepSlices orders lex2) ⟨.nil, .nil, .nil⟩).indicators ∧
    (l.foldl (parseStepSlices orders lex1) ⟨.nil, .nil, .nil⟩).definitions.toList =
      (l.foldl (parseStepSlices orders lex2) ⟨.nil, .nil, .nil⟩).definitions.toList ∧
    ((∀ data, GoMap.get l "FRD" = some data → lex2 data = lex1 data) →
      (l.foldl (parseStepSlices orders lex1) ⟨.nil, .nil, .nil⟩).definitions =
        (l.foldl (parseStepSlices orders lex2) ⟨.nil, .nil, .nil⟩).definitions) ∧
    (∀ data, GoMap.get l "FRD" = some data → (∀ j, lex1 data ≠ .value j) →
      ParsesEmpty orders.themes (lex2 data) →
      (l.foldl (parseStepSlices orders lex1) ⟨.nil, .nil, .nil⟩).definitions = .nil ∧
        (l.foldl (parseStepSlices orders lex2) ⟨.nil, .nil, .nil⟩).definitions =
          .elems []) := by
  have hbadD : ∀ data, (∀ j, lex1 data ≠ .value j) →
      ParseDefinitions (lex1 data) = .error (.json .syntaxError) := by
    intro data h1
    cases hd : lex1 data with
    | empty => rfl
    | malformed => rfl
    | value j => exact absurd hd (h1 j)
  have hbadI : ∀ data, (∀ j, lex1 data ≠ .value j) →
      ParseIndicators orders.themes (lex1 data) = .error (.parsingRawDocument .syntaxError) := by
    intro data h1
    cases hd : lex1 data with
    | empty => rfl
    | malformed => rfl
    | value j => exact absurd hd (h1 j)
  refine ⟨?_, ?_, ?_, ?_, ?_⟩
  · rw [parseFoldSlices_requirements, parseFoldSlices_requirements]
    congr 2
    exact List.map_congr_left fun e _ => contributedRequirements_congr orders lex1 lex2 hlex e
  · rw [parseFoldSlices_indicators orders lex1 l _ hnd,
      parseFoldSlices_indicators orders lex2 l _ hnd]
    cases GoMap.get l "KSI" with
    | none => rfl
    | some data =>
      rcases hlex data with h | ⟨h1, h2⟩
      · simp only [h]
      · simp only [hbadI data h1]
        rcases h2.2.2.2 with h3 | ⟨e, h3⟩
        · simp only [h3]
          rfl
        · simp only [h3]
  · rw [parseFoldSlices_definitions orders lex1 l _ hnd,
      parseFoldSlices_definitions orders lex2 l _ hnd]
    cases GoMap.get l "FRD" with
    | none => rfl
    | some data =>
      rcases hlex data with h | ⟨h1, h2⟩
      · simp only [h]
      · simp only [hbadD data h1, h2.2.2.1]
        rfl
  · intro hfrd
    rw [parseFoldSlices_definitions orders lex1 l _ hnd,
      parseFoldSlices_definitions orders lex2 l _ hnd]
    cases hget : GoMap.get l "FRD" with
    | none => rfl
    | some data => simp only [hfrd data hget]
  · intro data hget h1 h2
    rw [parseFoldSlices_definitions orders lex1 l _ hnd,
      parseFoldSlices_definitions orders lex2 l _ hnd]
    simp only [hget, hbadD data h1, h2.2.2.1]
    trivial

/-- C21, counterexample: a pass in which VDR is not well-formed JSON, so that
`ParseRequirements` fails on it, and a pass in which VDR is the empty object,
which parses to no requirement, give `fetchData` the same message, nil slices
included. -/
theorem fetchData_failure_not_reported :
    ParseRequirements (sampleOrders.categories "VDR") (sampleLex [7]) "VDR"
        = .error (.json .syntaxError) ∧
    ParseRequirements (sampleOrders.categories "VDR") (sampleLex [123, 125]) "VDR" = .ok [] ∧
    fetchDataSlices sampleOrders sampleLex [("FRD", [1]), ("VDR", [7])] =
      fetchDataSlices sampleOrders sampleLex [("FRD", [1]), ("VDR", [123, 125])] ∧
    fetchData sampleOrders sampleLex ([("FRD", [1]), ("VDR", [7])], none) =
      fetchData sampleOrders sampleLex ([("FRD", [1]), ("VDR", [123, 125])], none) :=
  ⟨rfl, rfl, rfl, rfl⟩

/-- C21, amended: `fetchData` drops the error of a failed normalization; its
message has no description of what failed. When byte strings that are not
well-formed JSON are read instead as documents that parse to nothing, the
documents, the requirements and the indicators of the message stay the same,
nil slices included, and so do the definitions as a list. The whole message
stays the same when the FRD document is read alike in both passes. For FRD
alone a failed pass and a pass over a document that parses to nothing differ,
in that `Definitions` is nil after the failure and an empty slice that is not
nil after the success. -/
theorem fetchData_failure_as_empty (orders : RangeOrders) (lex1 lex2 : Bytes → RawMessage)
    (docs : GoMap Bytes) (hnd : (docs.map Prod.fst).Nodup)
    (hlex : RepairsTo orders.themes lex1 lex2) :
    fetchData orders lex1 (docs, none) = fetchData orders lex2 (docs, none) ∧
    (fetchDataSlices orders lex1 docs).Documents =
      (fetchDataSlices orders lex2 docs).Documents ∧
    (fetchDataSlices orders lex1 docs).Requirements =
      (fetchDataSlices orders lex2 docs).Requirements ∧
    (fetchDataSlices orders lex1 docs).Indicators =
      (fetchDataSlices orders lex2 docs).Indicators ∧
    ((∀ data, docs.get "FRD" = some data → lex2 data = lex1 data) →
      fetchDataSlices orders lex1 docs = fetchDataSlices orders lex2 docs) ∧
    (∀ data, docs.get "FRD" = some data → (∀ j, lex1 data ≠ .value j) →
      ParsesEmpty orders.themes (lex2 data) →
      (fetchDataSlices orders lex1 docs).Definitions = .nil ∧
        (fetchDataSlices orders lex2 docs).Definitions = .elems []) := by
  have hvisit : ((orders.documents.visit docs).map Prod.fst).Nodup :=
    (((orders.documents.perm docs).map Prod.fst).nodup_iff).mpr hnd
  have hget : ∀ k, GoMap.get (orders.documents.visit docs) k = docs.get k :=
    fun k => GoMap.get_perm _ _ (orders.documents.perm docs) hnd k
  obtain ⟨hreq, hind, hdefl, hdef, hfrd⟩ :=
    parseFoldSlices_congr orders lex1 lex2 hlex _ hvisit
  have hdocs : (fetchDataSlices orders lex1 docs).Documents =
      (fetchDataSlices orders lex2 docs).Documents := by
    simp only [fetchDataSlices, hreq, hind, hdefl,
      List.map_congr_left fun d hd => countAndEnrich_congr orders lex1 lex2 hlex docs _ d hd]
  have hR : (fetchDataSlices orders lex1 docs).Requirements =
      (fetchDataSlices orders lex2 docs).Requirements := hreq
  have hI : (fetchDataSlices orders lex1 docs).Indicators =
      (fetchDataSlices orders lex2 docs).Indicators := hind
  have hD : (fetchDataSlices orders lex1 docs).Definitions.toList =
      (fetchDataSlices orders lex2 docs).Definitions.toList := hdefl
  refine ⟨?_, hdocs, hR, hI, ?_, ?_⟩
  · rw [fetchDataSlices_forget, fetchDataSlices_forget, hdocs, hR, hI, hD]
  · intro hsame
    have hD2 : (fetchDataSlices orders lex1 docs).Definitions =
        (fetchDataSlices orders lex2 docs).Definitions :=
      hdef fun data hg => hsame data ((hget "FRD").symm.trans hg)
    cases h1 : fetchDataSlices orders lex1 docs
    cases h2 : fetchDataSlices orders lex2 docs
    rw [h1, h2] at hdocs hR hI hD2
    simp only at hdocs hR hI hD2
    rw [hdocs, hR, hI, hD2]
  · intro data hg h1 h2
    exact hfrd data ((hget "FRD").trans hg) h1 h2

/-- C21, witness: with KSI and UCM malformed, reading their bytes as `{}`
instead changes nothing in the message, nil slices included. -/
theorem fetchData_failure_as_empty_witness :
    fetchDataSlices sampleOrders sampleLex sampleDocsBroken =
      fetchDataSlices sampleOrders sampleLexRepaired sampleDocsBroken :=
  (fetchData_failure_as_empty sampleOrders sampleLex sampleLexRepaired sampleDocsBroken
    (by decide)
    (fun data => by
      unfold sampleLexRepaired
      by_cases h : data = [7]
      · subst h
        refine Or.inr ⟨fun j hj => (by cases hj), ⟨[], rfl, by simp⟩, ?_, rfl,
          Or.inr ⟨_, rfl⟩⟩
        intro range docCode
        exact ParseRequirements_no_FRR range [] docCode rfl
      · rw [if_neg h]
        exact Or.inl rfl)).2.2.2.2.1
    (fun data hg => by
      have hd : data = [1] := by
        have h1 : sampleDocsBroken.get "FRD" = some [1] := by decide
        rw [h1] at hg
        cases hg
        rfl
      subst hd
      rfl)

/-! ### The parsers return on every input -/

theorem foldlM_some {α β : Type} (f : β → α → Option β) (g : β → α → β)
    (h : ∀ acc x, f acc x = some (g acc x)) (l : List α) :
    ∀ init, l.foldlM f init = some (l.foldl g init) := by
  induction l with
  | nil => intro init; rfl
  | cons x l ih =>
    intro init
    rw [List.foldlM_cons, h]
    exact ih _

theorem foldlM_setIndex {α β : Type} (f : α → β) (zero : β) (rest : List α) :
    ∀ done : List β,
      (rest.enumFrom done.length).foldlM
          (fun acc (e : Nat × α) => setIndex acc e.1 (f e.2))
          (done ++ List.replicate rest.length zero) =
        some (done ++ rest.map f) := by
  induction rest with
  | nil => intro done; simp
  | cons a rest ih =>
    intro done
    have hstep : setIndex (done ++ List.replicate (a :: rest).length zero) done.length (f a) =
        some ((done ++ [f a]) ++ List.replicate rest.length zero) := by
      simp [setIndex, List.replicate_succ, List.set_append]
    have hlen : (done ++ [f a]).length = done.length + 1 := by simp
    rw [List.enumFrom_cons, List.foldlM_cons, hstep]
    have := ih (done ++ [f a])
    rw [hlen] at this
    simpa using this

theorem controlsChecked_eq (ind : IndicatorJSON) :
    controlsChecked ind =
      some (ind.Controls.map fun ctrl => { ControlID := ctrl.ControlID, Title := ctrl.Title }) := by
  have h := foldlM_setIndex
    (fun ctrl : ControlJSON => ({ ControlID := ctrl.ControlID, Title := ctrl.Title } : Control))
    Control.zero ind.Controls []
  simpa [controlsChecked, List.enum] using h

theorem ParseDefinitions_checked (data : RawMessage) :
    ParseDefinitions.checked data = some (ParseDefinitions data) := by
  unfold ParseDefinitions.checked ParseDefinitions
  split
  · rfl
  · rename_i doc _
    have h := foldlM_setIndex
      (fun d : DefinitionJSON =>
        ({ ID := d.ID, Term := d.Term, Alts := d.Alts, Text := d.Definition,
           Note := resolveNote d, Reference := d.Reference,
           ReferenceURL := d.ReferenceURL } : Definition))
      Definition.zero doc.FRD.ALL []
    simp only [List.length_nil, List.nil_append] at h
    simp only [List.enum, h]
    rfl

theorem ParseIndicators_checked (range : RangeOrder ThemeJSON) (data : RawMessage) :
    ParseIndicators.checked range data = some (ParseIndicators range data) := by
  unfold ParseIndicators.checked ParseIndicators
  split
  · rfl
  · split
    · rfl
    · split
      · rfl
      · rename_i ksiThemes _
        have hinner : ∀ (entry : String × ThemeJSON) (acc : List Indicator),
            entry.2.Indicators.foldlM
              (fun (indicators : List Indicator) (ind : IndicatorJSON) =>
                (controlsChecked ind).map fun controls =>
                  indicators ++
                    [({ ID := ind.ID
                        ThemeCode := entry.1
                        ThemeName := entry.2.Name
                        ThemeDesc := entry.2.Theme
                        Name := ind.Name
                        Statement := ind.Statement
                        Impact := { Low := ind.Impact.Low, Moderate := ind.Impact.Moderate,
                                    High := ind.Impact.High }
                        Controls := controls
                        Reference := ind.Reference
                        ReferenceURL := ind.ReferenceURL
                        Note := ind.Note
                        Retired := ind.Retired } : Indicator)])
              acc =
            some (entry.2.Indicators.foldl
              (fun indicators ind => indicators ++ [Indicator.ofJSON entry.1 entry.2 ind])
              acc) := by
          intro entry acc
          refine foldlM_some _ _ ?_ _ acc
          intro indicators ind
          rw [controlsChecked_eq]
          rfl
        rw [foldlM_some _ _ (fun acc entry => hinner entry acc)]
        rfl

theorem weightList_cons (r : RequirementJSON) (rs : List RequirementJSON) :
    RequirementJSON.weight.weightList (r :: rs) =
      r.weight + RequirementJSON.weight.weightList rs := by
  simp only [RequirementJSON.weight.weightList]

theorem extractRequirements_bounded (docCode : String) :
    ∀ (depth : Nat) (reqs : List RequirementJSON),
      RequirementJSON.weight.weightList reqs < depth →
      extractRequirements.bounded depth reqs docCode =
        some (extractRequirements reqs docCode) := by
  intro depth
  induction depth with
  | zero => intro reqs h; exact absurd h (Nat.not_lt_zero _)
  | succ depth ih =>
    intro reqs hreqs
    have hfold : ∀ (rs : List RequirementJSON),
        RequirementJSON.weight.weightList rs ≤ depth →
        ∀ acc : List Requirement,
          rs.foldlM
            (fun (requirements : List Requirement) (r0 : RequirementJSON) =>
              if r0.UnmarshalFollowingInfo.FollowingInformation.length > 0 then
                (extractRequirements.bounded depth
                  r0.UnmarshalFollowingInfo.FollowingInformation docCode).map fun nested =>
                  (requirements ++ [Requirement.ofJSON r0.UnmarshalFollowingInfo docCode])
                    ++ nested
              else
                some (requirements ++ [Requirement.ofJSON r0.UnmarshalFollowingInfo docCode]))
            acc =
          some (acc ++ extractRequirements rs docCode) := by
      intro rs
      induction rs with
      | nil =>
        intro _ acc
        rw [extractRequirements_nil]
        simp
      | cons r0 rs ihrs =>
        intro hw acc
        rw [weightList_cons] at hw
        have hkids := RequirementJSON.UnmarshalFollowingInfo_weight r0
        have hnested := ih r0.UnmarshalFollowingInfo.FollowingInformation (by omega)
        rw [List.foldlM_cons, extractRequirements_cons]
        by_cases hlen : r0.UnmarshalFollowingInfo.FollowingInformation.length > 0
        · simp only [hlen, if_true, hnested, Option.map_some', Option.bind_eq_bind,
            Option.some_bind]
          rw [ihrs (by omega)]
          simp
        · simp only [hlen, if_false, Option.bind_eq_bind, Option.some_bind]
          rw [ihrs (by omega)]
          simp
    have h := hfold reqs (by omega) []
    simpa [extractRequirements.bounded] using h

/-- C14: on every input each parser returns, with an error or a collection.
`ParseDefinitions` and `ParseIndicators`, run step by step with the slices
they get from `make` and their indexed writes, never panic and return what
the parser returns; the recursion of `extractRequirements`, the only other
place where `ParseRequirements` could fail to return, ends within a depth
bounded by the size of the decoded records. On input that is not well-formed
JSON (empty or malformed bytes) each parser returns the syntax error of
`json.Unmarshal`, hence no collection at all. -/
theorem parsers_on_any_input (rangeThemes : RangeOrder ThemeJSON)
    (rangeCategories : RangeOrder RequirementCategory) (data : RawMessage)
    (docCode : String) :
    ParseDefinitions.checked data = some (ParseDefinitions data) ∧
    ParseIndicators.checked rangeThemes data = some (ParseIndicators rangeThemes data) ∧
    (∀ reqs : List RequirementJSON,
      extractRequirements.bounded (RequirementJSON.weight.weightList reqs + 1) reqs docCode =
        some (extractRequirements reqs docCode)) ∧
    ((∀ j, data ≠ .value j) →
      ParseDefinitions data = .error (.json .syntaxError) ∧
      ParseIndicators rangeThemes data = .error (.parsingRawDocument .syntaxError) ∧
      ParseRequirements rangeCategories data docCode = .error (.json .syntaxError)) := by
  refine ⟨ParseDefinitions_checked data, ParseIndicators_checked rangeThemes data,
    fun reqs => extractRequirements_bounded docCode _ reqs (Nat.lt_succ_self _), ?_⟩
  intro hbad
  cases data with
  | empty => exact ⟨rfl, rfl, rfl⟩
  | malformed => exact ⟨rfl, rfl, rfl⟩
  | value j => exact absurd rfl (hbad j)

/-- C14, witness: bytes that are not well-formed JSON (as the fuzz seed
`invalid json`), with the empty document code. -/
theorem parsers_on_any_input_witness :
    (∀ j, RawMessage.malformed ≠ .value j) ∧
    ParseDefinitions .malformed = .error (.json .syntaxError) ∧
    ParseIndicators (RangeOrder.stored ThemeJSON) .malformed
      = .error (.parsingRawDocument .syntaxError) ∧
    ParseRequirements (RangeOrder.stored RequirementCategory) .malformed ""
      = .error (.json .syntaxError) :=
  have hbad : ∀ j, RawMessage.malformed ≠ .value j := fun j h => by cases h
  ⟨hbad, (parsers_on_any_input (RangeOrder.stored ThemeJSON)
    (RangeOrder.stored RequirementCategory) .malformed "").2.2.2 hbad⟩

/-! ### The keys `1` to `4` before the list exists -/

theorem keySwitch_faults_view_keys {B : Components} (m : Model B) (msg : KeyMsg)
    (hview : m.view ≠ .ViewDetail)
    (hkey : msg.String = "1" ∨ msg.String = "2" ∨ msg.String = "3" ∨ msg.String = "4") :
    Update.keySwitch.faults m msg = !B.listHasDelegate m.list := by
  rcases hkey with h | h | h | h <;>
    simp [Update.keySwitch.faults, Model.updateListForView.faults, h, hview]

theorem Update_faults_view_keys {B : Components} (m : Model B) (msg : KeyMsg)
    (hview : m.view ≠ .ViewDetail) (hfilter : B.listFilterState m.list ≠ .Filtering)
    (hkey : msg.String = "1" ∨ msg.String = "2" ∨ msg.String = "3" ∨ msg.String = "4") :
    Update.faults m (.key msg) = !B.listHasDelegate m.list := by
  have hnot : ¬ (m.view = .ViewDetail ∧ (Update.detailKeys m msg).isSome = true) :=
    fun h => hview h.1
  simp only [Update.faults, if_neg hnot, if_neg hfilter]
  exact keySwitch_faults_view_keys m msg hview hkey

/-- C26, at the failing input: outside the detail view, with the list not
filtering, `Update` on a key whose string is `1`, `2`, `3` or `4` calls
`updateListForView`, hence `SetItems`, whatever `m.loading` is. With a list
that has its delegate this does not panic and the view becomes the one the
key stands for. On a list without delegate it panics: so it does in the
model `NewModel()` returns, which holds the zero `list.Model` until the data
is loaded, on the key `2`; the branch for Enter, which asks for `!m.loading`,
does not. -/
theorem Update_view_keys_loading :
    (∀ (B : Components) (m : Model B) (key : KeyMsg), m.view ≠ .ViewDetail →
      B.listFilterState m.list ≠ .Filtering →
      (key.String = "1" ∨ key.String = "2" ∨ key.String = "3" ∨ key.String = "4") →
      B.listHasDelegate m.list = false → Update.faults m (.key key) = true) ∧
    (∀ (B : Components) (m : Model B) (key : KeyMsg), m.view ≠ .ViewDetail →
      B.listFilterState m.list ≠ .Filtering → B.listHasDelegate m.list = true →
      ((key.String = "1" ∨ key.String = "2" ∨ key.String = "3" ∨ key.String = "4") →
        Update.faults m (.key key) = false) ∧
      (key.String = "1" → (Update m (.key key)).1.view = .ViewHome) ∧
      (key.String = "2" → (Update m (.key key)).1.view = .ViewRequirements) ∧
      (key.String = "3" → (Update m (.key key)).1.view = .ViewDefinitions) ∧
      (key.String = "4" → (Update m (.key key)).1.view = .ViewIndicators)) ∧
    (∀ (B : Components) (key : KeyMsg), B.listFilterState B.zeroList ≠ .Filtering →
      (key.String = "1" ∨ key.String = "2" ∨ key.String = "3" ∨ key.String = "4") →
      Update.faults (NewModel B []) (.key key) = true) ∧
    (NewModel sampleComponents []).loading = true ∧
    (NewModel sampleComponents []).view = .ViewHome ∧
    sampleComponents.listFilterState (NewModel sampleComponents []).list ≠ .Filtering ∧
    Update.faults (NewModel sampleComponents []) (.key (keyRunes "2")) = true ∧
    Update.faults (NewModel sampleComponents []) (.key (keyOfType .KeyEnter)) = false ∧
    Update.faults sampleLoaded (.key (keyRunes "2")) = false ∧
    (Update sampleLoaded (.key (keyRunes "2"))).1.view = .ViewRequirements := by
  refine ⟨?_, ?_, ?_, rfl, rfl, by decide, rfl, rfl, rfl, rfl⟩
  · intro B m key hview hfilter hkey hdel
    rw [Update_faults_view_keys m key hview hfilter hkey, hdel]
    rfl
  · intro B m key hview hfilter hdel
    refine ⟨fun hkey => ?_, Update_view_keys m key hview hfilter⟩
    rw [Update_faults_view_keys m key hview hfilter hkey, hdel]
    rfl
  · intro B key hfilter hkey
    have hview : (NewModel B []).view ≠ .ViewDetail := by
      show ViewState.ViewHome ≠ ViewState.ViewDetail
      decide
    rw [Update_faults_view_keys (NewModel B []) key hview hfilter hkey]
    show (!B.listHasDelegate B.zeroList) = true
    rw [B.zeroList_noDelegate]
    rfl

end FedrampTui
